import Mathlib

/-!
# ytestgen: procedural test-content generators

A shallow embedding of the generators of `src/apps/ytestgen.cpp`: the two
rejection-sampling packers with the shapes they build, the hair strands of
`make_lines`, the procedural textures and the sky image.

Conventions of the embedding.

* `float` values are elements of a linearly ordered field `α` and arithmetic is
  exact, with one exception: the product that the strand index of `make_lines`
  converts to `int` is rounded by an explicit function `fl`, since the
  conversion makes its rounding visible.  Every definition is generic in `α`,
  so it runs on `ℚ` and is reasoned about on `ℝ` alike.
* The functions of the C math library and of `yocto_math` that the source only
  calls are fields of `Libm` (`sqrt`, `pow`, `log2f`, `round`) and of `Trig`
  (`cos`, `sin`, `acos`, the rotation); the sky model is a `SkyModel`; the
  constant `ym::pif` is an explicit argument.
* An operation that is undefined in C (a division by zero, a read outside an
  array, a signed overflow, a call of the sky model on a null state) returns
  `none`.
* `ym::rng_pcg32` is a position in an arbitrary stream of draws.
* `int` values that count pixels or objects (sides, coordinates, indices) are
  natural numbers; the product `s * s` or `w * h` that sizes a pixel vector is
  checked against `INT_MAX`, and every index of the pixel loops lies below it;
  `unsigned char` values are natural numbers reduced modulo `256` at every
  store.
* The local arrays of the packers are functions on the indices; their capacity
  `1024` appears as a hypothesis on `nshapes`.
* A `while` loop without a bound gets a fuel argument and returns `none` when
  the fuel is used up.
-/

namespace Ytestgen

/-! ## Numeric environment -/

/-- The type `ym::vec3f`: three components. -/
structure Vec3 (α : Type) where
  x : α
  y : α
  z : α
deriving DecidableEq, Repr

/-- The functions of the C math library that the source calls, taken as
parameters: `sqrt` (inside `ym::dist`), `pow` and `powf`, `log2f`, and `round`
followed by the cast to `int`. -/
structure Libm (α : Type) where
  sqrt : α → α
  pow : α → α → α
  log2 : α → α
  round : α → Int

/-- Modelled from the spec: the generator `ym::rng_pcg32` of `yocto_math`, a
stream of uniform draws; here any stream together with the position of the
next draw. -/
structure rng_pcg32 (α : Type) where
  stream : Nat → α
  idx : Nat

/-- Modelled from the spec: the call `next1f(&rn)` of `yocto_math`, which
returns the next draw and advances the generator. -/
def next1f {α : Type} (rn : rng_pcg32 α) : α × rng_pcg32 α :=
  (rn.stream rn.idx, { rn with idx := rn.idx + 1 })

section Field

variable {α : Type} [LinearOrderedField α]

/-- Modelled from the spec: the component-wise difference `a - b` of
`ym::vec3f` (`yocto_math` is not in the source file). -/
def Vec3.sub (a b : Vec3 α) : Vec3 α := ⟨a.x - b.x, a.y - b.y, a.z - b.z⟩

/-- Modelled from the spec: the dot product `ym::dot` of `yocto_math`. -/
def dot (a b : Vec3 α) : α := a.x * b.x + a.y * b.y + a.z * b.z

/-- Modelled from the spec: the Euclidean length `ym::length(a)` of
`yocto_math`, `sqrt(dot(a, a))`. -/
def length (m : Libm α) (a : Vec3 α) : α := m.sqrt (dot a a)

/-- Modelled from the spec: the Euclidean distance `ym::dist(a, b)` of
`yocto_math`, `length(a - b)`. -/
def dist (m : Libm α) (a b : Vec3 α) : α := length m (a.sub b)

/-! ## The packers -/

/-- The local arrays `pos`, `radius`, `levels` of a packer together with its
generator `rn`. -/
structure PackState (α : Type) where
  pos : Nat → Vec3 α
  radius : Nat → α
  levels : Nat → Int
  rn : rng_pcg32 α

/-- The tessellation level
`(int)round(log2f(powf(2, (float)l) * radius / 0.5f))`. -/
def levelOf (m : Libm α) (l : Int) (radius : α) : Int :=
  m.round (m.log2 (m.pow 2 (l : α) * radius / (1 / 2)))

/-- The collision loop
`for (int j = 1; j < i && done; j++) if (dist(pos[i], pos[j]) < radius[i] + radius[j]) done = false;`
entered with loop variable `j`, flag `done` and `n` values of `j` left below
`i`. -/
def collisionLoop (m : Libm α) (pos : Nat → Vec3 α) (radius : Nat → α) (i : Nat) :
    Nat → Nat → Bool → Bool
  | 0, _, done => done
  | n + 1, j, done =>
    if j < i && done then
      collisionLoop m pos radius i n (j + 1)
        (if dist m (pos i) (pos j) < radius i + radius j then false else done)
    else done

/-- The statements `done = true; for (int j = 1; ...) ...` of both packers:
the final value of `done` for object `i`. -/
def accepted (m : Libm α) (pos : Nat → Vec3 α) (radius : Nat → α) (i : Nat) : Bool :=
  collisionLoop m pos radius i (i - 1) 1 true

/-- One pass through the body of `while (!done)` in `make_random_shapes`:
the candidate is stored into slot `i` and tested. -/
def shapesAttempt (m : Libm α) (l : Int) (i : Nat) (st : PackState α) :
    PackState α × Bool :=
  let d1 := next1f st.rn
  let x := -2 + 4 * d1.1
  let d2 := next1f d1.2
  let z := 1 - 3 * d2.1
  let radius := Function.update st.radius i
    (15 / 100 + ((1 - z) / 3) * ((1 - z) / 3) * (1 / 2))
  let pos := Function.update st.pos i ⟨x, radius i, z⟩
  let levels := Function.update st.levels i (levelOf m l (radius i))
  (⟨pos, radius, levels, d2.2⟩, accepted m pos radius i)

/-- One pass through the body of `while (!done)` in
`make_random_rigid_shapes`. -/
def rigidAttempt (m : Libm α) (l : Int) (i : Nat) (st : PackState α) :
    PackState α × Bool :=
  let d1 := next1f st.rn
  let radius := Function.update st.radius i (1 / 10 + 4 / 10 * d1.1)
  let d2 := next1f d1.2
  let d3 := next1f d2.2
  let d4 := next1f d3.2
  let pos := Function.update st.pos i ⟨-2 + 4 * d2.1, 1 + 4 * d3.1, -2 + 4 * d4.1⟩
  let levels := Function.update st.levels i (levelOf m l (radius i))
  (⟨pos, radius, levels, d4.2⟩, accepted m pos radius i)

/-- The loop `while (!done) { ... }` for object `i`, with `fuel` passes
allowed; `none` when no candidate was accepted within the fuel. -/
def placeLoop (attempt : Nat → PackState α → PackState α × Bool) (i : Nat) :
    Nat → PackState α → Option (PackState α)
  | 0, _ => none
  | fuel + 1, st =>
    let r := attempt i st
    if r.2 then some r.1 else placeLoop attempt i fuel r.1

/-- The loop `for (auto i = 1; i < nshapes; i++) { ... while (!done) ... }`
entered with loop variable `i` and `n` objects left to place. -/
def placeFrom (attempt : Nat → PackState α → PackState α × Bool) (fuel : Nat) :
    Nat → Nat → PackState α → Option (PackState α)
  | 0, _, st => some st
  | n + 1, i, st =>
    match placeLoop attempt i fuel st with
    | none => none
    | some st1 => placeFrom attempt fuel n (i + 1) st1

/-- The placement phase of `make_random_shapes(nshapes, l)`: the arrays after
the first `for` loop, started from the arrays `st0` and a fresh generator. -/
def make_random_shapes_place (m : Libm α) (fuel nshapes : Nat) (l : Int)
    (st0 : PackState α) : Option (PackState α) :=
  placeFrom (shapesAttempt m l) fuel (nshapes - 1) 1 st0

/-- The placement phase of `make_random_rigid_shapes(nshapes, l, materials)`. -/
def make_random_rigid_shapes_place (m : Libm α) (fuel nshapes : Nat) (l : Int)
    (st0 : PackState α) : Option (PackState α) :=
  placeFrom (rigidAttempt m l) fuel (nshapes - 1) 1 st0

end Field

/-! ## Procedural textures -/

/-- The pixel type `struct rgba { ubyte r, g, b, a; }`. -/
structure rgba where
  r : Nat
  g : Nat
  b : Nat
  a : Nat
deriving DecidableEq, Repr

/-- The inner loop `for (int i = 0; i < s; i++) pixels[j * s + i] = f(i, j);`. -/
def fillRow {β : Type} (s : Nat) (f : Nat → Nat → β) (pixels : List β) (j : Nat) : List β :=
  (List.range s).foldl (fun px i => px.set (j * s + i) (f i j)) pixels

/-- The largest value of the 32-bit type `int`, `INT_MAX`. -/
def INT_MAX : Nat := 2147483647

/-- The product `a * b` of two non-negative `int` values, as in
`pixels(s * s)` and `rgba(w * h)`: beyond `INT_MAX` the signed multiplication
overflows, which is undefined (`none`). -/
def mulInt? (a b : Nat) : Option Nat := if a * b ≤ INT_MAX then some (a * b) else none

/-- The loops
`for (int j = 0; j < s; j++) for (int i = 0; i < s; i++) pixels[j * s + i] = f(i, j);`
run on a vector of `s * s` pixels that hold `zero`. -/
def pixelLoops {β : Type} (s : Nat) (zero : β) (f : Nat → Nat → β) : List β :=
  (List.range s).foldl (fillRow s f) (List.replicate (s * s) zero)

/-- The frame shared by the texture synthesizers: `std::vector<T> pixels(s * s)`
(the size an `int` product, the pixels value-initialised to `zero`) followed by
`for (int j = 0; j < s; j++) for (int i = 0; i < s; i++) pixels[j * s + i] = f(i, j);`.
The indices `j * s + i` stay below `s * s`. -/
def fillPixels {β : Type} (s : Nat) (zero : β) (f : Nat → Nat → β) : Option (List β) :=
  match mulInt? s s with
  | none => none
  | some n => some ((List.range s).foldl (fillRow s f) (List.replicate n zero))

/-- The pixel that `make_grid` stores at column `i`, row `j`. -/
def gridPixel (i j : Nat) : rgba :=
  let g := 64
  if i % g == 0 || i % g == g - 1 || j % g == 0 || j % g == g - 1 then ⟨90, 90, 90, 255⟩
  else ⟨128, 128, 128, 255⟩

/-- The function `make_grid(s)`. -/
def make_grid (s : Nat) : Option (List rgba) := fillPixels s ⟨0, 0, 0, 0⟩ gridPixel

/-- The pixel that `make_checker` stores at column `i`, row `j`. -/
def checkerPixel (i j : Nat) : rgba :=
  if (i / 64 + j / 64) % 2 != 0 then ⟨90, 90, 90, 255⟩ else ⟨128, 128, 128, 255⟩

/-- The function `make_checker(s)`. -/
def make_checker (s : Nat) : Option (List rgba) := fillPixels s ⟨0, 0, 0, 0⟩ checkerPixel

/-- A store into an `unsigned char`: reduction modulo `256`. -/
def ubyte (n : Int) : Nat := (n % 256).toNat

/-- The function `hsv_to_rgb(h, s, v)` on bytes. -/
def hsv_to_rgb (h s v : Nat) : rgba :=
  if s == 0 then ⟨v, v, v, 255⟩
  else
    let region := ubyte (h / 43)
    let remainder := ubyte (((h : Int) - (region * 43 : Nat)) * 6)
    let p := ubyte (((v : Int) * (255 - s)) >>> 8)
    let q := ubyte (((v : Int) * (255 - (((s * remainder : Nat) : Int) >>> 8))) >>> 8)
    let t := ubyte (((v : Int) * (255 - ((((s : Int) * (255 - remainder)) >>> 8)))) >>> 8)
    match region with
    | 0 => ⟨v, t, p, 255⟩
    | 1 => ⟨q, v, p, 255⟩
    | 2 => ⟨p, v, t, 255⟩
    | 3 => ⟨p, q, v, 255⟩
    | 4 => ⟨t, p, v, 255⟩
    | _ => ⟨v, p, q, 255⟩

/-- The gray level `pv` that `make_rchecker` computes at column `i`, row `j`,
every `+=` and `-=` stored back into the `ubyte`. -/
def rcheckerValue (i j : Nat) : Nat :=
  let pv := 128
  if i % 32 != 0 && j % 32 != 0 then
    let pv := if (i / 64 + j / 64) % 2 != 0 then ubyte (pv + 16) else ubyte (pv - 16)
    let pv := if (i / 16 + j / 16) % 2 != 0 then ubyte (pv + 4) else ubyte (pv - 4)
    let pv := if (i / 4 + j / 4) % 2 != 0 then ubyte (pv + 1) else ubyte (pv - 1)
    pv
  else 196

/-- The function `make_rchecker(s)`. -/
def make_rchecker (s : Nat) : Option (List rgba) :=
  fillPixels s ⟨0, 0, 0, 0⟩ (fun i j => ⟨rcheckerValue i j, rcheckerValue i j, rcheckerValue i j, 255⟩)

/-- The type `ym::vec4f`: four components. -/
structure Vec4 (α : Type) where
  x : α
  y : α
  z : α
  w : α
deriving DecidableEq, Repr

section Ramp

variable {α : Type} [LinearOrderedField α]

/-- The value `u` that both gamma ramps compute at column `i`, row `j`:
`u = j / float(s - 1); if (i < s / 3) u = pow(u, 2.2f); if (i > (s * 2) / 3) u = pow(u, 1 / 2.2f);`. -/
def gammaValue (m : Libm α) (s i j : Nat) : α :=
  let u : α := (j : α) / ((s : α) - 1)
  let u := if i < s / 3 then m.pow u (22 / 10) else u
  let u := if i > (s * 2) / 3 then m.pow u (1 / (22 / 10)) else u
  u

/-- The function `make_gammarampf(s)`. -/
def make_gammarampf (m : Libm α) (s : Nat) : Option (List (Vec4 α)) :=
  fillPixels s ⟨0, 0, 0, 0⟩ (fun i j => let u := gammaValue m s i j; ⟨u, u, u, 1⟩)

variable [FloorRing α]

/-- The conversion `(unsigned char)(x)` of a `float`: truncation toward zero,
then the store into the byte. -/
def toUbyte (x : α) : Nat := ubyte (if 0 ≤ x then ⌊x⌋ else ⌈x⌉)

/-- The function `make_gammaramp(s)`. -/
def make_gammaramp (m : Libm α) (s : Nat) : Option (List rgba) :=
  fillPixels s ⟨0, 0, 0, 0⟩
    (fun i j => let c := toUbyte (gammaValue m s i j * 255); ⟨c, c, c, 255⟩)

end Ramp

/-! ## Sky sampler -/

section Sky

variable {α : Type} [LinearOrderedField α]

/-- Modelled from the spec: `ym::clamp(x, lo, hi)` of `yocto_math`, which is
not in the source file; it clamps `x` into `[lo, hi]` as `min(max(x, lo), hi)`. -/
def clamp (x lo hi : α) : α := min (max x lo) hi

/-- The polar angle that `make_sunsky_hdr(w, h, ...)` uses in row `j`:
`theta = ym::pif * (j + 0.5f) / h; if (include_ground) theta = ym::clamp(theta, 0.0f, ym::pif / 2 - 0.001f);`
with the constant `ym::pif` as the argument `pif`. -/
def skyTheta (pif : α) (h : Nat) (include_ground : Bool) (j : Nat) : α :=
  let theta := pif * ((j : α) + 1 / 2) / (h : α)
  if include_ground then clamp theta 0 (pif / 2 - 1 / 1000) else theta

end Sky

/-! ## Hair strands: `make_lines` -/

/-- The trigonometric functions of the C math library that the source calls,
and the rotation of `yocto_math`, taken as parameters:
`rotate axis angle p` stands for
`transform_point(rotation_frame3(axis, angle), p)`. -/
structure Trig (α : Type) where
  cos : α → α
  sin : α → α
  acos : α → α
  rotate : Vec3 α → α → Vec3 α → Vec3 α

/-- The tables `base`, `dir`, `ln` that `make_lines` fills before it evaluates
vertices. -/
structure StrandTables (α : Type) where
  base : Nat → Vec3 α
  dir : Nat → Vec3 α
  ln : Nat → α

/-- Modelled from the spec: `ym::clamp(x, lo, hi)` of `yocto_math` at type
`int`, `min(max(x, lo), hi)`. -/
def clampInt (x lo hi : Int) : Int := min (max x lo) hi

section Lines

variable {α : Type} [LinearOrderedField α]

/-- Modelled from the spec: the sum `a + b` of `ym::vec3f`. -/
def Vec3.add (a b : Vec3 α) : Vec3 α := ⟨a.x + b.x, a.y + b.y, a.z + b.z⟩

/-- Modelled from the spec: the product `a * k` of a `ym::vec3f` and a
`float`. -/
def Vec3.scale (a : Vec3 α) (k : α) : Vec3 α := ⟨a.x * k, a.y * k, a.z * k⟩

/-- Modelled from the spec: the component-wise product `a * b` of
`ym::vec3f`. -/
def Vec3.mul (a b : Vec3 α) : Vec3 α := ⟨a.x * b.x, a.y * b.y, a.z * b.z⟩

/-- One pass of the setup loop of `make_lines` for strand `i`:
`z = -1 + 2 * next1f(&rn); r = sqrt(clamp(1 - z * z, 0, 1)); phi = 2 * pif * next1f(&rn);`
`base[i] = {r * cos(phi), r * sin(phi), z}; dir[i] = base[i]; ln[i] = 0.15f + 0.15f * next1f(&rn);`. -/
def strandSetupStep (m : Libm α) (t : Trig α) (pif : α)
    (st : StrandTables α × rng_pcg32 α) (i : Nat) : StrandTables α × rng_pcg32 α :=
  let d1 := next1f st.2
  let z := -1 + 2 * d1.1
  let r := m.sqrt (clamp (1 - z * z) 0 1)
  let d2 := next1f d1.2
  let phi := 2 * pif * d2.1
  let base := Function.update st.1.base i ⟨r * t.cos phi, r * t.sin phi, z⟩
  let dir := Function.update st.1.dir i (base i)
  let d3 := next1f d2.2
  let ln := Function.update st.1.ln i (15 / 100 + 15 / 100 * d3.1)
  (⟨base, dir, ln⟩, d3.2)

/-- The setup loop `for (auto i = 0; i <= num; i++) { ... }` of `make_lines`
on the zero-initialised vectors. -/
def strandSetup (m : Libm α) (t : Trig α) (pif : α) (num : Nat) (rn : rng_pcg32 α) :
    StrandTables α × rng_pcg32 α :=
  (List.range (num + 1)).foldl (strandSetupStep m t pif)
    (⟨fun _ => ⟨0, 0, 0⟩, fun _ => ⟨0, 0, 0⟩, fun _ => 0⟩, rn)

/-- The comparison `d < md` of the neighbour scan, where `md` starts as
`HUGE_VALF` (here `none`). -/
def belowMin (d : α) (md : Option α) : Bool :=
  match md with
  | none => true
  | some b => d < b

/-- The neighbour scan of `make_lines`:
`int cc = 0; float md = HUGE_VALF; for (int k = 0; k < nc; k++) { float d = dist(base[i], base[k]); if (d < md) { md = d; cc = k; } }`,
returning `(md, cc)`. -/
def nearestScan (m : Libm α) (base : Nat → Vec3 α) (i nc : Nat) : Option α × Nat :=
  (List.range nc).foldl
    (fun st k =>
      let d := dist m (base i) (base k)
      if belowMin d st.1 then (some d, k) else st)
    (none, 0)

/-- The noise step of the position function:
`if (r) pos += {r * (0.5f - next1f(&rn)), r * (0.5f - next1f(&rn)), r * (0.5f - next1f(&rn))};`. -/
def linesNoise (r : α) (pos : Vec3 α) (rn : rng_pcg32 α) : Vec3 α × rng_pcg32 α :=
  if r ≠ 0 then
    let d1 := next1f rn
    let d2 := next1f d1.2
    let d3 := next1f d2.2
    (pos.add ⟨r * (1 / 2 - d1.1), r * (1 / 2 - d2.1), r * (1 / 2 - d3.1)⟩, d3.2)
  else (pos, rn)

/-- The bend step of the position function:
`if (s && uv[0]) pos = transform_point(rotation_frame3({0, 1, 0}, s * uv[0] * uv[0]), pos);`. -/
def linesBend (t : Trig α) (s u : α) (pos : Vec3 α) : Vec3 α :=
  if s ≠ 0 ∧ u ≠ 0 then t.rotate ⟨0, 1, 0⟩ (s * u * u) pos else pos

/-- The clump step of the position function, for strand `i`:
`auto nc = 128; if (c && i > nc) { ...scan...; cpos = base[cc] * (1 + uv[0] * ln[cc]);`
`pos = pos * (1 - c * uv[0] * uv[0]) + cpos * (c * uv[0] * uv[0]); }`. -/
def linesClump (m : Libm α) (tb : StrandTables α) (c u : α) (i : Int) (pos : Vec3 α) :
    Vec3 α :=
  let nc : Nat := 128
  if c ≠ 0 ∧ i > (nc : Int) then
    let cc := (nearestScan m tb.base i.toNat nc).2
    let cpos := (tb.base cc).scale (1 + u * tb.ln cc)
    (pos.scale (1 - c * u * u)).add (cpos.scale (c * u * u))
  else pos

variable [FloorRing α]

/-- The conversion `(int)(x)` of a `float`: truncation toward zero. -/
def truncInt (x : α) : Int := if 0 ≤ x then ⌊x⌋ else ⌈x⌉

/-- The strand index of the position function of `make_lines`:
`ym::clamp((int)(uv[1] * (num + 1)), 0, num)`.  The `int` value `num + 1` is
converted to `float` and the product is a `float`, both rounded by `fl`, before
the conversion to `int` truncates it. -/
def strandIndex (fl : α → α) (num : Nat) (v : α) : Int :=
  clampInt (truncInt (fl (v * fl ((num + 1 : Nat) : α)))) 0 num

/-- The position before clumping: the strand point
`base[i] * (1 + uv[0] * ln[i])`, then the noise step, then the bend step. -/
def linesPosBent (t : Trig α) (fl : α → α) (num : Nat) (tb : StrandTables α) (r s : α)
    (rn : rng_pcg32 α) (u v : α) : Vec3 α × rng_pcg32 α :=
  let i := strandIndex fl num v
  let pos := (tb.base i.toNat).scale (1 + u * tb.ln i.toNat)
  let n := linesNoise r pos rn
  (linesBend t s u n.1, n.2)

/-- The position function that `make_lines` hands to `yshape::make_lines`,
evaluated at `uv = (u, v)` with the shared generator `rn`: the position
returned, `scale * pos`, and the generator afterwards; `fl` is the rounding
used by the strand index. -/
def linesPos (m : Libm α) (t : Trig α) (fl : α → α) (num : Nat) (tb : StrandTables α)
    (r c s : α) (scale : Vec3 α) (rn : rng_pcg32 α) (u v : α) : Vec3 α × rng_pcg32 α :=
  let b := linesPosBent t fl num tb r s rn u v
  (scale.mul (linesClump m tb c u (strandIndex fl num v) b.1), b.2)

end Lines

/-! ## Colored textures -/

/-- The integer quotient `a / b` of the source, undefined (`none`) for a zero
divisor. -/
def divNat? (a b : Nat) : Option Nat := if b = 0 then none else some (a / b)

/-- The inner loop `for (int i = 0; i < s; i++) pixels[j * s + i] = f(i, j);`
for a pixel expression that may be undefined: the first undefined pixel
ends the run. -/
def fillRowM {β : Type} (s : Nat) (f : Nat → Nat → Option β) (pixels : List β) (j : Nat) :
    Option (List β) :=
  (List.range s).foldlM (fun px i => (f i j).map (fun p => px.set (j * s + i) p)) pixels

/-- The frame of `fillPixels` for a pixel expression that may be undefined. -/
def fillPixelsM {β : Type} (s : Nat) (zero : β) (f : Nat → Nat → Option β) :
    Option (List β) :=
  match mulInt? s s with
  | none => none
  | some n => (List.range s).foldlM (fillRowM s f) (List.replicate n zero)

/-- The pixel that `make_colored(s)` stores at column `i`, row `j`:
`ubyte ph = 32 * (i / (s / 8)); ubyte pv = 128; ubyte ps = 64 + 16 * (7 - j / (s / 8));`
then the cell test, then `hsv_to_rgb(ph, ps, pv)`. -/
def coloredPixel (s i j : Nat) : Option rgba :=
  match divNat? i (s / 8), divNat? j (s / 8) with
  | some bi, some bj =>
    let ph := ubyte (32 * bi)
    let pv := 128
    let ps := ubyte (64 + 16 * (7 - (bj : Int)))
    if i % 32 != 0 && j % 32 != 0 then
      let pv := if (i / 64 + j / 64) % 2 != 0 then ubyte (pv + 16) else ubyte (pv - 16)
      some (hsv_to_rgb ph ps pv)
    else
      let pv := 196
      let ps := 32
      some (hsv_to_rgb ph ps pv)
  | _, _ => none

/-- The function `make_colored(s)`; `none` when `s * s` overflows or a pixel
divides by zero. -/
def make_colored (s : Nat) : Option (List rgba) := fillPixelsM s ⟨0, 0, 0, 0⟩ (coloredPixel s)

/-- The pixel that `make_rcolored(s)` stores at column `i`, row `j`: as in
`make_colored`, with the three-level value of `make_rchecker`. -/
def rcoloredPixel (s i j : Nat) : Option rgba :=
  match divNat? i (s / 8), divNat? j (s / 8) with
  | some bi, some bj =>
    let ph := ubyte (32 * bi)
    let pv := 128
    let ps := ubyte (64 + 16 * (7 - (bj : Int)))
    if i % 32 != 0 && j % 32 != 0 then
      let pv := if (i / 64 + j / 64) % 2 != 0 then ubyte (pv + 16) else ubyte (pv - 16)
      let pv := if (i / 16 + j / 16) % 2 != 0 then ubyte (pv + 4) else ubyte (pv - 4)
      let pv := if (i / 4 + j / 4) % 2 != 0 then ubyte (pv + 1) else ubyte (pv - 1)
      some (hsv_to_rgb ph ps pv)
    else
      let pv := 196
      let ps := 32
      some (hsv_to_rgb ph ps pv)
  | _, _ => none

/-- The function `make_rcolored(s)`; `none` when `s * s` overflows or a pixel
divides by zero. -/
def make_rcolored (s : Nat) : Option (List rgba) :=
  fillPixelsM s ⟨0, 0, 0, 0⟩ (rcoloredPixel s)

/-! ## Sky sampler: `make_sunsky_hdr` -/

/-- The sky model of `sunsky/ArHosekSkyModel`, which is not in the source
file, taken as a parameter: `alloc_init turbidity albedo elevation` stands for
`arhosek_rgb_skymodelstate_alloc_init` and returns the state pointer, `none`
for a null pointer; `radiance state theta gamma channel` stands for
`arhosek_tristim_skymodel_radiance` on a state that exists. -/
structure SkyModel (α σ : Type) where
  alloc_init : α → α → α → Option σ
  radiance : σ → α → α → Nat → α

/-- Modelled from the spec: the call
`arhosek_tristim_skymodel_radiance(state, theta, gamma, channel)` on a pointer
as a constructor call returned it.  The model evaluates a constructed state; on
a null pointer there is no state to read and the call is undefined (`none`). -/
def skyRadiance {α σ : Type} (sky : SkyModel α σ) (state : Option σ) (theta gamma : α)
    (channel : Nat) : Option α :=
  match state with
  | none => none
  | some st => some (sky.radiance st theta gamma channel)

/-- The loops
`for (int j = 0; j < h; j++) for (int i = 0; i < w; i++) rgba[j * w + i] = f(i, j);`
run on a vector of `w * h` pixels that hold `zero`. -/
def rectLoops {β : Type} (w h : Nat) (zero : β) (f : Nat → Nat → β) : List β :=
  (List.range h).foldl (fillRow w f) (List.replicate (w * h) zero)

/-- The frame of `make_sunsky_hdr`: `std::vector<T> rgba(w * h)` (the size an
`int` product) followed by
`for (int j = 0; j < h; j++) for (int i = 0; i < w; i++) rgba[j * w + i] = f(i, j);`
for a pixel expression that may be undefined: the first undefined pixel ends
the run. -/
def fillRectM {β : Type} (w h : Nat) (zero : β) (f : Nat → Nat → Option β) :
    Option (List β) :=
  match mulInt? w h with
  | none => none
  | some n => (List.range h).foldlM (fillRowM w f) (List.replicate n zero)

section SkyImage

variable {α σ : Type} [LinearOrderedField α]

/-- The pixel that `make_sunsky_hdr` stores at column `i`, row `j`, given the
three states `st` and the sun direction `sun_w`: the three radiance calls on
`skymodel_state[0]`, `skymodel_state[1]`, `skymodel_state[2]`, then
`{scale * sky[0], scale * sky[1], scale * sky[2], 1}`. -/
def sunskyPixel (t : Trig α) (sky : SkyModel α σ) (pif : α) (w h : Nat) (scale : α)
    (include_ground : Bool) (st : Nat → Option σ) (sun_w : Vec3 α) (i j : Nat) :
    Option (Vec4 α) :=
  let theta := skyTheta pif h include_ground j
  let phi := 2 * pif * ((i : α) + 1 / 2) / (w : α)
  let pw : Vec3 α := ⟨t.cos phi * t.sin theta, t.sin phi * t.sin theta, t.cos theta⟩
  let gamma := t.acos (clamp (dot sun_w pw) (-1) 1)
  match skyRadiance sky (st 0) theta gamma 0, skyRadiance sky (st 1) theta gamma 1,
    skyRadiance sky (st 2) theta gamma 2 with
  | some r, some g, some b => some ⟨scale * r, scale * g, scale * b, 1⟩
  | _, _, _ => none

/-- The function `make_sunsky_hdr(w, h, sun_theta, turbidity, ground, scale, include_ground)`:
the vector of `w * h` pixels, the three constructor calls, the sun direction
at azimuth `pif`, and the pixel loops. -/
def make_sunsky_hdr (t : Trig α) (sky : SkyModel α σ) (pif : α) (w h : Nat)
    (sun_theta turbidity : α) (ground : Vec3 α) (scale : α) (include_ground : Bool) :
    Option (List (Vec4 α)) :=
  let skymodel_state : Nat → Option σ := fun k =>
    match k with
    | 0 => sky.alloc_init turbidity ground.x sun_theta
    | 1 => sky.alloc_init turbidity ground.x sun_theta
    | _ => sky.alloc_init turbidity ground.x sun_theta
  let sun_phi := pif
  let sun_w : Vec3 α := ⟨t.cos sun_phi * t.sin sun_theta, t.sin sun_phi * t.sin sun_theta,
    t.cos sun_theta⟩
  fillRectM w h ⟨0, 0, 0, 0⟩
    (sunskyPixel t sky pif w h scale include_ground skymodel_state sun_w)

end SkyImage

/-! ## The packers: building the shapes -/

/-- The type `yshape::stdsurface_type`, the kinds used by the packers. -/
inductive stdsurface_type where
  | uvspherecube
  | uvspherizedcube
  | uvflipcapsphere
  | uvcube
deriving DecidableEq, Repr

/-- A `yapp::shape` as the packers make it, recorded by the call that builds
it: `make_floor(name, materials[mat], s, p, l, pos, rot, scale)` or
`make_shape(name, materials[mat], l, stype, pos, rot, scale)`.  Names are left
out. -/
inductive shape (α : Type) where
  | floor (mat : Nat) (s p : α) (l : Int) (pos rot scale : Vec3 α)
  | surface (mat : Nat) (l : Int) (stype : stdsurface_type) (pos rot scale : Vec3 α)
deriving DecidableEq, Repr

/-- The variables that the second loop of a packer changes: `levels`, the
generator `rn` and the vector `shapes` (a null pointer is `none`). -/
structure BuildState (α : Type) where
  levels : Nat → Int
  rn : rng_pcg32 α
  shapes : List (Option (shape α))

/-- The read `xs[k]` of a C array at an `int` index; `none` outside the
array. -/
def index? {β : Type} (xs : List β) (k : Int) : Option β :=
  if 0 ≤ k then xs[k.toNat]? else none

section Build

variable {α : Type} [LinearOrderedField α] [FloorRing α]

/-- The second loop of `make_random_shapes`, entered with loop variable `i`
and `n` objects left:
`stype = stypes[(int)(next1f(&rn) * 3)]; if (stype == uvflipcapsphere) levels[i]++;`
`shapes[i] = make_shape(name, materials[0], levels[i], stype, pos[i], zero3f, {radius[i], radius[i], radius[i]});`. -/
def shapesBuild (pos : Nat → Vec3 α) (radius : Nat → α) :
    Nat → Nat → BuildState α → Option (BuildState α)
  | 0, _, b => some b
  | n + 1, i, b =>
    let d := next1f b.rn
    match index? [stdsurface_type.uvspherecube, stdsurface_type.uvspherizedcube,
      stdsurface_type.uvflipcapsphere] (truncInt (d.1 * 3)) with
    | none => none
    | some stype =>
      let levels :=
        if stype = stdsurface_type.uvflipcapsphere then
          Function.update b.levels i (b.levels i + 1)
        else b.levels
      let shapes := b.shapes.set i
        (some (shape.surface 0 (levels i) stype (pos i) ⟨0, 0, 0⟩
          ⟨radius i, radius i, radius i⟩))
      shapesBuild pos radius n (i + 1) ⟨levels, d.2, shapes⟩

/-- The second loop of `make_random_rigid_shapes`:
`stype = stypes[(int)(next1f(&rn) * 2)];`
`shapes[i] = make_shape(name, materials[i], levels[i], stype, pos[i], zero3f, {radius[i], radius[i], radius[i]});`. -/
def rigidBuild (pos : Nat → Vec3 α) (radius : Nat → α) :
    Nat → Nat → BuildState α → Option (BuildState α)
  | 0, _, b => some b
  | n + 1, i, b =>
    let d := next1f b.rn
    match index? [stdsurface_type.uvspherecube, stdsurface_type.uvcube]
      (truncInt (d.1 * 2)) with
    | none => none
    | some stype =>
      let shapes := b.shapes.set i
        (some (shape.surface i (b.levels i) stype (pos i) ⟨0, 0, 0⟩
          ⟨radius i, radius i, radius i⟩))
      rigidBuild pos radius n (i + 1) ⟨b.levels, d.2, shapes⟩

/-- The function `make_random_shapes(nshapes, l)`: the vector `shapes` with
the floor in slot `0`, the placement loop on the arrays `st0` (with `fuel`
passes allowed per object), then the second loop.  The materials are
referred to by their index in `make_random_materials(nshapes)`. -/
def make_random_shapes (m : Libm α) (fuel nshapes : Nat) (l : Int) (st0 : PackState α) :
    Option (List (Option (shape α))) :=
  let shapes := (List.replicate nshapes none).set 0
    (some (shape.floor 0 6 4 6 ⟨0, 0, -4⟩ ⟨0, 0, 0⟩ ⟨6, 6, 6⟩))
  match make_random_shapes_place m fuel nshapes l st0 with
  | none => none
  | some st =>
    match shapesBuild st.pos st.radius (nshapes - 1) 1 ⟨st.levels, st.rn, shapes⟩ with
    | none => none
    | some b => some b.shapes

/-- The function `make_random_rigid_shapes(nshapes, l, materials)`. -/
def make_random_rigid_shapes (m : Libm α) (fuel nshapes : Nat) (l : Int)
    (st0 : PackState α) : Option (List (Option (shape α))) :=
  let shapes := (List.replicate nshapes none).set 0
    (some (shape.surface 0 2 stdsurface_type.uvcube ⟨0, -(1 / 2), 0⟩ ⟨0, 0, 0⟩
      ⟨6, 1 / 2, 6⟩))
  match make_random_rigid_shapes_place m fuel nshapes l st0 with
  | none => none
  | some st =>
    match rigidBuild st.pos st.radius (nshapes - 1) 1 ⟨st.levels, st.rn, shapes⟩ with
    | none => none
    | some b => some b.shapes

end Build

/-! ## Materials: `make_random_materials` -/

/-- A `yapp::texture`, given by its path. -/
structure texture where
  path : String
deriving DecidableEq, Repr

/-- A `yapp::material` as `make_material` fills it (a null texture pointer is
`none`); names are left out. -/
structure material (α : Type) where
  ke : Vec3 α
  kd : Vec3 α
  ks : Vec3 α
  kt : Vec3 α
  rs : α
  ke_txt : Option texture
  kd_txt : Option texture
  ks_txt : Option texture
  kt_txt : Option texture
deriving DecidableEq, Repr

/-- The write `xs[i] = x` into a vector; `none` outside the vector. -/
def store? {β : Type} (xs : List β) (i : Nat) (x : β) : Option (List β) :=
  if i < xs.length then some (xs.set i x) else none

/-- The function `make_random_textures()`: the five textures, in order. -/
def make_random_textures : List texture :=
  [⟨"grid.png"⟩, ⟨"checker.png"⟩, ⟨"rchecker.png"⟩, ⟨"colored.png"⟩, ⟨"rcolored.png"⟩]

/-- The local variables `txt`, `c`, `rs`, `mt` of one pass of the loop of
`make_random_materials`, with the generator after their draws. -/
structure MatDraw (α : Type) where
  txt : Int
  c : Vec3 α
  rs : α
  mt : Int
  rn : rng_pcg32 α

/-- The variables that the loop of `make_random_materials` changes: the
generator `rn` and the vector `materials`. -/
structure MatState (α : Type) where
  rn : rng_pcg32 α
  materials : List (Option (material α))

section Materials

variable {α : Type} [LinearOrderedField α]

/-- The function `make_material(name, ke, kd, ks, kt, rs, ke_txt, kd_txt, ks_txt, kt_txt)`. -/
def make_material (ke kd ks kt : Vec3 α) (rs : α) (ke_txt kd_txt ks_txt kt_txt : Option texture) :
    material α :=
  ⟨ke, kd, ks, kt, rs, ke_txt, kd_txt, ks_txt, kt_txt⟩

/-- The function `make_diffuse(name, kd, txt)`. -/
def make_diffuse (kd : Vec3 α) (txt : Option texture) : material α :=
  make_material ⟨0, 0, 0⟩ kd ⟨0, 0, 0⟩ ⟨0, 0, 0⟩ 0 none txt none none

/-- The function `make_plastic(name, kd, rs, txt)`. -/
def make_plastic (kd : Vec3 α) (rs : α) (txt : Option texture) : material α :=
  make_material ⟨0, 0, 0⟩ kd ⟨4 / 100, 4 / 100, 4 / 100⟩ ⟨0, 0, 0⟩ rs none txt none none

/-- The function `make_metal(name, kd, rs, txt)`. -/
def make_metal (kd : Vec3 α) (rs : α) (txt : Option texture) : material α :=
  make_material ⟨0, 0, 0⟩ ⟨0, 0, 0⟩ kd ⟨0, 0, 0⟩ rs none none txt none

variable [FloorRing α]

/-- The draws of one pass of the loop of `make_random_materials`:
`txt = -1; if (next1f(&rn) < 0.5f) txt = (int)(next1f(&rn) * 6) - 1;`
`c = (txt >= 0) ? {1, 1, 1} : {0.2f + 0.3f * next1f(&rn), 0.2f + 0.3f * next1f(&rn), 0.2f + 0.3f * next1f(&rn)};`
`rs = 0.01f + 0.25f * next1f(&rn); mt = (int)(next1f(&rn) * 4);`
with the generator afterwards. -/
def materialDraw (rn : rng_pcg32 α) : MatDraw α :=
  let d1 := next1f rn
  let pick : Int × rng_pcg32 α :=
    if d1.1 < 1 / 2 then (truncInt ((next1f d1.2).1 * 6) - 1, (next1f d1.2).2)
    else (-1, d1.2)
  let txt := pick.1
  let col : Vec3 α × rng_pcg32 α :=
    if txt ≥ 0 then (⟨1, 1, 1⟩, pick.2)
    else
      let e1 := next1f pick.2
      let e2 := next1f e1.2
      let e3 := next1f e2.2
      (⟨2 / 10 + 3 / 10 * e1.1, 2 / 10 + 3 / 10 * e2.1, 2 / 10 + 3 / 10 * e3.1⟩, e3.2)
  let d4 := next1f col.2
  let rs := 1 / 100 + 25 / 100 * d4.1
  let d5 := next1f d4.2
  let mt := truncInt (d5.1 * 4)
  ⟨txt, col.1, rs, mt, d5.2⟩

/-- The loop of `make_random_materials`, entered with loop variable `i` and
`n` materials left: the draws, then `materials[i]` is made diffuse (`mt == 0`),
metal (`mt == 1`) or plastic with the texture
`(txt < 0) ? nullptr : textures[txt]`. -/
def materialsLoop (textures : List texture) : Nat → Nat → MatState α → Option (MatState α)
  | 0, _, st => some st
  | n + 1, i, st =>
    let d := materialDraw st.rn
    match (if d.txt < 0 then some none else (index? textures d.txt).map some) with
    | none => none
    | some tx =>
      let mat :=
        if d.mt = 0 then make_diffuse d.c tx
        else if d.mt = 1 then make_metal d.c d.rs tx
        else make_plastic d.c d.rs tx
      match store? st.materials i (some mat) with
      | none => none
      | some ms => materialsLoop textures n (i + 1) ⟨d.rn, ms⟩

/-- The function `make_random_materials(nshapes)`, with its fresh generator
`rn` as an argument: the textures, the floor material in slot `0`, then the
loop. -/
def make_random_materials (nshapes : Nat) (rn : rng_pcg32 α) :
    Option (List (Option (material α))) :=
  let textures := make_random_textures
  match index? textures 0 with
  | none => none
  | some t0 =>
    match store? (List.replicate nshapes none) 0
      (some (make_diffuse (⟨1, 1, 1⟩ : Vec3 α) (some t0))) with
    | none => none
    | some ms =>
      match materialsLoop textures (nshapes - 1) 1 ⟨rn, ms⟩ with
      | none => none
      | some st => some st.materials

/-- The second loop of `make_random_rigid_shapes` with the reads `materials[i]`
of its argument `materials` checked against the size of that vector. -/
def rigidBuildOn {μ : Type} (materials : List μ) (pos : Nat → Vec3 α) (radius : Nat → α) :
    Nat → Nat → BuildState α → Option (BuildState α)
  | 0, _, b => some b
  | n + 1, i, b =>
    let d := next1f b.rn
    match index? [stdsurface_type.uvspherecube, stdsurface_type.uvcube]
      (truncInt (d.1 * 2)), materials[i]? with
    | some stype, some _ =>
      let shapes := b.shapes.set i
        (some (shape.surface i (b.levels i) stype (pos i) ⟨0, 0, 0⟩
          ⟨radius i, radius i, radius i⟩))
      rigidBuildOn materials pos radius n (i + 1) ⟨b.levels, d.2, shapes⟩
    | _, _ => none

/-- The function `make_random_rigid_shapes(nshapes, l, materials)` with the
reads `materials[0]` and `materials[i]` of its argument checked against the
size of that vector; it is `make_random_rigid_shapes` when they are all
inside. -/
def make_random_rigid_shapes_on {μ : Type} (materials : List μ) (m : Libm α)
    (fuel nshapes : Nat) (l : Int) (st0 : PackState α) : Option (List (Option (shape α))) :=
  match materials[0]? with
  | none => none
  | some _ =>
    let shapes := (List.replicate nshapes none).set 0
      (some (shape.surface 0 2 stdsurface_type.uvcube ⟨0, -(1 / 2), 0⟩ ⟨0, 0, 0⟩
        ⟨6, 1 / 2, 6⟩))
    match make_random_rigid_shapes_place m fuel nshapes l st0 with
    | none => none
    | some st =>
      match rigidBuildOn materials st.pos st.radius (nshapes - 1) 1
        ⟨st.levels, st.rn, shapes⟩ with
      | none => none
      | some b => some b.shapes

end Materials

/-! ## The intermediates of `hsv_to_rgb` before they are stored -/

/-- The region `h / 43` of `hsv_to_rgb` in unbounded arithmetic. -/
def hsvRegion (h : Nat) : Nat := h / 43

/-- The remainder `(h - region * 43) * 6` of `hsv_to_rgb` in unbounded
arithmetic. -/
def hsvRemainder (h : Nat) : Nat := (h - hsvRegion h * 43) * 6

/-- The value `p = (v * (255 - s)) >> 8` of `hsv_to_rgb` in unbounded
arithmetic. -/
def hsvP (s v : Nat) : Nat := (v * (255 - s)) / 256

/-- The value `q = (v * (255 - ((s * remainder) >> 8))) >> 8` of `hsv_to_rgb`
in unbounded arithmetic. -/
def hsvQ (h s v : Nat) : Nat := (v * (255 - (s * hsvRemainder h) / 256)) / 256

/-- The value `t = (v * (255 - ((s * (255 - remainder)) >> 8))) >> 8` of
`hsv_to_rgb` in unbounded arithmetic. -/
def hsvT (h s v : Nat) : Nat := (v * (255 - (s * (255 - hsvRemainder h)) / 256)) / 256
/-! ## Specification predicates -/

section Predicates

variable {α : Type} [LinearOrderedField α]

/-- What the placement loops use of an attempt: its verdict is the collision
test on the arrays it leaves, and it writes slot `i` only. -/
def AttemptSpec (m : Libm α) (attempt : Nat → PackState α → PackState α × Bool) : Prop :=
  ∀ i st,
    (attempt i st).2 = accepted m (attempt i st).1.pos (attempt i st).1.radius i ∧
    ∀ k, k ≠ i →
      (attempt i st).1.pos k = st.pos k ∧ (attempt i st).1.radius k = st.radius k

/-- Objects `1 .. i-1` of the arrays are pairwise non-overlapping, later
against earlier. -/
def Packed (m : Libm α) (st : PackState α) (i : Nat) : Prop :=
  ∀ a b, 1 ≤ b → b < a → a < i →
    st.radius a + st.radius b ≤ dist m (st.pos a) (st.pos b)

/-- The arrays of `st` with slot `0` (the floor) overwritten. -/
def withFloor (st : PackState α) (p0 : Vec3 α) (r0 : α) : PackState α :=
  { st with pos := Function.update st.pos 0 p0, radius := Function.update st.radius 0 r0 }

/-- What the ramps use of `pow`: for bases in `[0, 1]` and a positive exponent
the result stays in `[0, 1]` and is monotone in the base. -/
def PowSpec (m : Libm α) : Prop :=
  ∀ x y e : α, 0 ≤ x → x ≤ y → y ≤ 1 → 0 < e →
    0 ≤ m.pow x e ∧ m.pow x e ≤ m.pow y e ∧ m.pow y e ≤ 1

/-- Two packer states have the same generator and the same contents in the
slots below `n` of `pos`, `radius` and `levels`. -/
def SameBelow (n : Nat) (a b : PackState α) : Prop :=
  a.rn = b.rn ∧
    ∀ k, k < n → a.pos k = b.pos k ∧ a.radius k = b.radius k ∧ a.levels k = b.levels k

/-- What is used of the rounding `fl` of a `float` result: it is monotone and
leaves the integers up to `2 ^ 24` unchanged, as rounding to the nearest
32-bit float does. -/
def RoundSpec (fl : α → α) : Prop :=
  (∀ x y : α, x ≤ y → fl x ≤ fl y) ∧ ∀ n : Nat, n ≤ 2 ^ 24 → fl (n : α) = (n : α)

/-- The strand index as the specification words it:
`clamp(round(v * (strandCount + 1)), 0, strandCount)`. -/
def strandIndexSpec [FloorRing α] (num : Nat) (v : α) : Int :=
  clampInt (round (v * ((num + 1 : Nat) : α))) 0 num

/-- The point of the unit sphere that the setup loop of `make_lines` computes
from the draws `u1`, `u2`: `z = -1 + 2 * u1`, `r = sqrt(clamp(1 - z * z, 0, 1))`,
`phi = 2 * pif * u2`, point `(r * cos(phi), r * sin(phi), z)`. -/
def strandBase (m : Libm α) (t : Trig α) (pif u1 u2 : α) : Vec3 α :=
  ⟨m.sqrt (clamp (1 - (-1 + 2 * u1) * (-1 + 2 * u1)) 0 1) * t.cos (2 * pif * u2),
   m.sqrt (clamp (1 - (-1 + 2 * u1) * (-1 + 2 * u1)) 0 1) * t.sin (2 * pif * u2),
   -1 + 2 * u1⟩

/-- What is used of `sqrt`: on non-negative numbers it is non-negative and
squares back to its argument. -/
def SqrtSpec (m : Libm α) : Prop :=
  ∀ x : α, 0 ≤ x → 0 ≤ m.sqrt x ∧ m.sqrt x * m.sqrt x = x

/-- What is used of `cos` and `sin`: the Pythagorean identity. -/
def TrigSpec (t : Trig α) : Prop :=
  ∀ a : α, t.cos a * t.cos a + t.sin a * t.sin a = 1

end Predicates

/-! ## Test instance over the rationals -/

/-- Integer square root by bisection of `[lo, lo + 2 ^ k)`. -/
def isqrtAux (n : Nat) : Nat → Nat → Nat
  | 0, lo => lo
  | k + 1, lo => if (lo + 2 ^ k) * (lo + 2 ^ k) ≤ n then isqrtAux n k (lo + 2 ^ k)
    else isqrtAux n k lo

/-- A runnable stand-in for the math library on `ℚ`: the square root is the
quotient of the integer square roots (exact on squares of rationals), powers
use the integer part of the exponent, the logarithm is the integer logarithm
and `round` rounds half up.  It serves to run the definitions on concrete
inputs; its values are not those of `powf` and `log2f`. -/
def libmQ : Libm ℚ where
  sqrt q := (isqrtAux q.num.toNat 32 0 : ℚ) / (isqrtAux q.den 32 0 : ℚ)
  pow x y := x ^ ⌊y⌋
  log2 q := (Nat.log2 ⌊q⌋.toNat : ℚ)
  round q := ⌊q + 1 / 2⌋

/-- A runnable stand-in for the trigonometric functions on `ℚ`: Taylor
polynomials of low order around `0`, and the rotation by Rodrigues' formula
`p cos a + (k × p) sin a + k (k · p) (1 - cos a)` built on them. -/
def trigQ : Trig ℚ where
  cos x := 1 - x ^ 2 / 2 + x ^ 4 / 24
  sin x := x - x ^ 3 / 6 + x ^ 5 / 120
  acos x := 157 / 100 - x - x ^ 3 / 6
  rotate k a p :=
    let co : ℚ := 1 - a ^ 2 / 2 + a ^ 4 / 24
    let si : ℚ := a - a ^ 3 / 6 + a ^ 5 / 120
    let kp := k.x * p.x + k.y * p.y + k.z * p.z
    ⟨p.x * co + (k.y * p.z - k.z * p.y) * si + k.x * kp * (1 - co),
     p.y * co + (k.z * p.x - k.x * p.z) * si + k.y * kp * (1 - co),
     p.z * co + (k.x * p.y - k.y * p.x) * si + k.z * kp * (1 - co)⟩

/-- A sky model for tests whose constructor accepts every input and keeps the
albedo as its state; the radiance of channel `c` is `albedo + c`. -/
def albedoSky : SkyModel ℚ ℚ where
  alloc_init _ albedo _ := some albedo
  radiance st _ _ c := st + (c : ℚ)

/-- A rounding for tests: to the nearest multiple of `2 ^ (-21)`, ties upward.
On `[4, 8)` the multiples of `2 ^ (-21)` are the 32-bit floats. -/
def roundQ (x : ℚ) : ℚ := (⌊x * 2 ^ 21 + 1 / 2⌋ : ℚ) / 2 ^ 21

/-- Strand tables for tests: strand `k` starts at `(k, 0, 0)` and has length
factor `1/5`. -/
def rowTables : StrandTables ℚ :=
  ⟨fun k => ⟨(k : ℚ), 0, 0⟩, fun k => ⟨(k : ℚ), 0, 0⟩, fun _ => 1 / 5⟩

/-- A generator that replays the listed draws and then repeats `0`. -/
def replay (draws : List ℚ) : rng_pcg32 ℚ := ⟨fun k => draws.getD k 0, 0⟩

/-- Arrays filled with zeros, with a generator replaying `draws`. -/
def zeroState (draws : List ℚ) : PackState ℚ :=
  ⟨fun _ => ⟨0, 0, 0⟩, fun _ => 0, fun _ => 0, replay draws⟩

/-! ## Properties of the packers -/

section PackerLemmas

variable {α : Type} [LinearOrderedField α]

theorem dist_comm (m : Libm α) (a b : Vec3 α) : dist m a b = dist m b a := by
  unfold dist length
  congr 1
  simp only [dot, Vec3.sub]
  ring

theorem collisionLoop_eq_true (m : Libm α) (pos : Nat → Vec3 α) (radius : Nat → α)
    (i n j : Nat) (done : Bool) :
    collisionLoop m pos radius i n j done = true ↔
      done = true ∧ ∀ k, j ≤ k → k < j + n → k < i →
        radius i + radius k ≤ dist m (pos i) (pos k) := by
  induction n generalizing j done with
  | zero =>
    simp only [collisionLoop, add_zero]
    constructor
    · intro h
      exact ⟨h, fun k h1 h2 _ => absurd h2 (by omega)⟩
    · exact fun h => h.1
  | succ n ih =>
    simp only [collisionLoop]
    by_cases hj : j < i
    · cases done with
      | false => simp
      | true =>
        simp only [hj, decide_True, Bool.and_self, if_true, ih, true_and]
        constructor
        · rintro ⟨h1, h2⟩ k hk1 hk2 hk3
          rcases Nat.eq_or_lt_of_le hk1 with rfl | hlt
          · by_contra hc
            rw [if_pos (not_le.mp hc)] at h1
            exact Bool.false_ne_true h1
          · exact h2 k hlt (by omega) hk3
        · intro h
          have h0 := h j le_rfl (by omega) hj
          refine ⟨by rw [if_neg (not_lt.mpr h0)], fun k hk1 hk2 hk3 => ?_⟩
          exact h k (by omega) (by omega) hk3
    · simp only [hj, decide_False, Bool.false_and, Bool.false_eq_true, if_false]
      constructor
      · intro h
        exact ⟨h, fun k h1 _ h3 => absurd h3 (by omega)⟩
      · exact fun h => h.1

theorem accepted_iff (m : Libm α) (pos : Nat → Vec3 α) (radius : Nat → α) (i : Nat) :
    accepted m pos radius i = true ↔
      ∀ j, 1 ≤ j → j < i → radius i + radius j ≤ dist m (pos i) (pos j) := by
  unfold accepted
  rw [collisionLoop_eq_true]
  constructor
  · rintro ⟨_, h⟩ j h1 h2
    exact h j h1 (by omega) h2
  · intro h
    exact ⟨rfl, fun k h1 _ h3 => h k h1 h3⟩

theorem shapesAttempt_spec (m : Libm α) (l : Int) : AttemptSpec m (shapesAttempt m l) := by
  intro i st
  refine ⟨rfl, fun k hk => ?_⟩
  simp [shapesAttempt, Function.update_noteq hk]

theorem rigidAttempt_spec (m : Libm α) (l : Int) : AttemptSpec m (rigidAttempt m l) := by
  intro i st
  refine ⟨rfl, fun k hk => ?_⟩
  simp [rigidAttempt, Function.update_noteq hk]

theorem placeLoop_some (m : Libm α) (attempt : Nat → PackState α → PackState α × Bool)
    (hA : AttemptSpec m attempt) (i fuel : Nat) (st st1 : PackState α)
    (h : placeLoop attempt i fuel st = some st1) :
    accepted m st1.pos st1.radius i = true ∧
      ∀ k, k ≠ i → st1.pos k = st.pos k ∧ st1.radius k = st.radius k := by
  induction fuel generalizing st with
  | zero => simp [placeLoop] at h
  | succ fuel ih =>
    simp only [placeLoop] at h
    by_cases hd : (attempt i st).2 = true
    · rw [if_pos hd] at h
      cases h
      exact ⟨(hA i st).1 ▸ hd, (hA i st).2⟩
    · rw [if_neg hd] at h
      obtain ⟨h1, h2⟩ := ih _ h
      refine ⟨h1, fun k hk => ?_⟩
      rw [(h2 k hk).1, (h2 k hk).2]
      exact (hA i st).2 k hk

theorem placeFrom_packed (m : Libm α) (attempt : Nat → PackState α → PackState α × Bool)
    (hA : AttemptSpec m attempt) (fuel n i : Nat) (st st1 : PackState α)
    (h : placeFrom attempt fuel n i st = some st1) (hst : Packed m st i) :
    Packed m st1 (i + n) := by
  induction n generalizing i st with
  | zero =>
    simp only [placeFrom, Option.some.injEq] at h
    subst h
    simpa using hst
  | succ n ih =>
    simp only [placeFrom] at h
    cases hp : placeLoop attempt i fuel st with
    | none => simp [hp] at h
    | some st2 =>
      rw [hp] at h
      obtain ⟨hacc, hfr⟩ := placeLoop_some m attempt hA i fuel st st2 hp
      have h2 : Packed m st2 (i + 1) := by
        intro a b hb hba ha
        rcases Nat.eq_or_lt_of_le (Nat.lt_succ_iff.mp ha) with rfl | hlt
        · exact (accepted_iff m st2.pos st2.radius a).mp hacc b hb hba
        · have ha1 := hfr a (by omega)
          have hb1 := hfr b (by omega)
          rw [ha1.1, ha1.2, hb1.1, hb1.2]
          exact hst a b hb hba hlt
      have := ih (i + 1) st2 h h2
      rwa [show i + (n + 1) = i + 1 + n by omega]

theorem packed_pairwise (m : Libm α) (st : PackState α) (n : Nat) (h : Packed m st n)
    (i j : Nat) (hi : 1 ≤ i) (hin : i < n) (hj : 1 ≤ j) (hjn : j < n) (hij : i ≠ j) :
    st.radius i + st.radius j ≤ dist m (st.pos i) (st.pos j) := by
  rcases Nat.lt_or_gt_of_ne hij with hlt | hgt
  · rw [dist_comm, add_comm]
    exact h j i hi hlt hjn
  · exact h i j hj hgt hin

theorem attempt_verdict_iff (m : Libm α) (attempt : Nat → PackState α → PackState α × Bool)
    (hA : AttemptSpec m attempt) (i : Nat) (st : PackState α) :
    (attempt i st).2 = true ↔ ∀ j, 1 ≤ j → j < i →
      (attempt i st).1.radius i + st.radius j ≤ dist m ((attempt i st).1.pos i) (st.pos j) := by
  rw [(hA i st).1, accepted_iff]
  constructor
  · intro h j h1 h2
    have hf := (hA i st).2 j (by omega)
    rw [← hf.1, ← hf.2]
    exact h j h1 h2
  · intro h j h1 h2
    have hf := (hA i st).2 j (by omega)
    rw [hf.1, hf.2]
    exact h j h1 h2

theorem shapesAttempt_floor (m : Libm α) (l : Int) (i : Nat) (st : PackState α)
    (p0 : Vec3 α) (r0 : α) :
    (shapesAttempt m l i (withFloor st p0 r0)).2 = (shapesAttempt m l i st).2 := by
  rw [Bool.eq_iff_iff, attempt_verdict_iff m _ (shapesAttempt_spec m l),
    attempt_verdict_iff m _ (shapesAttempt_spec m l)]
  have h0 : ∀ j, 1 ≤ j → (withFloor st p0 r0).pos j = st.pos j ∧
      (withFloor st p0 r0).radius j = st.radius j := by
    intro j hj
    have : j ≠ 0 := by omega
    simp [withFloor, Function.update_noteq this]
  have hc : (shapesAttempt m l i (withFloor st p0 r0)).1.pos i = (shapesAttempt m l i st).1.pos i ∧
      (shapesAttempt m l i (withFloor st p0 r0)).1.radius i =
        (shapesAttempt m l i st).1.radius i := by
    simp [shapesAttempt, withFloor]
  rw [hc.1, hc.2]
  constructor
  · intro h j h1 h2
    rw [← (h0 j h1).1, ← (h0 j h1).2]
    exact h j h1 h2
  · intro h j h1 h2
    rw [(h0 j h1).1, (h0 j h1).2]
    exact h j h1 h2

theorem rigidAttempt_floor (m : Libm α) (l : Int) (i : Nat) (st : PackState α)
    (p0 : Vec3 α) (r0 : α) :
    (rigidAttempt m l i (withFloor st p0 r0)).2 = (rigidAttempt m l i st).2 := by
  rw [Bool.eq_iff_iff, attempt_verdict_iff m _ (rigidAttempt_spec m l),
    attempt_verdict_iff m _ (rigidAttempt_spec m l)]
  have h0 : ∀ j, 1 ≤ j → (withFloor st p0 r0).pos j = st.pos j ∧
      (withFloor st p0 r0).radius j = st.radius j := by
    intro j hj
    have : j ≠ 0 := by omega
    simp [withFloor, Function.update_noteq this]
  have hc : (rigidAttempt m l i (withFloor st p0 r0)).1.pos i = (rigidAttempt m l i st).1.pos i ∧
      (rigidAttempt m l i (withFloor st p0 r0)).1.radius i =
        (rigidAttempt m l i st).1.radius i := by
    simp [rigidAttempt, withFloor]
  rw [hc.1, hc.2]
  constructor
  · intro h j h1 h2
    rw [← (h0 j h1).1, ← (h0 j h1).2]
    exact h j h1 h2
  · intro h j h1 h2
    rw [(h0 j h1).1, (h0 j h1).2]
    exact h j h1 h2

end PackerLemmas

/-! ## Properties of the pixel loops -/

theorem writes_length {β : Type} (c : Nat) (g : Nat → β) (n : Nat) (px : List β) :
    ((List.range n).foldl (fun px i => px.set (c + i) (g i)) px).length = px.length := by
  induction n with
  | zero => rfl
  | succ n ih => rw [List.range_succ, List.foldl_append]; simpa using ih

theorem writes_getElem? {β : Type} (c : Nat) (g : Nat → β) (n : Nat) (px : List β) (k : Nat) :
    ((List.range n).foldl (fun px i => px.set (c + i) (g i)) px)[k]? =
      if c ≤ k ∧ k < c + n ∧ k < px.length then some (g (k - c)) else px[k]? := by
  induction n with
  | zero =>
    have : ¬ (c ≤ k ∧ k < c + 0 ∧ k < px.length) := by omega
    rw [if_neg this]
    rfl
  | succ n ih =>
    rw [List.range_succ, List.foldl_append]
    simp only [List.foldl_cons, List.foldl_nil, List.getElem?_set, writes_length, ih]
    by_cases h1 : c + n = k
    · subst h1
      by_cases h2 : c + n < px.length
      · simp [h2]
      · have h3 : ¬ (c ≤ c + n ∧ c + n < c + (n + 1) ∧ c + n < px.length) := by omega
        have h4 : ¬ (c ≤ c + n ∧ c + n < c + n ∧ c + n < px.length) := by omega
        rw [if_pos rfl, if_neg h2, if_neg h3]
        exact (List.getElem?_eq_none (Nat.le_of_not_lt h2)).symm
    · rw [if_neg h1]
      by_cases h2 : c ≤ k ∧ k < c + n ∧ k < px.length
      · have h3 : c ≤ k ∧ k < c + (n + 1) ∧ k < px.length := by omega
        rw [if_pos h2, if_pos h3]
      · have h3 : ¬ (c ≤ k ∧ k < c + (n + 1) ∧ k < px.length) := by omega
        rw [if_neg h2, if_neg h3]

theorem rows_length {β : Type} (s : Nat) (f : Nat → Nat → β) (n : Nat) (px : List β) :
    ((List.range n).foldl (fillRow s f) px).length = px.length := by
  induction n with
  | zero => rfl
  | succ n ih =>
    rw [List.range_succ, List.foldl_append]
    simp only [List.foldl_cons, List.foldl_nil, fillRow, writes_length]
    exact ih

theorem rows_getElem? {β : Type} (s : Nat) (f : Nat → Nat → β) (n : Nat) (px : List β)
    (k : Nat) :
    ((List.range n).foldl (fillRow s f) px)[k]? =
      if k < n * s ∧ k < px.length then some (f (k % s) (k / s)) else px[k]? := by
  induction n with
  | zero =>
    have : ¬ (k < 0 * s ∧ k < px.length) := by omega
    rw [if_neg this]
    rfl
  | succ n ih =>
    rw [List.range_succ, List.foldl_append]
    simp only [List.foldl_cons, List.foldl_nil]
    rw [fillRow, writes_getElem?, rows_length, ih]
    have hs : (n + 1) * s = n * s + s := by ring
    by_cases h1 : n * s ≤ k ∧ k < n * s + s ∧ k < px.length
    · have h2 : k < (n + 1) * s ∧ k < px.length := by omega
      rw [if_pos h1, if_pos h2]
      have hpos : 0 < s := by
        rcases Nat.eq_zero_or_pos s with h | h
        · subst h; omega
        · exact h
      have hdiv : k / s = n := by
        apply Nat.div_eq_of_lt_le
        · rw [Nat.mul_comm] at h1; rw [Nat.mul_comm]; exact h1.1
        · rw [Nat.succ_mul]; exact h1.2.1
      have hmod : k % s = k - n * s := by
        have := Nat.div_add_mod k s
        rw [hdiv] at this
        rw [Nat.mul_comm] at this
        omega
      rw [hdiv, hmod]
    · rw [if_neg h1]
      by_cases h2 : k < n * s ∧ k < px.length
      · have h3 : k < (n + 1) * s ∧ k < px.length := by omega
        rw [if_pos h2, if_pos h3]
      · have h3 : ¬ (k < (n + 1) * s ∧ k < px.length) := by omega
        rw [if_neg h2, if_neg h3]

theorem pixelLoops_length {β : Type} (s : Nat) (zero : β) (f : Nat → Nat → β) :
    (pixelLoops s zero f).length = s * s := by
  simp [pixelLoops, rows_length]

theorem pixelLoops_getElem? {β : Type} (s : Nat) (zero : β) (f : Nat → Nat → β) (i j : Nat)
    (hi : i < s) (hj : j < s) :
    (pixelLoops s zero f)[j * s + i]? = some (f i j) := by
  have hk : j * s + i < s * s := by
    calc j * s + i < j * s + s := by omega
      _ = (j + 1) * s := by ring
      _ ≤ s * s := Nat.mul_le_mul_right s hj
  rw [pixelLoops, rows_getElem?, List.length_replicate, if_pos ⟨hk, hk⟩]
  have h1 : (j * s + i) % s = i := by
    rw [Nat.add_comm, Nat.add_mul_mod_self_right, Nat.mod_eq_of_lt hi]
  have h2 : (j * s + i) / s = j := by
    rw [Nat.add_comm, Nat.add_mul_div_right _ _ (by omega), Nat.div_eq_of_lt hi, Nat.zero_add]
  rw [h1, h2]

theorem side_fits (s : Nat) (hs : s ≤ 46340) : s * s ≤ INT_MAX := by
  have h : s * s ≤ 46340 * 46340 := Nat.mul_le_mul hs hs
  have h2 : 46340 * 46340 ≤ INT_MAX := by decide
  exact h.trans h2

theorem side_overflows (s : Nat) (hs : 46341 ≤ s) : ¬ s * s ≤ INT_MAX := by
  have h : 46341 * 46341 ≤ s * s := Nat.mul_le_mul hs hs
  have h2 : ¬ 46341 * 46341 ≤ INT_MAX := by decide
  exact fun h3 => h2 (h.trans h3)

theorem rect_fits_index (w h i j : Nat) (hwh : w * h ≤ INT_MAX) (hi : i < w) (hj : j < h) :
    j * w + i < INT_MAX := by
  have hk : j * w + i < h * w := by
    calc j * w + i < j * w + w := by omega
      _ = (j + 1) * w := by ring
      _ ≤ h * w := Nat.mul_le_mul_right w hj
  rw [Nat.mul_comm h w] at hk
  omega

theorem fillPixels_eq {β : Type} (s : Nat) (zero : β) (f : Nat → Nat → β)
    (hs : s * s ≤ INT_MAX) : fillPixels s zero f = some (pixelLoops s zero f) := by
  simp only [fillPixels, mulInt?, if_pos hs, pixelLoops]

theorem fillPixels_none {β : Type} (s : Nat) (zero : β) (f : Nat → Nat → β)
    (hs : ¬ s * s ≤ INT_MAX) : fillPixels s zero f = none := by
  simp only [fillPixels, mulInt?, if_neg hs]

theorem fillPixels_inv {β : Type} (s : Nat) (zero : β) (f : Nat → Nat → β) (pixels : List β)
    (h : fillPixels s zero f = some pixels) :
    s * s ≤ INT_MAX ∧ pixels = pixelLoops s zero f := by
  by_cases hs : s * s ≤ INT_MAX
  · rw [fillPixels_eq s zero f hs] at h
    exact ⟨hs, (Option.some.inj h).symm⟩
  · rw [fillPixels_none s zero f hs] at h
    cases h

theorem fillPixels_spec {β : Type} (s : Nat) (zero : β) (f : Nat → Nat → β)
    (hs : s ≤ 46340) :
    ∃ pixels, fillPixels s zero f = some pixels ∧ pixels.length = s * s ∧
      ∀ i j, i < s → j < s → pixels[j * s + i]? = some (f i j) :=
  ⟨pixelLoops s zero f, fillPixels_eq s zero f (side_fits s hs), pixelLoops_length s zero f,
    fun i j hi hj => pixelLoops_getElem? s zero f i j hi hj⟩

/-! ## Properties of the gamma ramps -/

section RampLemmas

variable {α : Type} [LinearOrderedField α]

theorem ramp_unit (s j : Nat) (hs : 2 ≤ s) (hj : j < s) :
    (0 : α) ≤ (j : α) / ((s : α) - 1) ∧ (j : α) / ((s : α) - 1) ≤ 1 := by
  have h1 : (j : α) + 1 ≤ (s : α) := by exact_mod_cast hj
  have h2 : (2 : α) ≤ (s : α) := by exact_mod_cast hs
  have h3 : (0 : α) < (s : α) - 1 := by linarith
  have h4 : (0 : α) ≤ (j : α) := Nat.cast_nonneg j
  exact ⟨div_nonneg h4 h3.le, (div_le_one h3).mpr (by linarith)⟩

theorem ramp_step (s j1 j2 : Nat) (hs : 2 ≤ s) (h12 : j1 ≤ j2) :
    (j1 : α) / ((s : α) - 1) ≤ (j2 : α) / ((s : α) - 1) := by
  have h2 : (2 : α) ≤ (s : α) := by exact_mod_cast hs
  have h3 : (0 : α) < (s : α) - 1 := by linarith
  have h4 : (j1 : α) ≤ (j2 : α) := by exact_mod_cast h12
  exact div_le_div_of_nonneg_right h4 h3.le

theorem gammaValue_regime (m : Libm α) (s i j : Nat) :
    gammaValue m s i j =
      if i < s / 3 then m.pow ((j : α) / ((s : α) - 1)) (22 / 10)
      else if i > (s * 2) / 3 then m.pow ((j : α) / ((s : α) - 1)) (1 / (22 / 10))
      else (j : α) / ((s : α) - 1) := by
  unfold gammaValue
  by_cases h1 : i < s / 3
  · have h2 : ¬ i > (s * 2) / 3 := by omega
    simp only [h1, h2, if_true, if_false]
  · simp only [h1, if_false]

theorem gammaValue_unit (m : Libm α) (hm : PowSpec m) (s i j : Nat) (hs : 2 ≤ s)
    (hj : j < s) : 0 ≤ gammaValue m s i j ∧ gammaValue m s i j ≤ 1 := by
  obtain ⟨h0, h1⟩ := ramp_unit (α := α) s j hs hj
  rw [gammaValue_regime]
  split
  · have := hm _ _ (22 / 10) h0 le_rfl h1 (by norm_num)
    exact ⟨this.1, this.2.2⟩
  · split
    · have := hm _ _ (1 / (22 / 10)) h0 le_rfl h1 (by norm_num)
      exact ⟨this.1, this.2.2⟩
    · exact ⟨h0, h1⟩

theorem gammaValue_mono (m : Libm α) (hm : PowSpec m) (s i j1 j2 : Nat) (hs : 2 ≤ s)
    (h12 : j1 ≤ j2) (hj : j2 < s) : gammaValue m s i j1 ≤ gammaValue m s i j2 := by
  obtain ⟨h0, _⟩ := ramp_unit (α := α) s j1 hs (by omega)
  obtain ⟨_, h1⟩ := ramp_unit (α := α) s j2 hs hj
  have hstep := ramp_step (α := α) s j1 j2 hs h12
  rw [gammaValue_regime, gammaValue_regime]
  split
  · exact (hm _ _ (22 / 10) h0 hstep h1 (by norm_num)).2.1
  · split
    · exact (hm _ _ (1 / (22 / 10)) h0 hstep h1 (by norm_num)).2.1
    · exact hstep

variable [FloorRing α]

theorem toUbyte_of_unit (u : α) (h0 : 0 ≤ u) (h1 : u ≤ 1) :
    (toUbyte (u * 255) : Int) = ⌊u * 255⌋ ∧ toUbyte (u * 255) ≤ 255 := by
  have hx0 : (0 : α) ≤ u * 255 := by positivity
  have hx1 : u * 255 < 256 := by linarith
  have hf0 : 0 ≤ ⌊u * 255⌋ := Int.floor_nonneg.mpr hx0
  have hf1 : ⌊u * 255⌋ < 256 := Int.floor_lt.mpr (by exact_mod_cast hx1)
  have hf2 : ⌊u * 255⌋ ≤ 255 := by omega
  have hmod : ⌊u * 255⌋ % 256 = ⌊u * 255⌋ := Int.emod_eq_of_lt hf0 hf1
  simp only [toUbyte, ubyte, if_pos hx0, hmod]
  constructor
  · exact Int.toNat_of_nonneg hf0
  · omega

theorem toUbyte_mono (u v : α) (h0 : 0 ≤ u) (huv : u ≤ v) (h1 : v ≤ 1) :
    toUbyte (u * 255) ≤ toUbyte (v * 255) := by
  have hu := (toUbyte_of_unit u h0 (huv.trans h1)).1
  have hv := (toUbyte_of_unit v (h0.trans huv) h1).1
  have hfl : ⌊u * 255⌋ ≤ ⌊v * 255⌋ := Int.floor_le_floor (by linarith)
  omega

end RampLemmas

/-- The real power function meets `PowSpec`. -/
theorem real_powSpec (m : Libm ℝ) (hpow : ∀ x y : ℝ, m.pow x y = x ^ y) : PowSpec m := by
  intro x y e hx hxy hy he
  rw [hpow, hpow]
  exact ⟨Real.rpow_nonneg hx e, Real.rpow_le_rpow hx hxy he.le,
    Real.rpow_le_one (hx.trans hxy) hy he.le⟩

/-! ## Claims on the packers -/

/-- C1. Non-overlap invariant of the packers: when the placement loop of
`make_random_shapes` or of `make_random_rigid_shapes` terminates, for
`1 ≤ nshapes ≤ 1024` (the capacity of the local arrays) and whatever the stream
of draws, any two distinct placed objects `i`, `j` in `1 .. nshapes-1` satisfy
`radius[i] + radius[j] ≤ dist(pos[i], pos[j])`. -/
theorem packers_non_overlap {α : Type} [LinearOrderedField α] (m : Libm α)
    (fuel nshapes : Nat) (l : Int) (st0 : PackState α)
    (hlo : 1 ≤ nshapes) (hhi : nshapes ≤ 1024) :
    (∀ st, make_random_shapes_place m fuel nshapes l st0 = some st →
      ∀ i j, 1 ≤ i → i < nshapes → 1 ≤ j → j < nshapes → i ≠ j →
        st.radius i + st.radius j ≤ dist m (st.pos i) (st.pos j)) ∧
    (∀ st, make_random_rigid_shapes_place m fuel nshapes l st0 = some st →
      ∀ i j, 1 ≤ i → i < nshapes → 1 ≤ j → j < nshapes → i ≠ j →
        st.radius i + st.radius j ≤ dist m (st.pos i) (st.pos j)) := by
  have hbase : Packed m st0 1 := fun a b hb hba ha => absurd ha (by omega)
  have hn : 1 + (nshapes - 1) = nshapes := by omega
  constructor
  · intro st h
    have hp := placeFrom_packed m _ (shapesAttempt_spec m l) fuel (nshapes - 1) 1 st0 st h hbase
    rw [hn] at hp
    exact packed_pairwise m st nshapes hp
  · intro st h
    have hp := placeFrom_packed m _ (rigidAttempt_spec m l) fuel (nshapes - 1) 1 st0 st h hbase
    rw [hn] at hp
    exact packed_pairwise m st nshapes hp

/-- Witness of C1: three objects, the second candidate for object 2 is the
first one accepted, in both packers. -/
theorem packers_non_overlap_witness :
    ∃ st t : PackState ℚ,
      make_random_shapes_place libmQ 2 3 5
        (zeroState [1/2, 1/3, 1/2, 1/3, 3/4, 1/3]) = some st ∧
      make_random_rigid_shapes_place libmQ 2 3 1
        (zeroState [1/4, 1/2, 0, 1/2, 1/4, 1/2, 0, 1/2, 1/4, 3/4, 0, 1/2]) = some t ∧
      (∀ i j, 1 ≤ i → i < 3 → 1 ≤ j → j < 3 → i ≠ j →
        st.radius i + st.radius j ≤ dist libmQ (st.pos i) (st.pos j)) ∧
      (∀ i j, 1 ≤ i → i < 3 → 1 ≤ j → j < 3 → i ≠ j →
        t.radius i + t.radius j ≤ dist libmQ (t.pos i) (t.pos j)) := by
  obtain ⟨st, hst⟩ := Option.isSome_iff_exists.mp
    (show (make_random_shapes_place libmQ 2 3 5
      (zeroState [1/2, 1/3, 1/2, 1/3, 3/4, 1/3])).isSome = true by decide!)
  obtain ⟨t, ht⟩ := Option.isSome_iff_exists.mp
    (show (make_random_rigid_shapes_place libmQ 2 3 1
      (zeroState [1/4, 1/2, 0, 1/2, 1/4, 1/2, 0, 1/2, 1/4, 3/4, 0, 1/2])).isSome = true
      by decide!)
  have h := packers_non_overlap libmQ 2 3 5 (zeroState [1/2, 1/3, 1/2, 1/3, 3/4, 1/3])
    (by decide) (by decide)
  have h' := packers_non_overlap libmQ 2 3 1
    (zeroState [1/4, 1/2, 0, 1/2, 1/4, 1/2, 0, 1/2, 1/4, 3/4, 0, 1/2]) (by decide) (by decide)
  exact ⟨st, t, hst, ht, h.1 st hst, h'.2 t ht⟩

/-- C2. Acceptance test of the packers: for every object `i` (so for `i ≥ 1`) the candidate
stored by one pass of the `while` body is accepted exactly when it keeps the
distance `radius_candidate + radius[j] ≤ dist(candidate, pos[j])` to every
earlier object `j` with `1 ≤ j < i`; the verdict is the same whatever slot `0`
(the floor) of the arrays holds. -/
theorem packers_acceptance_test {α : Type} [LinearOrderedField α] (m : Libm α) (l : Int)
    (i : Nat) (st : PackState α) :
    ((shapesAttempt m l i st).2 = true ↔ ∀ j, 1 ≤ j → j < i →
      (shapesAttempt m l i st).1.radius i + st.radius j ≤
        dist m ((shapesAttempt m l i st).1.pos i) (st.pos j)) ∧
    ((rigidAttempt m l i st).2 = true ↔ ∀ j, 1 ≤ j → j < i →
      (rigidAttempt m l i st).1.radius i + st.radius j ≤
        dist m ((rigidAttempt m l i st).1.pos i) (st.pos j)) ∧
    (∀ p0 r0, (shapesAttempt m l i (withFloor st p0 r0)).2 = (shapesAttempt m l i st).2) ∧
    (∀ p0 r0, (rigidAttempt m l i (withFloor st p0 r0)).2 = (rigidAttempt m l i st).2) :=
  ⟨attempt_verdict_iff m _ (shapesAttempt_spec m l) i st,
   attempt_verdict_iff m _ (rigidAttempt_spec m l) i st,
   fun p0 r0 => shapesAttempt_floor m l i st p0 r0,
   fun p0 r0 => rigidAttempt_floor m l i st p0 r0⟩

/-! ## Claims on the textures -/

/-- C3. Saturation zero gives gray: for every hue `h` and value `v` (in
particular for all bytes `0..255`), `hsv_to_rgb(h, 0, v)` is the pixel
`(v, v, v, 255)`. -/
theorem hsv_to_rgb_gray (h v : Nat) : hsv_to_rgb h 0 v = ⟨v, v, v, 255⟩ := by
  simp [hsv_to_rgb]

/-- Counterexample to C4 as stated: for the side `s = 46341` the `int` product
`s * s` exceeds `INT_MAX`, so `make_checker(46341)` has no vector of `s * s`
pixels and holds no pixel at `(0, 0)` and `(64, 64)`. -/
theorem checker_translation_overflow :
    (0 + 64 < 46341 ∧ ¬ 46341 * 46341 ≤ INT_MAX) ∧ make_checker 46341 = none ∧
      ¬ ∃ pixels p, make_checker 46341 = some pixels ∧ pixels[0 * 46341 + 0]? = some p ∧
        pixels[(0 + 64) * 46341 + (0 + 64)]? = some p := by
  have h : make_checker 46341 = none := fillPixels_none _ _ _ (by decide)
  refine ⟨by decide, h, ?_⟩
  rintro ⟨pixels, p, hp, _⟩
  rw [h] at hp
  cases hp

/-- C4, amended. Checker translation symmetry: for every side `s ≤ 46340`, the
sides whose square is an `int`, and `i + 64 < s`, `j + 64 < s`, the buffer of
`make_checker(s)` holds one and the same pixel at `(i, j)` and at
`(i + 64, j + 64)`, that is at indices `j*s + i` and `(j+64)*s + (i+64)`. -/
theorem checker_translation (s i j : Nat) (hs : s ≤ 46340) (hi : i + 64 < s)
    (hj : j + 64 < s) :
    ∃ pixels p, make_checker s = some pixels ∧ pixels[j * s + i]? = some p ∧
      pixels[(j + 64) * s + (i + 64)]? = some p := by
  obtain ⟨pixels, hp, _, hget⟩ := fillPixels_spec s ⟨0, 0, 0, 0⟩ checkerPixel hs
  refine ⟨pixels, checkerPixel i j, hp, hget i j (by omega) (by omega), ?_⟩
  rw [hget (i + 64) (j + 64) hi hj]
  congr 1
  simp only [checkerPixel]
  have h : ((i + 64) / 64 + (j + 64) / 64) % 2 = (i / 64 + j / 64) % 2 := by omega
  rw [h]

/-- Witness of C4 (amended) on the 512-pixel checker at pixel `(3, 5)`. -/
theorem checker_translation_witness :
    ∃ pixels p, make_checker 512 = some pixels ∧ pixels[5 * 512 + 3]? = some p ∧
      pixels[(5 + 64) * 512 + (3 + 64)]? = some p :=
  checker_translation 512 3 5 (by decide) (by decide) (by decide)

/-- Counterexample to C5 as stated: `make_checker(46341)` has no buffer, as
`46341 * 46341` is not an `int`, so its pixel `(0, 0)` is not
`(128,128,128,255)`. -/
theorem checker_cells_overflow :
    ¬ 46341 * 46341 ≤ INT_MAX ∧ make_checker 46341 = none ∧
      ¬ ∃ pixels, make_checker 46341 = some pixels ∧
        pixels[0 * 46341 + 0]? = some ⟨128, 128, 128, 255⟩ := by
  have h : make_checker 46341 = none := fillPixels_none _ _ _ (by decide)
  refine ⟨by decide, h, ?_⟩
  rintro ⟨pixels, hp, _⟩
  rw [h] at hp
  cases hp

/-- C5, amended. Checker cells are homogeneous and alternate: for every side
`s ≤ 46340`, the sides whose square is an `int`, and `i, j < s` the pixel of
`make_checker(s)` at `(i, j)` is `(128,128,128,255)` when `i/64 + j/64` is even
and `(90,90,90,255)` when it is odd; it equals the pixel at the origin
`(64*(i/64), 64*(j/64))` of its cell; and for `i + 64 < s` the pixel at
`(i + 64, j)` is the other tone.  In `make_checker(512)` the pixels `(0,0)` and
`(63,63)` are equal and the pixel `(64,0)` is the other tone. -/
theorem checker_cells :
    (∀ s : Nat, s ≤ 46340 → ∃ pixels, make_checker s = some pixels ∧
      ∀ i j : Nat, i < s → j < s →
        pixels[j * s + i]? =
            some (if (i / 64 + j / 64) % 2 = 0 then (⟨128, 128, 128, 255⟩ : rgba)
              else ⟨90, 90, 90, 255⟩) ∧
          pixels[j * s + i]? = pixels[(64 * (j / 64)) * s + 64 * (i / 64)]? ∧
          (i + 64 < s →
            pixels[j * s + (i + 64)]? =
              some (if (i / 64 + j / 64) % 2 = 0 then (⟨90, 90, 90, 255⟩ : rgba)
                else ⟨128, 128, 128, 255⟩))) ∧
    (∃ pixels, make_checker 512 = some pixels ∧
      pixels[0 * 512 + 0]? = some ⟨128, 128, 128, 255⟩ ∧
      pixels[63 * 512 + 63]? = some ⟨128, 128, 128, 255⟩ ∧
      pixels[0 * 512 + 64]? = some ⟨90, 90, 90, 255⟩) := by
  have key : ∀ s : Nat, s ≤ 46340 → ∃ pixels, make_checker s = some pixels ∧
      ∀ i j : Nat, i < s → j < s →
        pixels[j * s + i]? =
          some (if (i / 64 + j / 64) % 2 = 0 then (⟨128, 128, 128, 255⟩ : rgba)
            else ⟨90, 90, 90, 255⟩) := by
    intro s hs
    obtain ⟨pixels, hp, _, hget⟩ := fillPixels_spec s ⟨0, 0, 0, 0⟩ checkerPixel hs
    refine ⟨pixels, hp, fun i j hi hj => ?_⟩
    rw [hget i j hi hj]
    congr 1
    by_cases h : (i / 64 + j / 64) % 2 = 0 <;> simp [checkerPixel, h]
  constructor
  · intro s hs
    obtain ⟨pixels, hp, hkey⟩ := key s hs
    refine ⟨pixels, hp, fun i j hi hj => ⟨hkey i j hi hj, ?_, fun h64 => ?_⟩⟩
    · have h1 : 64 * (i / 64) < s := by omega
      have h2 : 64 * (j / 64) < s := by omega
      rw [hkey i j hi hj, hkey _ _ h1 h2]
      have h3 : 64 * (i / 64) / 64 = i / 64 := by omega
      have h4 : 64 * (j / 64) / 64 = j / 64 := by omega
      rw [h3, h4]
    · rw [hkey (i + 64) j h64 hj]
      congr 1
      by_cases h : (i / 64 + j / 64) % 2 = 0
      · have h5 : ¬ ((i + 64) / 64 + j / 64) % 2 = 0 := by omega
        rw [if_pos h, if_neg h5]
      · have h5 : ((i + 64) / 64 + j / 64) % 2 = 0 := by omega
        rw [if_neg h, if_pos h5]
  · obtain ⟨pixels, hp, hkey⟩ := key 512 (by decide)
    exact ⟨pixels, hp, hkey 0 0 (by decide) (by decide), hkey 63 63 (by decide) (by decide),
      hkey 64 0 (by decide) (by decide)⟩

/-- Witness of C5 (amended): the general statement applied to
`make_checker(512)` at the pixels `(0,0)`, `(63,63)` and `(0,0)` shifted by one
cell. -/
theorem checker_cells_witness :
    ∃ pixels, make_checker 512 = some pixels ∧
      pixels[0 * 512 + 0]? = some ⟨128, 128, 128, 255⟩ ∧
      pixels[63 * 512 + 63]? = pixels[(64 * (63 / 64)) * 512 + 64 * (63 / 64)]? ∧
      pixels[0 * 512 + (0 + 64)]? = some ⟨90, 90, 90, 255⟩ := by
  obtain ⟨pixels, hp, h⟩ := checker_cells.1 512 (by decide)
  exact ⟨pixels, hp, (h 0 0 (by decide) (by decide)).1, (h 63 63 (by decide) (by decide)).2.1,
    (h 0 0 (by decide) (by decide)).2.2 (by decide)⟩

/-- Counterexample to C6 as stated: `46341 * 46341` is not an `int`, so
`make_grid(46341)` returns no buffer of `s*s` pixels. -/
theorem grid_overflow :
    ¬ 46341 * 46341 ≤ INT_MAX ∧ make_grid 46341 = none ∧
      ¬ ∃ pixels, make_grid 46341 = some pixels ∧ pixels.length = 46341 * 46341 := by
  have h : make_grid 46341 = none := fillPixels_none _ _ _ (by decide)
  refine ⟨by decide, h, ?_⟩
  rintro ⟨pixels, hp, _⟩
  rw [h] at hp
  cases hp

/-- C6, amended. Grid texture: for every side `s ≤ 46340`, the sides whose
square is an `int`, the buffer of `make_grid(s)` has exactly `s*s` pixels, and
for `i, j < s` the pixel at row-major index `j*s + i` is the border colour
`(90,90,90,255)` exactly when `i mod 64` or `j mod 64` is `0` or `63`, and the
fill colour `(128,128,128,255)` exactly otherwise. -/
theorem grid_pixels (s : Nat) (hs : s ≤ 46340) :
    ∃ pixels, make_grid s = some pixels ∧ pixels.length = s * s ∧
    ∀ i j : Nat, i < s → j < s →
      ∃ p, pixels[j * s + i]? = some p ∧
        (p = ⟨90, 90, 90, 255⟩ ↔
          (i % 64 = 0 ∨ i % 64 = 63 ∨ j % 64 = 0 ∨ j % 64 = 63)) ∧
        (p = ⟨128, 128, 128, 255⟩ ↔
          ¬ (i % 64 = 0 ∨ i % 64 = 63 ∨ j % 64 = 0 ∨ j % 64 = 63)) := by
  obtain ⟨pixels, hp, hlen, hget⟩ := fillPixels_spec s ⟨0, 0, 0, 0⟩ gridPixel hs
  refine ⟨pixels, hp, hlen, fun i j hi hj => ?_⟩
  refine ⟨gridPixel i j, hget i j hi hj, ?_, ?_⟩
  · by_cases h : (i % 64 = 0 ∨ i % 64 = 63 ∨ j % 64 = 0 ∨ j % 64 = 63)
    · simp only [h, iff_true]
      simp only [gridPixel, beq_iff_eq, Bool.or_eq_true, Nat.reduceSub]
      rw [if_pos (by tauto)]
    · simp only [h, iff_false]
      simp only [gridPixel, beq_iff_eq, Bool.or_eq_true, Nat.reduceSub]
      rw [if_neg (by tauto)]
      decide
  · by_cases h : (i % 64 = 0 ∨ i % 64 = 63 ∨ j % 64 = 0 ∨ j % 64 = 63)
    · simp only [h, not_true_eq_false, iff_false]
      simp only [gridPixel, beq_iff_eq, Bool.or_eq_true, Nat.reduceSub]
      rw [if_pos (by tauto)]
      decide
    · simp only [h, not_false_eq_true, iff_true]
      simp only [gridPixel, beq_iff_eq, Bool.or_eq_true, Nat.reduceSub]
      rw [if_neg (by tauto)]

/-- Witness of C6 (amended) on `make_grid(128)` at the border pixel
`(63, 70)`. -/
theorem grid_pixels_witness :
    ∃ pixels, make_grid 128 = some pixels ∧ pixels.length = 128 * 128 ∧
      ∃ p, pixels[70 * 128 + 63]? = some p ∧
        (p = ⟨90, 90, 90, 255⟩ ↔
          (63 % 64 = 0 ∨ 63 % 64 = 63 ∨ 70 % 64 = 0 ∨ 70 % 64 = 63)) ∧
        (p = ⟨128, 128, 128, 255⟩ ↔
          ¬ (63 % 64 = 0 ∨ 63 % 64 = 63 ∨ 70 % 64 = 0 ∨ 70 % 64 = 63)) := by
  obtain ⟨pixels, hp, hlen, h⟩ := grid_pixels 128 (by decide)
  exact ⟨pixels, hp, hlen, h 63 70 (by decide) (by decide)⟩

/-- Counterexample to C7 as stated: `46341 * 46341` is not an `int`, so
`make_rchecker(46341)` has no buffer and no gray pixel at `(1, 1)`. -/
theorem rchecker_overflow :
    ¬ 46341 * 46341 ≤ INT_MAX ∧ make_rchecker 46341 = none ∧
      ¬ ∃ pixels pv, make_rchecker 46341 = some pixels ∧
        pixels[1 * 46341 + 1]? = some ⟨pv, pv, pv, 255⟩ := by
  have h : make_rchecker 46341 = none := fillPixels_none _ _ _ (by decide)
  refine ⟨by decide, h, ?_⟩
  rintro ⟨pixels, pv, hp, _⟩
  rw [h] at hp
  cases hp

/-- C7, amended. Multi-frequency checker: for every side `s ≤ 46340`, the sides
whose square is an `int`, and `i, j < s` the pixel of `make_rchecker(s)` at
`(i, j)` is the gray `(pv, pv, pv, 255)`.  Inside a cell (`i mod 32 ≠ 0` and
`j mod 32 ≠ 0`) `pv = 128 + a + b + c` with `a = ±16`, `b = ±4`, `c = ±1`, the
sign being `+` when `i/64 + j/64`, `i/16 + j/16`, `i/4 + j/4` respectively is
odd and `-` when it is even; elsewhere `pv = 196`.  Every partial sum lies in
`0..255`, so no store into the byte wraps, and `pv` is one of
`107, 109, 115, 117, 139, 141, 147, 149, 196`. -/
theorem rchecker_pixels (s i j : Nat) (hs : s ≤ 46340) (hi : i < s) (hj : j < s) :
    ∃ (pixels : List rgba) (pv : Nat), make_rchecker s = some pixels ∧
      pixels[j * s + i]? = some ⟨pv, pv, pv, 255⟩ ∧
      (∀ a b c : Int,
        a = (if (i / 64 + j / 64) % 2 = 1 then 16 else -16) →
        b = (if (i / 16 + j / 16) % 2 = 1 then 4 else -4) →
        c = (if (i / 4 + j / 4) % 2 = 1 then 1 else -1) →
        (0 ≤ 128 + a ∧ 128 + a ≤ 255) ∧ (0 ≤ 128 + a + b ∧ 128 + a + b ≤ 255) ∧
          (0 ≤ 128 + a + b + c ∧ 128 + a + b + c ≤ 255) ∧
          (i % 32 ≠ 0 ∧ j % 32 ≠ 0 → (pv : Int) = 128 + a + b + c)) ∧
      (¬ (i % 32 ≠ 0 ∧ j % 32 ≠ 0) → pv = 196) ∧
      pv ∈ [107, 109, 115, 117, 139, 141, 147, 149, 196] := by
  obtain ⟨pixels, hp, _, hget⟩ := fillPixels_spec s ⟨0, 0, 0, 0⟩
    (fun i j => (⟨rcheckerValue i j, rcheckerValue i j, rcheckerValue i j, 255⟩ : rgba)) hs
  refine ⟨pixels, rcheckerValue i j, hp, hget i j hi hj, ?_, ?_, ?_⟩
  · intro a b c ha hb hc
    subst ha hb hc
    refine ⟨?_, ?_, ?_, ?_⟩
    · split <;> decide
    · split <;> split <;> decide
    · split <;> split <;> split <;> decide
    · rintro ⟨h1, h2⟩
      have hcond : (i % 32 != 0 && j % 32 != 0) = true := by simp [h1, h2]
      simp only [rcheckerValue, hcond, if_true]
      rcases Nat.mod_two_eq_zero_or_one (i / 64 + j / 64) with ha | ha <;>
      rcases Nat.mod_two_eq_zero_or_one (i / 16 + j / 16) with hb | hb <;>
      rcases Nat.mod_two_eq_zero_or_one (i / 4 + j / 4) with hc | hc <;>
      simp [ha, hb, hc, ubyte]
  · intro h
    have h' : (i % 32 != 0 && j % 32 != 0) = false := by
      rcases Decidable.not_and_iff_or_not_not.mp h with h | h <;> simp at h <;> simp [h]
    simp only [rcheckerValue, h']
    rfl
  · by_cases h : (i % 32 != 0 && j % 32 != 0) = true
    · simp only [rcheckerValue, h, if_true]
      rcases Nat.mod_two_eq_zero_or_one (i / 64 + j / 64) with ha | ha <;>
      rcases Nat.mod_two_eq_zero_or_one (i / 16 + j / 16) with hb | hb <;>
      rcases Nat.mod_two_eq_zero_or_one (i / 4 + j / 4) with hc | hc <;>
      simp [ha, hb, hc, ubyte]
    · simp [rcheckerValue, h]

/-- Witness of C7 (amended) on `make_rchecker(512)` at the interior pixel
`(65, 17)`. -/
theorem rchecker_pixels_witness :
    ∃ (pixels : List rgba) (pv : Nat), make_rchecker 512 = some pixels ∧
      pixels[17 * 512 + 65]? = some ⟨pv, pv, pv, 255⟩ ∧
      (pv : Int) = 128 + 16 + 4 + -1 := by
  obtain ⟨pixels, pv, hp, h1, h2, _, _⟩ :=
    rchecker_pixels 512 65 17 (by decide) (by decide) (by decide)
  exact ⟨pixels, pv, hp, h1,
    (h2 16 4 (-1) (by decide) (by decide) (by decide)).2.2.2 (by decide)⟩

/-! ## Claims on the gamma ramps -/

/-- Counterexample to C8 as stated: `46341 * 46341` is not an `int`, so for
the side `s = 46341 ≥ 2` neither ramp has a buffer whose values could be
compared. -/
theorem gammaramp_overflow :
    (2 ≤ 46341 ∧ ¬ 46341 * 46341 ≤ INT_MAX) ∧
      ∀ m : Libm ℝ, make_gammaramp m 46341 = none ∧ make_gammarampf m 46341 = none :=
  ⟨by decide, fun _ => ⟨fillPixels_none _ _ _ (by decide), fillPixels_none _ _ _ (by decide)⟩⟩

/-- C8, amended. Gamma ramp monotonicity: for `2 ≤ s ≤ 46340`, the sides whose
square is an `int`, a column `i < s` and rows `j1 ≤ j2 < s`, the gray level of
`make_gammaramp(s)` and the value of `make_gammarampf(s)` at `(i, j1)` are at
most those at `(i, j2)`; the float value at row `j` is `u^2.2` in the columns
`i < s/3`, `u^(1/2.2)` in the columns `i > (2*s)/3` and `u` in the others, with
`u = j/(s-1)`, and the gray level is the truncation of `255` times it.
Arithmetic is exact and `pow` is any function that is monotone with values in
`[0, 1]` on bases in `[0, 1]`, as the real power is. -/
theorem gammaramp_monotone {α : Type} [LinearOrderedField α] [FloorRing α] (m : Libm α)
    (s i j1 j2 : Nat) (hm : PowSpec m) (hs : 2 ≤ s) (hs2 : s ≤ 46340) (hi : i < s)
    (h12 : j1 ≤ j2) (hj : j2 < s) :
    ∃ (pixels : List rgba) (pixelsf : List (Vec4 α)) (c1 c2 : Nat) (u1 u2 : α),
      make_gammaramp m s = some pixels ∧ make_gammarampf m s = some pixelsf ∧
      pixels[j1 * s + i]? = some ⟨c1, c1, c1, 255⟩ ∧
      pixels[j2 * s + i]? = some ⟨c2, c2, c2, 255⟩ ∧
      pixelsf[j1 * s + i]? = some ⟨u1, u1, u1, 1⟩ ∧
      pixelsf[j2 * s + i]? = some ⟨u2, u2, u2, 1⟩ ∧
      c1 ≤ c2 ∧ u1 ≤ u2 ∧
      (c1 : Int) = ⌊u1 * 255⌋ ∧ (c2 : Int) = ⌊u2 * 255⌋ ∧
      u1 = (if i < s / 3 then m.pow ((j1 : α) / ((s : α) - 1)) (22 / 10)
        else if i > (s * 2) / 3 then m.pow ((j1 : α) / ((s : α) - 1)) (1 / (22 / 10))
        else (j1 : α) / ((s : α) - 1)) ∧
      u2 = (if i < s / 3 then m.pow ((j2 : α) / ((s : α) - 1)) (22 / 10)
        else if i > (s * 2) / 3 then m.pow ((j2 : α) / ((s : α) - 1)) (1 / (22 / 10))
        else (j2 : α) / ((s : α) - 1)) := by
  have hj1 : j1 < s := by omega
  have hu1 := gammaValue_unit m hm s i j1 hs hj1
  have hu2 := gammaValue_unit m hm s i j2 hs hj
  have hmono := gammaValue_mono m hm s i j1 j2 hs h12 hj
  obtain ⟨pixels, hp, _, hget⟩ := fillPixels_spec s (⟨0, 0, 0, 0⟩ : rgba)
    (fun i j => let c := toUbyte (gammaValue m s i j * 255); ⟨c, c, c, 255⟩) hs2
  obtain ⟨pixelsf, hpf, _, hgetf⟩ := fillPixels_spec s (⟨0, 0, 0, 0⟩ : Vec4 α)
    (fun i j => let u := gammaValue m s i j; ⟨u, u, u, 1⟩) hs2
  exact ⟨pixels, pixelsf, toUbyte (gammaValue m s i j1 * 255),
    toUbyte (gammaValue m s i j2 * 255), gammaValue m s i j1, gammaValue m s i j2,
    hp, hpf, hget i j1 hi hj1, hget i j2 hi hj, hgetf i j1 hi hj1, hgetf i j2 hi hj,
    toUbyte_mono _ _ hu1.1 hmono hu2.2, hmono,
    (toUbyte_of_unit _ hu1.1 hu1.2).1, (toUbyte_of_unit _ hu2.1 hu2.2).1,
    gammaValue_regime m s i j1, gammaValue_regime m s i j2⟩

/-- Witness of C8 (amended) over the reals with the real power function: side
`4`, column `0` (the `u^2.2` regime), rows `1` and `2`. -/
theorem gammaramp_monotone_witness :
    ∃ m : Libm ℝ, (∀ x y : ℝ, m.pow x y = x ^ y) ∧
      ∃ (pixels : List rgba) (pixelsf : List (Vec4 ℝ)) (c1 c2 : Nat) (u1 u2 : ℝ),
        make_gammaramp m 4 = some pixels ∧ make_gammarampf m 4 = some pixelsf ∧
        pixels[1 * 4 + 0]? = some ⟨c1, c1, c1, 255⟩ ∧
        pixels[2 * 4 + 0]? = some ⟨c2, c2, c2, 255⟩ ∧
        pixelsf[1 * 4 + 0]? = some ⟨u1, u1, u1, 1⟩ ∧
        pixelsf[2 * 4 + 0]? = some ⟨u2, u2, u2, 1⟩ ∧
        c1 ≤ c2 ∧ u1 ≤ u2 ∧
        (c1 : Int) = ⌊u1 * 255⌋ ∧ (c2 : Int) = ⌊u2 * 255⌋ ∧
        u1 = (if 0 < 4 / 3 then m.pow (((1 : Nat) : ℝ) / (((4 : Nat) : ℝ) - 1)) (22 / 10)
          else if 0 > (4 * 2) / 3 then
            m.pow (((1 : Nat) : ℝ) / (((4 : Nat) : ℝ) - 1)) (1 / (22 / 10))
          else ((1 : Nat) : ℝ) / (((4 : Nat) : ℝ) - 1)) ∧
        u2 = (if 0 < 4 / 3 then m.pow (((2 : Nat) : ℝ) / (((4 : Nat) : ℝ) - 1)) (22 / 10)
          else if 0 > (4 * 2) / 3 then
            m.pow (((2 : Nat) : ℝ) / (((4 : Nat) : ℝ) - 1)) (1 / (22 / 10))
          else ((2 : Nat) : ℝ) / (((4 : Nat) : ℝ) - 1)) :=
  ⟨⟨Real.sqrt, fun x y => x ^ y, Real.logb 2, round⟩, fun _ _ => rfl,
    gammaramp_monotone _ 4 0 1 2 (real_powSpec _ (fun _ _ => rfl)) (by decide) (by decide)
      (by decide) (by decide) (by decide)⟩

/-- C9. The 8-bit and the float gamma ramp agree up to quantization: for
`s ≥ 2` and `i, j < s`, when `make_gammarampf(s)` holds `(u, u, u, 1)` at index
`j*s + i`, then `0 ≤ u ≤ 1` and `make_gammaramp(s)` holds `(c, c, c, 255)` at
that index with `c = trunc(255 * u)`, a value in `0..255` that the store into
the byte leaves unchanged.  Arithmetic is exact and `pow` maps `[0, 1]` into
`[0, 1]`, as the real power does. -/
theorem gammaramp_quantization {α : Type} [LinearOrderedField α] [FloorRing α] (m : Libm α)
    (s i j : Nat) (u : α) (pixelsf : List (Vec4 α)) (hm : PowSpec m) (hs : 2 ≤ s)
    (hi : i < s) (hj : j < s) (hf : make_gammarampf m s = some pixelsf)
    (hu : pixelsf[j * s + i]? = some ⟨u, u, u, 1⟩) :
    0 ≤ u ∧ u ≤ 1 ∧
      ∃ (pixels : List rgba) (c : Nat), make_gammaramp m s = some pixels ∧
        pixels[j * s + i]? = some ⟨c, c, c, 255⟩ ∧
        (c : Int) = ⌊255 * u⌋ ∧ c ≤ 255 := by
  obtain ⟨hfit, rfl⟩ := fillPixels_inv _ _ _ _ hf
  rw [pixelLoops_getElem? s _ _ i j hi hj] at hu
  have hu' : gammaValue m s i j = u := by
    have := Option.some.inj hu
    exact congrArg Vec4.x this
  have hunit := gammaValue_unit m hm s i j hs hj
  rw [hu'] at hunit
  refine ⟨hunit.1, hunit.2, _, toUbyte (u * 255), fillPixels_eq s _ _ hfit, ?_, ?_,
    (toUbyte_of_unit u hunit.1 hunit.2).2⟩
  · rw [pixelLoops_getElem? s _ _ i j hi hj, hu']
  · rw [mul_comm (255 : α) u]
    exact (toUbyte_of_unit u hunit.1 hunit.2).1

/-- Witness of C9 over the reals with the real power function: side `4`,
column `0`, last row, where the float ramp holds `1 ^ 2.2 = 1`. -/
theorem gammaramp_quantization_witness :
    ∃ (m : Libm ℝ) (pixelsf : List (Vec4 ℝ)), (∀ x y : ℝ, m.pow x y = x ^ y) ∧
      make_gammarampf m 4 = some pixelsf ∧ pixelsf[3 * 4 + 0]? = some ⟨1, 1, 1, 1⟩ ∧
      ((0 : ℝ) ≤ 1 ∧ (1 : ℝ) ≤ 1 ∧
        ∃ (pixels : List rgba) (c : Nat), make_gammaramp m 4 = some pixels ∧
          pixels[3 * 4 + 0]? = some ⟨c, c, c, 255⟩ ∧
          (c : Int) = ⌊(255 : ℝ) * 1⌋ ∧ c ≤ 255) := by
  have hm : PowSpec (⟨Real.sqrt, fun x y => x ^ y, Real.logb 2, round⟩ : Libm ℝ) :=
    real_powSpec _ (fun _ _ => rfl)
  have hspec : ∃ pixelsf,
      make_gammarampf (⟨Real.sqrt, fun x y => x ^ y, Real.logb 2, round⟩ : Libm ℝ) 4 =
        some pixelsf ∧ pixelsf.length = 4 * 4 ∧
      ∀ i j, i < 4 → j < 4 → pixelsf[j * 4 + i]? =
        some ⟨gammaValue (⟨Real.sqrt, fun x y => x ^ y, Real.logb 2, round⟩ : Libm ℝ) 4 i j,
          gammaValue (⟨Real.sqrt, fun x y => x ^ y, Real.logb 2, round⟩ : Libm ℝ) 4 i j,
          gammaValue (⟨Real.sqrt, fun x y => x ^ y, Real.logb 2, round⟩ : Libm ℝ) 4 i j, 1⟩ :=
    fillPixels_spec 4 _ _ (by decide)
  obtain ⟨pixelsf, hf, _, hget⟩ := hspec
  have hu : pixelsf[3 * 4 + 0]? = some ⟨1, 1, 1, 1⟩ := by
    rw [hget 0 3 (by decide) (by decide)]
    have hv : gammaValue (⟨Real.sqrt, fun x y => x ^ y, Real.logb 2, round⟩ : Libm ℝ)
        4 0 3 = 1 := by
      rw [gammaValue_regime, if_pos (by decide)]
      norm_num
    simp only [hv]
  exact ⟨_, pixelsf, fun _ _ => rfl, hf, hu,
    gammaramp_quantization _ 4 0 3 1 pixelsf hm (by decide) (by decide) (by decide) hf hu⟩

/-! ## Claims on the sky sampler -/

/-- C10. Sky sampler hemisphere clamp: in row `j < h` of `make_sunsky_hdr` the
polar angle used is `theta = pi*(j + 0.5)/h` when `include_ground` is false; it
lies in `(0, pi)` and exceeds `pi/2` in the rows with `j ≥ h/2` (quotient of
reals).  When `include_ground` is true the angle used is
`min(theta, pi/2 - 0.001)`, which lies in `[0, pi/2 - 0.001]`.  The constant
`pi` is any number above `3`. -/
theorem sunsky_theta_clamp {α : Type} [LinearOrderedField α] (pif : α) (h j : Nat)
    (hpi : 3 < pif) (hj : j < h) :
    (skyTheta pif h false j = pif * ((j : α) + 1 / 2) / (h : α) ∧
      0 < skyTheta pif h false j ∧ skyTheta pif h false j < pif ∧
      ((h : α) / 2 ≤ (j : α) → pif / 2 < skyTheta pif h false j)) ∧
    (skyTheta pif h true j = min (pif * ((j : α) + 1 / 2) / (h : α)) (pif / 2 - 1 / 1000) ∧
      0 ≤ skyTheta pif h true j ∧ skyTheta pif h true j ≤ pif / 2 - 1 / 1000) := by
  have hpos : (0 : α) < pif := by linarith
  have hj0 : (0 : α) ≤ (j : α) := Nat.cast_nonneg j
  have hjh : (j : α) + 1 ≤ (h : α) := by exact_mod_cast hj
  have hh : (0 : α) < (h : α) := by linarith
  have ht0 : 0 < pif * ((j : α) + 1 / 2) / (h : α) := by positivity
  have hhi : (0 : α) ≤ pif / 2 - 1 / 1000 := by linarith
  refine ⟨⟨by simp [skyTheta], by simpa [skyTheta] using ht0, ?_, ?_⟩, ?_, ?_, ?_⟩
  · simp only [skyTheta, Bool.false_eq_true, if_false]
    rw [div_lt_iff₀ hh]
    nlinarith
  · intro h2
    simp only [skyTheta, Bool.false_eq_true, if_false]
    rw [lt_div_iff₀ hh]
    nlinarith
  · simp only [skyTheta, clamp, if_true, max_eq_left ht0.le]
  · simp only [skyTheta, clamp, if_true, max_eq_left ht0.le]
    exact le_min ht0.le hhi
  · simp only [skyTheta, clamp, if_true]
    exact min_le_right _ _

/-- Witness of C10 over the reals with `pi` itself: the last of `4` rows. -/
theorem sunsky_theta_clamp_witness :
    (skyTheta Real.pi 4 false 3 = Real.pi * (((3 : Nat) : ℝ) + 1 / 2) / ((4 : Nat) : ℝ) ∧
      0 < skyTheta Real.pi 4 false 3 ∧ skyTheta Real.pi 4 false 3 < Real.pi ∧
      (((4 : Nat) : ℝ) / 2 ≤ ((3 : Nat) : ℝ) → Real.pi / 2 < skyTheta Real.pi 4 false 3)) ∧
    (skyTheta Real.pi 4 true 3 =
        min (Real.pi * (((3 : Nat) : ℝ) + 1 / 2) / ((4 : Nat) : ℝ)) (Real.pi / 2 - 1 / 1000) ∧
      0 ≤ skyTheta Real.pi 4 true 3 ∧ skyTheta Real.pi 4 true 3 ≤ Real.pi / 2 - 1 / 1000) :=
  sunsky_theta_clamp Real.pi 4 3 Real.pi_gt_three (by decide)

/-! ## Properties of the strand setup -/

section LinesLemmas

variable {α : Type} [LinearOrderedField α]

theorem strandSetup_fold (m : Libm α) (t : Trig α) (pif : α) (rn : rng_pcg32 α)
    (tb0 : StrandTables α) (n : Nat) :
    ((List.range n).foldl (strandSetupStep m t pif) (tb0, rn)).2 =
        ⟨rn.stream, rn.idx + 3 * n⟩ ∧
      ∀ i, i < n →
        ((List.range n).foldl (strandSetupStep m t pif) (tb0, rn)).1.base i =
            strandBase m t pif (rn.stream (rn.idx + 3 * i)) (rn.stream (rn.idx + 3 * i + 1)) ∧
          ((List.range n).foldl (strandSetupStep m t pif) (tb0, rn)).1.dir i =
            strandBase m t pif (rn.stream (rn.idx + 3 * i)) (rn.stream (rn.idx + 3 * i + 1)) ∧
          ((List.range n).foldl (strandSetupStep m t pif) (tb0, rn)).1.ln i =
            15 / 100 + 15 / 100 * rn.stream (rn.idx + 3 * i + 2) := by
  induction n with
  | zero => exact ⟨rfl, fun i hi => absurd hi (by omega)⟩
  | succ n ih =>
    rw [List.range_succ, List.foldl_append]
    obtain ⟨hrn, htb⟩ := ih
    generalize (List.range n).foldl (strandSetupStep m t pif) (tb0, rn) = st at hrn htb
    simp only [List.foldl_cons, List.foldl_nil]
    constructor
    · simp only [strandSetupStep, next1f, hrn]
      congr 1
    · intro i hi
      rcases Nat.eq_or_lt_of_le (Nat.lt_succ_iff.mp hi) with rfl | hlt
      · simp [strandSetupStep, next1f, hrn, strandBase]
      · have hne : i ≠ n := by omega
        have := htb i hlt
        simp only [strandSetupStep, Function.update_noteq hne]
        exact this

theorem strandBase_length (m : Libm α) (t : Trig α) (hm : SqrtSpec m) (ht : TrigSpec t)
    (pif u1 u2 : α) (h0 : 0 ≤ u1) (h1 : u1 < 1) :
    length m (strandBase m t pif u1 u2) = 1 := by
  have hz : 0 ≤ 1 - (-1 + 2 * u1) * (-1 + 2 * u1) := by nlinarith
  have hz1 : 1 - (-1 + 2 * u1) * (-1 + 2 * u1) ≤ 1 := by nlinarith [mul_self_nonneg (-1 + 2 * u1)]
  have hcl : clamp (1 - (-1 + 2 * u1) * (-1 + 2 * u1)) 0 1 =
      1 - (-1 + 2 * u1) * (-1 + 2 * u1) := by
    rw [clamp, max_eq_left hz, min_eq_left hz1]
  have hr := (hm _ hz).2
  have hdot : dot (strandBase m t pif u1 u2) (strandBase m t pif u1 u2) = 1 := by
    simp only [dot, strandBase, hcl]
    have h2 := ht (2 * pif * u2)
    generalize m.sqrt (1 - (-1 + 2 * u1) * (-1 + 2 * u1)) = r at hr
    generalize t.cos (2 * pif * u2) = cc at h2
    generalize t.sin (2 * pif * u2) = ss at h2
    have : r * cc * (r * cc) + r * ss * (r * ss) = (r * r) * (cc * cc + ss * ss) := by ring
    rw [this, h2, hr]
    ring
  have h1' := hm 1 zero_le_one
  rw [length, hdot]
  have hsq : (m.sqrt 1 - 1) * (m.sqrt 1 + 1) = 0 := by nlinarith [h1'.2]
  rcases mul_eq_zero.mp hsq with h | h
  · linarith
  · linarith [h1'.1]

end LinesLemmas

/-! ## Claims on the hair strands -/

/-- Counterexample to C11 as stated: with `num = 1` and `v = 0.375`, a 32-bit
float, the product `v * (num + 1)` is the float `0.75`, which no rounding
changes; the position function truncates it to strand `0`, while
`clamp(round(0.75), 0, 1)` is strand `1`. -/
theorem strand_index_not_round :
    roundQ ((3 / 8 : ℚ) * roundQ ((1 + 1 : Nat) : ℚ)) = 3 / 4 ∧
      strandIndex roundQ 1 (3 / 8 : ℚ) = 0 ∧ strandIndex id 1 (3 / 8 : ℚ) = 0 ∧
      strandIndexSpec 1 (3 / 8 : ℚ) = 1 := by
  decide!

/-- C11, amended. Strand selection in `make_lines`: for every strand count
`num < 2^24` and every `v ≥ 0`, so every `v` in `[0, 1]`, the strand index used
by the position function is `clamp(trunc(p), 0, num)`, where `p` is the float
product `v * (num + 1)` as the machine rounds it and `trunc`, the conversion to
`int`, is the floor here; it lies in `0..num`.  For `v < 1` it is
`floor(v * (num + 1))`, or one more than that when rounding takes the product
up to the next integer; it is `floor(v * (num + 1))` when the product is a
float, and `num` for `v = 1`.  The rounding is any monotone function that
leaves the integers up to `2^24` unchanged. -/
theorem strand_index_trunc {α : Type} [LinearOrderedField α] [FloorRing α] (fl : α → α)
    (num : Nat) (v : α) (hfl : RoundSpec fl) (hnum : num + 1 ≤ 2 ^ 24) (h0 : 0 ≤ v) :
    strandIndex fl num v = clampInt ⌊fl (v * ((num + 1 : Nat) : α))⌋ 0 num ∧
      (0 ≤ strandIndex fl num v ∧ strandIndex fl num v ≤ num) ∧
      (v < 1 →
        strandIndex fl num v = ⌊v * ((num + 1 : Nat) : α)⌋ ∨
          (strandIndex fl num v = ⌊v * ((num + 1 : Nat) : α)⌋ + 1 ∧
            fl (v * ((num + 1 : Nat) : α)) =
              ((⌊v * ((num + 1 : Nat) : α)⌋ + 1 : Int) : α))) ∧
      (v < 1 → fl (v * ((num + 1 : Nat) : α)) = v * ((num + 1 : Nat) : α) →
        strandIndex fl num v = ⌊v * ((num + 1 : Nat) : α)⌋) ∧
      (v = 1 → strandIndex fl num v = num) := by
  have h24 : (2 : Nat) ^ 24 = 16777216 := by norm_num
  rw [h24] at hnum
  have hint : ∀ n : Nat, n ≤ 16777216 → fl (n : α) = (n : α) := by
    intro n hn
    exact hfl.2 n (by rw [h24]; exact hn)
  have hN : fl ((num + 1 : Nat) : α) = ((num + 1 : Nat) : α) := hint (num + 1) hnum
  have hNpos : (0 : α) < ((num + 1 : Nat) : α) := by exact_mod_cast Nat.succ_pos num
  have hp : (0 : α) ≤ v * ((num + 1 : Nat) : α) := mul_nonneg h0 hNpos.le
  have hfl0 : fl 0 = 0 := by simpa using hint 0 (Nat.zero_le _)
  have hflp : 0 ≤ fl (v * ((num + 1 : Nat) : α)) :=
    le_trans (le_of_eq hfl0.symm) (hfl.1 0 _ hp)
  have hfloor : 0 ≤ ⌊fl (v * ((num + 1 : Nat) : α))⌋ := Int.floor_nonneg.mpr hflp
  have hdef : strandIndex fl num v = min ⌊fl (v * ((num + 1 : Nat) : α))⌋ (num : Int) := by
    simp only [strandIndex, hN, truncInt, if_pos hflp, clampInt, max_eq_left hfloor]
  have key : v < 1 → ∃ k : Nat, ⌊v * ((num + 1 : Nat) : α)⌋ = (k : Int) ∧ k ≤ num ∧
      (k : α) ≤ v * ((num + 1 : Nat) : α) ∧
      (k : α) ≤ fl (v * ((num + 1 : Nat) : α)) ∧
      fl (v * ((num + 1 : Nat) : α)) ≤ (k : α) + 1 := by
    intro hv
    have hlt : v * ((num + 1 : Nat) : α) < ((num + 1 : Nat) : α) := by nlinarith
    obtain ⟨k, hk⟩ := Int.eq_ofNat_of_zero_le (Int.floor_nonneg.mpr hp)
    have hk1 : (k : α) ≤ v * ((num + 1 : Nat) : α) := by
      have := Int.floor_le (v * ((num + 1 : Nat) : α))
      rw [hk] at this
      exact_mod_cast this
    have hk2 : v * ((num + 1 : Nat) : α) < (k : α) + 1 := by
      have := Int.lt_floor_add_one (v * ((num + 1 : Nat) : α))
      rw [hk] at this
      exact_mod_cast this
    have hkn : k ≤ num := by
      have h1 : (k : α) < ((num + 1 : Nat) : α) := lt_of_le_of_lt hk1 hlt
      have h2 : k < num + 1 := by exact_mod_cast h1
      omega
    refine ⟨k, hk, hkn, hk1, ?_, ?_⟩
    · have := hfl.1 _ _ hk1
      rwa [hint k (by omega)] at this
    · have h4 : v * ((num + 1 : Nat) : α) ≤ ((k + 1 : Nat) : α) := by
        rw [Nat.cast_succ k]
        exact hk2.le
      have := hfl.1 _ _ h4
      rw [hint (k + 1) (by omega), Nat.cast_succ k] at this
      exact this
  refine ⟨by simp only [strandIndex, hN, truncInt, if_pos hflp], ⟨?_, ?_⟩, ?_, ?_, ?_⟩
  · rw [hdef]
    exact le_min hfloor (Int.natCast_nonneg num)
  · rw [hdef]
    exact min_le_right _ _
  · intro hv
    obtain ⟨k, hk, hkn, _, hlo, hhi⟩ := key hv
    by_cases hlt : fl (v * ((num + 1 : Nat) : α)) < (k : α) + 1
    · left
      have hf : ⌊fl (v * ((num + 1 : Nat) : α))⌋ = (k : Int) :=
        Int.floor_eq_iff.mpr ⟨by exact_mod_cast hlo, by exact_mod_cast hlt⟩
      rw [hdef, hk, hf]
      exact min_eq_left (by exact_mod_cast hkn)
    · have heq : fl (v * ((num + 1 : Nat) : α)) = (k : α) + 1 :=
        le_antisymm hhi (not_lt.mp hlt)
      have hf : ⌊fl (v * ((num + 1 : Nat) : α))⌋ = (k : Int) + 1 := by
        rw [heq]
        exact Int.floor_eq_iff.mpr ⟨by push_cast; exact le_rfl, by push_cast; linarith⟩
      by_cases hkn2 : k + 1 ≤ num
      · right
        refine ⟨?_, ?_⟩
        · rw [hdef, hk, hf]
          exact min_eq_left (by omega)
        · rw [heq, hk]
          push_cast
          rfl
      · left
        have hkeq : k = num := by omega
        rw [hdef, hk, hf, hkeq]
        exact min_eq_right (by omega)
  · intro hv hexact
    obtain ⟨k, hk, hkn, _, _, _⟩ := key hv
    rw [hdef, hexact, hk]
    exact min_eq_left (by exact_mod_cast hkn)
  · intro hv
    rw [hdef, hv, one_mul, hN, Int.floor_natCast]
    apply min_eq_right
    push_cast
    omega

theorem roundQ_spec : RoundSpec roundQ := by
  refine ⟨fun x y hxy => ?_, fun n _ => ?_⟩
  · unfold roundQ
    have h : ⌊x * 2 ^ 21 + 1 / 2⌋ ≤ ⌊y * 2 ^ 21 + 1 / 2⌋ :=
      Int.floor_le_floor (by linarith)
    have h2 : ((⌊x * 2 ^ 21 + 1 / 2⌋ : Int) : ℚ) ≤ ((⌊y * 2 ^ 21 + 1 / 2⌋ : Int) : ℚ) := by
      exact_mod_cast h
    exact div_le_div_of_nonneg_right h2 (by positivity)
  · unfold roundQ
    have h : ⌊(n : ℚ) * 2 ^ 21 + 1 / 2⌋ = (n : Int) * 2 ^ 21 := by
      rw [Int.floor_eq_iff]
      push_cast
      constructor <;> linarith
    rw [h]
    push_cast
    exact mul_div_cancel_right₀ _ (by positivity)

/-- Witness of C11 (amended) on the rationals with rounding to the float grid
of `[4, 8)`: `num = 9` and `v = 11744051 / 2^24`, the float nearest to `0.7`.
The exact product is below `7`, its rounding is `7`, and the strand is `7`. -/
theorem strand_index_trunc_witness :
    ⌊(11744051 / 16777216 : ℚ) * ((9 + 1 : Nat) : ℚ)⌋ = 6 ∧
      roundQ ((11744051 / 16777216 : ℚ) * ((9 + 1 : Nat) : ℚ)) = 7 ∧
      strandIndex roundQ 9 (11744051 / 16777216 : ℚ) = 7 ∧
      (strandIndex roundQ 9 (11744051 / 16777216 : ℚ) =
          ⌊(11744051 / 16777216 : ℚ) * ((9 + 1 : Nat) : ℚ)⌋ ∨
        (strandIndex roundQ 9 (11744051 / 16777216 : ℚ) =
            ⌊(11744051 / 16777216 : ℚ) * ((9 + 1 : Nat) : ℚ)⌋ + 1 ∧
          roundQ ((11744051 / 16777216 : ℚ) * ((9 + 1 : Nat) : ℚ)) =
            ((⌊(11744051 / 16777216 : ℚ) * ((9 + 1 : Nat) : ℚ)⌋ + 1 : Int) : ℚ))) :=
  ⟨by decide!, by decide!, by decide!,
    (strand_index_trunc roundQ 9 (11744051 / 16777216 : ℚ) roundQ_spec (by decide)
      (by decide!)).2.2.1 (by decide!)⟩

/-- C12. Strand bases are unit vectors: when `sqrt` is a square root on the
non-negative numbers and `cos`, `sin` satisfy the Pythagorean identity (exact
arithmetic), then for every stream of draws in `[0, 1)` and each of the
`num + 1` strands `i`, the setup loop of `make_lines` leaves in `base[i]` and
`dir[i]` the point `(r cos(phi), r sin(phi), z)` with `z = -1 + 2*u1`,
`r = sqrt(clamp(1 - z^2, 0, 1))`, `phi = 2*pi*u2` for the draws `u1`, `u2` of
that strand, and its Euclidean norm is exactly `1`. -/
theorem strand_base_unit {α : Type} [LinearOrderedField α] (m : Libm α) (t : Trig α)
    (pif : α) (num : Nat) (rn : rng_pcg32 α) (hm : SqrtSpec m) (ht : TrigSpec t)
    (hdraw : ∀ k, 0 ≤ rn.stream k ∧ rn.stream k < 1) (i : Nat) (hi : i ≤ num) :
    (strandSetup m t pif num rn).1.base i =
        strandBase m t pif (rn.stream (rn.idx + 3 * i)) (rn.stream (rn.idx + 3 * i + 1)) ∧
      (strandSetup m t pif num rn).1.dir i = (strandSetup m t pif num rn).1.base i ∧
      length m ((strandSetup m t pif num rn).1.base i) = 1 := by
  have h := (strandSetup_fold m t pif rn
    ⟨fun _ => ⟨0, 0, 0⟩, fun _ => ⟨0, 0, 0⟩, fun _ => 0⟩ (num + 1)).2 i (by omega)
  refine ⟨h.1, ?_, ?_⟩
  · rw [strandSetup, h.1, h.2.1]
  · rw [strandSetup, h.1]
    exact strandBase_length m t hm ht pif _ _ (hdraw _).1 (hdraw _).2

/-- Witness of C12 over the reals, with the real square root, cosine and sine
and `pi` itself: three strands from the constant stream `1/2`. -/
theorem strand_base_unit_witness :
    ∃ (m : Libm ℝ) (t : Trig ℝ), m.sqrt = Real.sqrt ∧ t.cos = Real.cos ∧ t.sin = Real.sin ∧
      ((strandSetup m t Real.pi 2 ⟨fun _ => 1 / 2, 0⟩).1.base 1 =
          strandBase m t Real.pi (1 / 2) (1 / 2) ∧
        (strandSetup m t Real.pi 2 ⟨fun _ => 1 / 2, 0⟩).1.dir 1 =
          (strandSetup m t Real.pi 2 ⟨fun _ => 1 / 2, 0⟩).1.base 1 ∧
        length m ((strandSetup m t Real.pi 2 ⟨fun _ => 1 / 2, 0⟩).1.base 1) = 1) :=
  ⟨⟨Real.sqrt, fun x y => x ^ y, Real.logb 2, round⟩,
    ⟨Real.cos, Real.sin, Real.arccos, fun _ _ p => p⟩, rfl, rfl, rfl,
    strand_base_unit _ _ Real.pi 2 ⟨fun _ => 1 / 2, 0⟩
      (fun x hx => ⟨Real.sqrt_nonneg x, Real.mul_self_sqrt hx⟩)
      (fun a => by
        have := Real.cos_sq_add_sin_sq a
        simpa [sq] using this)
      (fun _ => ⟨by norm_num, by norm_num⟩) 1 (by decide)⟩

/-! ## Properties of the position function -/

section PosLemmas

variable {α : Type} [LinearOrderedField α]

theorem nearestScan_spec (m : Libm α) (base : Nat → Vec3 α) (i n : Nat) (hn : 0 < n) :
    (nearestScan m base i n).1 = some (dist m (base i) (base (nearestScan m base i n).2)) ∧
      (nearestScan m base i n).2 < n ∧
      (∀ k, k < n → dist m (base i) (base (nearestScan m base i n).2) ≤
        dist m (base i) (base k)) ∧
      (∀ k, k < (nearestScan m base i n).2 →
        dist m (base i) (base (nearestScan m base i n).2) < dist m (base i) (base k)) := by
  induction n with
  | zero => omega
  | succ n ih =>
    unfold nearestScan at ih ⊢
    rw [List.range_succ, List.foldl_append]
    simp only [List.foldl_cons, List.foldl_nil]
    rcases Nat.eq_zero_or_pos n with h0 | hpos
    · subst h0
      simp only [List.range_zero, List.foldl_nil, belowMin, if_true]
      refine ⟨trivial, by omega, fun k hk => ?_, fun k hk => absurd hk (by omega)⟩
      have : k = 0 := by omega
      rw [this]
    · obtain ⟨h1, h2, h3, h4⟩ := ih hpos
      generalize (List.range n).foldl
        (fun st k =>
          let d := dist m (base i) (base k)
          if belowMin d st.1 then (some d, k) else st) (none, 0) = st at h1 h2 h3 h4
      simp only [h1, belowMin]
      by_cases hlt : dist m (base i) (base n) < dist m (base i) (base st.2)
      · simp only [hlt, decide_True, if_true]
        refine ⟨trivial, by omega, fun k hk => ?_, fun k hk => ?_⟩
        · rcases Nat.eq_or_lt_of_le (Nat.lt_succ_iff.mp hk) with rfl | hk'
          · exact le_rfl
          · exact (hlt.trans_le (h3 k hk')).le
        · exact hlt.trans_le (h3 k hk)
      · simp only [hlt, decide_False, Bool.false_eq_true, if_false]
        refine ⟨h1, by omega, fun k hk => ?_, h4⟩
        rcases Nat.eq_or_lt_of_le (Nat.lt_succ_iff.mp hk) with rfl | hk'
        · exact not_lt.mp hlt
        · exact h3 k hk'

theorem linesNoise_rn (r : α) (pos : Vec3 α) (rn : rng_pcg32 α) :
    (linesNoise r pos rn).2 = ⟨rn.stream, rn.idx + (if r ≠ 0 then 3 else 0)⟩ := by
  by_cases h : r = 0
  · simp [linesNoise, h]
  · simp [linesNoise, h, next1f]

theorem linesNoise_zero (pos : Vec3 α) (rn : rng_pcg32 α) :
    linesNoise 0 pos rn = (pos, rn) := by
  simp [linesNoise]

end PosLemmas

/-! ## Claims on the position function -/

/-- C13. Clumping guide selection in `make_lines`: when the clump parameter `c`
is non-zero and the strand index `i` is above `128`, the guide `cc` chosen by
the scan is below `128`, no base `k < 128` is nearer to `base[i]` than
`base[cc]`, and `cc` is the smallest index at that distance; the position
returned is `scale * (pos*(1 - c*u^2) + cpos*(c*u^2))` with
`cpos = base[cc]*(1 + u*ln[cc])`, `pos` being the position after noise and
bend.  When `c` is zero or `i ≤ 128` the position returned is `scale * pos`.
This holds whatever the rounding `fl` inside the strand index is. -/
theorem lines_clump_guide {α : Type} [LinearOrderedField α] [FloorRing α] (m : Libm α)
    (t : Trig α) (fl : α → α) (num : Nat) (tb : StrandTables α) (r c s : α) (scale : Vec3 α)
    (rn : rng_pcg32 α) (u v : α) :
    (c ≠ 0 → strandIndex fl num v > 128 →
      ∃ cc, cc = (nearestScan m tb.base (strandIndex fl num v).toNat 128).2 ∧ cc < 128 ∧
        (∀ k, k < 128 →
          dist m (tb.base (strandIndex fl num v).toNat) (tb.base cc) ≤
            dist m (tb.base (strandIndex fl num v).toNat) (tb.base k)) ∧
        (∀ k, k < 128 →
          dist m (tb.base (strandIndex fl num v).toNat) (tb.base k) =
            dist m (tb.base (strandIndex fl num v).toNat) (tb.base cc) → cc ≤ k) ∧
        (linesPos m t fl num tb r c s scale rn u v).1 =
          scale.mul (((linesPosBent t fl num tb r s rn u v).1.scale (1 - c * u ^ 2)).add
            (((tb.base cc).scale (1 + u * tb.ln cc)).scale (c * u ^ 2)))) ∧
    (c = 0 ∨ strandIndex fl num v ≤ 128 →
      (linesPos m t fl num tb r c s scale rn u v).1 =
        scale.mul (linesPosBent t fl num tb r s rn u v).1) := by
  constructor
  · intro hc hi
    obtain ⟨_, h2, h3, h4⟩ :=
      nearestScan_spec m tb.base (strandIndex fl num v).toNat 128 (by decide)
    refine ⟨_, rfl, h2, h3, fun k _ hk => ?_, ?_⟩
    · by_contra hlt
      have := h4 k (not_le.mp hlt)
      rw [hk] at this
      exact lt_irrefl _ this
    · have hcond : c ≠ 0 ∧ strandIndex fl num v > ((128 : Nat) : Int) := ⟨hc, by simpa using hi⟩
      simp only [linesPos, linesClump, if_pos hcond]
      rw [show c * u ^ 2 = c * u * u by ring]
  · intro h
    have hcond : ¬ (c ≠ 0 ∧ strandIndex fl num v > ((128 : Nat) : Int)) := by
      rintro ⟨h1, h2⟩
      rcases h with h | h
      · exact h1 h
      · have : strandIndex fl num v > 128 := by simpa using h2
        omega
    simp only [linesPos, linesClump, if_neg hcond]

/-- Witness of C13 on the rationals: `200` strands in a row, strand `200`
(`v = 1`) with clump parameter `1`; the guide is strand `127`. -/
theorem lines_clump_guide_witness :
    (nearestScan libmQ rowTables.base 200 128).2 = 127 ∧
    ∃ cc, cc = (nearestScan libmQ rowTables.base (strandIndex roundQ 200 (1 : ℚ)).toNat 128).2 ∧
      cc < 128 ∧
      (∀ k, k < 128 →
        dist libmQ (rowTables.base (strandIndex roundQ 200 (1 : ℚ)).toNat) (rowTables.base cc) ≤
          dist libmQ (rowTables.base (strandIndex roundQ 200 (1 : ℚ)).toNat) (rowTables.base k)) ∧
      (∀ k, k < 128 →
        dist libmQ (rowTables.base (strandIndex roundQ 200 (1 : ℚ)).toNat) (rowTables.base k) =
          dist libmQ (rowTables.base (strandIndex roundQ 200 (1 : ℚ)).toNat) (rowTables.base cc) →
          cc ≤ k) ∧
      (linesPos libmQ trigQ roundQ 200 rowTables 0 1 0 ⟨1, 1, 1⟩ (replay []) (1 / 2) 1).1 =
        (⟨1, 1, 1⟩ : Vec3 ℚ).mul
          (((linesPosBent trigQ roundQ 200 rowTables 0 0 (replay []) (1 / 2) 1).1.scale
              (1 - 1 * (1 / 2 : ℚ) ^ 2)).add
            (((rowTables.base cc).scale (1 + 1 / 2 * rowTables.ln cc)).scale
              (1 * (1 / 2 : ℚ) ^ 2))) :=
  ⟨by decide!,
    (lines_clump_guide libmQ trigQ roundQ 200 rowTables 0 1 0 ⟨1, 1, 1⟩ (replay []) (1 / 2) 1).1
      (by norm_num) (by decide!)⟩

/-- C19. Random-stream consumption of the position function of `make_lines`:
one evaluation at `(u, v)` leaves the stream itself unchanged and advances its
position by exactly three draws when the noise radius `r` is non-zero; when
`r = 0` it leaves the generator as it was, and the position returned is the
same whatever generator is passed in, so it depends on `(u, v)`, the parameters
and the tables only.  This holds whatever the rounding `fl` inside the strand
index is. -/
theorem lines_pos_draws {α : Type} [LinearOrderedField α] [FloorRing α] (m : Libm α)
    (t : Trig α) (fl : α → α) (num : Nat) (tb : StrandTables α) (r c s : α) (scale : Vec3 α)
    (rn : rng_pcg32 α) (u v : α) :
    (linesPos m t fl num tb r c s scale rn u v).2.stream = rn.stream ∧
      (r ≠ 0 → (linesPos m t fl num tb r c s scale rn u v).2.idx = rn.idx + 3) ∧
      (r = 0 → (linesPos m t fl num tb r c s scale rn u v).2 = rn ∧
        ∀ rn2 : rng_pcg32 α,
          (linesPos m t fl num tb r c s scale rn2 u v).1 =
            (linesPos m t fl num tb r c s scale rn u v).1) := by
  refine ⟨?_, fun hr => ?_, fun hr => ⟨?_, fun rn2 => ?_⟩⟩
  · simp only [linesPos, linesPosBent, linesNoise_rn]
  · simp only [linesPos, linesPosBent, linesNoise_rn, if_pos hr]
  · subst hr
    simp only [linesPos, linesPosBent, linesNoise_zero]
  · subst hr
    simp only [linesPos, linesPosBent, linesNoise_zero]

/-- Witness of C19 on the rationals: with noise radius `1/10` the generator
moves from position `0` to position `3`. -/
theorem lines_pos_draws_witness :
    (linesPos libmQ trigQ roundQ 200 rowTables (1 / 10) 1 0 ⟨1, 1, 1⟩ (replay [1 / 4, 1 / 2, 3 / 4])
      (1 / 2) 1).2.idx = (replay [1 / 4, 1 / 2, 3 / 4]).idx + 3 :=
  (lines_pos_draws libmQ trigQ roundQ 200 rowTables (1 / 10) 1 0 ⟨1, 1, 1⟩
    (replay [1 / 4, 1 / 2, 3 / 4]) (1 / 2) 1).2.1 (by norm_num)

/-! ## Properties of the rejection loop -/

section RejectionLemmas

variable {α : Type} [LinearOrderedField α]

theorem dist_self_eq (m : Libm α) (hs : m.sqrt 0 = 0) (p : Vec3 α) : dist m p p = 0 := by
  simp [dist, length, dot, Vec3.sub, hs]

theorem placeLoop_first (m : Libm α) (attempt : Nat → PackState α → PackState α × Bool)
    (hA : AttemptSpec m attempt) (fuel : Nat) (st : PackState α) :
    placeLoop attempt 1 (fuel + 1) st = some (attempt 1 st).1 := by
  have hacc : (attempt 1 st).2 = true := by
    rw [(hA 1 st).1, accepted_iff]
    intro j h1 h2
    omega
  simp only [placeLoop, hacc, if_true]

theorem placeLoop_stuck (m : Libm α) (attempt : Nat → PackState α → PackState α × Bool)
    (hA : AttemptSpec m attempt) (hs : m.sqrt 0 = 0) (c : α) (P : Vec3 α) (R : α)
    (hR : 0 < R)
    (hcand : ∀ i st, (∀ k, st.rn.stream k = c) →
      (attempt i st).1.pos i = P ∧ (attempt i st).1.radius i = R ∧
        ∀ k, (attempt i st).1.rn.stream k = c)
    (fuel : Nat) (st : PackState α) (hst : ∀ k, st.rn.stream k = c) (hP : st.pos 1 = P)
    (hRad : st.radius 1 = R) : placeLoop attempt 2 fuel st = none := by
  induction fuel generalizing st with
  | zero => rfl
  | succ fuel ih =>
    obtain ⟨hp2, hr2, hs2⟩ := hcand 2 st hst
    have hrej : ¬ (attempt 2 st).2 = true := by
      rw [attempt_verdict_iff m attempt hA 2 st]
      intro h
      have h1 := h 1 le_rfl (by decide)
      rw [hp2, hr2, hP, hRad, dist_self_eq m hs] at h1
      linarith
    have hfr := (hA 2 st).2 1 (by decide)
    simp only [placeLoop, if_neg hrej]
    exact ih _ hs2 (hfr.1.trans hP) (hfr.2.trans hRad)

theorem placeFrom_stuck (m : Libm α) (attempt : Nat → PackState α → PackState α × Bool)
    (hA : AttemptSpec m attempt) (hs : m.sqrt 0 = 0) (c : α) (P : Vec3 α) (R : α)
    (hR : 0 < R)
    (hcand : ∀ i st, (∀ k, st.rn.stream k = c) →
      (attempt i st).1.pos i = P ∧ (attempt i st).1.radius i = R ∧
        ∀ k, (attempt i st).1.rn.stream k = c)
    (fuel n : Nat) (st : PackState α) (hst : ∀ k, st.rn.stream k = c) :
    placeFrom attempt fuel (n + 2) 1 st = none := by
  cases fuel with
  | zero => simp [placeFrom, placeLoop]
  | succ fuel =>
    obtain ⟨hp1, hr1, hs1⟩ := hcand 1 st hst
    simp only [placeFrom, placeLoop_first m attempt hA fuel st]
    rw [placeLoop_stuck m attempt hA hs c P R hR hcand (fuel + 1) _ hs1 hp1 hr1]

theorem shapesAttempt_const (m : Libm α) (l : Int) (c : α) (i : Nat) (st : PackState α)
    (hst : ∀ k, st.rn.stream k = c) :
    (shapesAttempt m l i st).1.pos i =
        ⟨-2 + 4 * c, 15 / 100 + ((1 - (1 - 3 * c)) / 3) * ((1 - (1 - 3 * c)) / 3) * (1 / 2),
          1 - 3 * c⟩ ∧
      (shapesAttempt m l i st).1.radius i =
        15 / 100 + ((1 - (1 - 3 * c)) / 3) * ((1 - (1 - 3 * c)) / 3) * (1 / 2) ∧
      ∀ k, (shapesAttempt m l i st).1.rn.stream k = c := by
  simp [shapesAttempt, next1f, hst]

theorem rigidAttempt_const (m : Libm α) (l : Int) (c : α) (i : Nat) (st : PackState α)
    (hst : ∀ k, st.rn.stream k = c) :
    (rigidAttempt m l i st).1.pos i = ⟨-2 + 4 * c, 1 + 4 * c, -2 + 4 * c⟩ ∧
      (rigidAttempt m l i st).1.radius i = 1 / 10 + 4 / 10 * c ∧
      ∀ k, (rigidAttempt m l i st).1.rn.stream k = c := by
  simp [rigidAttempt, next1f, hst]

end RejectionLemmas

/-! ## Claims on the rejection loop -/

/-- C18. Unbounded rejection loop: for every `nshapes ≥ 3` and every constant
stream with value `c` in `[0, 1)` (given `sqrt(0) = 0`), the placement loops of
`make_random_shapes` and of `make_random_rigid_shapes` accept the first
candidate for object `1` and then never accept a candidate for object `2`:
whatever number of passes is allowed, the `while` loop of object `2` has not
ended, and so neither has the placement. -/
theorem packers_unbounded_rejection {α : Type} [LinearOrderedField α] (m : Libm α)
    (nshapes : Nat) (l : Int) (c : α) (st0 : PackState α) (hs : m.sqrt 0 = 0)
    (hn : 3 ≤ nshapes) (hc0 : 0 ≤ c) (hc1 : c < 1) (hst : ∀ k, st0.rn.stream k = c) :
    (∀ k, 0 ≤ st0.rn.stream k ∧ st0.rn.stream k < 1) ∧
    (∀ fuel, make_random_shapes_place m fuel nshapes l st0 = none) ∧
    (∀ fuel, make_random_rigid_shapes_place m fuel nshapes l st0 = none) ∧
    (∀ fuel, ∃ st1, placeLoop (shapesAttempt m l) 1 (fuel + 1) st0 = some st1 ∧
      ∀ fuel2, placeLoop (shapesAttempt m l) 2 fuel2 st1 = none) ∧
    (∀ fuel, ∃ st1, placeLoop (rigidAttempt m l) 1 (fuel + 1) st0 = some st1 ∧
      ∀ fuel2, placeLoop (rigidAttempt m l) 2 fuel2 st1 = none) := by
  have hn2 : nshapes - 1 = (nshapes - 3) + 2 := by omega
  have hR1 : (0 : α) <
      15 / 100 + ((1 - (1 - 3 * c)) / 3) * ((1 - (1 - 3 * c)) / 3) * (1 / 2) := by
    nlinarith [mul_self_nonneg ((1 - (1 - 3 * c)) / 3)]
  have hR2 : (0 : α) < 1 / 10 + 4 / 10 * c := by linarith
  have hA1 := shapesAttempt_spec m l
  have hA2 := rigidAttempt_spec m l
  have hc1' := fun i st h => shapesAttempt_const m l c i st h
  have hc2' := fun i st h => rigidAttempt_const m l c i st h
  refine ⟨fun k => by rw [hst k]; exact ⟨hc0, hc1⟩, fun fuel => ?_, fun fuel => ?_,
    fun fuel => ?_, fun fuel => ?_⟩
  · rw [make_random_shapes_place, hn2]
    exact placeFrom_stuck m _ hA1 hs c _ _ hR1 hc1' fuel _ st0 hst
  · rw [make_random_rigid_shapes_place, hn2]
    exact placeFrom_stuck m _ hA2 hs c _ _ hR2 hc2' fuel _ st0 hst
  · obtain ⟨hp, hr, hs1⟩ := hc1' 1 st0 hst
    exact ⟨_, placeLoop_first m _ hA1 fuel st0, fun fuel2 =>
      placeLoop_stuck m _ hA1 hs c _ _ hR1 hc1' fuel2 _ hs1 hp hr⟩
  · obtain ⟨hp, hr, hs1⟩ := hc2' 1 st0 hst
    exact ⟨_, placeLoop_first m _ hA2 fuel st0, fun fuel2 =>
      placeLoop_stuck m _ hA2 hs c _ _ hR2 hc2' fuel2 _ hs1 hp hr⟩

/-- Witness of C18 on the rationals: three objects and the constant stream
`0` (the generator that replays no draws). -/
theorem packers_unbounded_rejection_witness :
    (∀ k, 0 ≤ (zeroState []).rn.stream k ∧ (zeroState []).rn.stream k < 1) ∧
    (∀ fuel, make_random_shapes_place libmQ fuel 3 5 (zeroState []) = none) ∧
    (∀ fuel, make_random_rigid_shapes_place libmQ fuel 3 5 (zeroState []) = none) ∧
    (∀ fuel, ∃ st1, placeLoop (shapesAttempt libmQ 5) 1 (fuel + 1) (zeroState []) = some st1 ∧
      ∀ fuel2, placeLoop (shapesAttempt libmQ 5) 2 fuel2 st1 = none) ∧
    (∀ fuel, ∃ st1, placeLoop (rigidAttempt libmQ 5) 1 (fuel + 1) (zeroState []) = some st1 ∧
      ∀ fuel2, placeLoop (rigidAttempt libmQ 5) 2 fuel2 st1 = none) :=
  packers_unbounded_rejection libmQ 3 5 0 (zeroState []) (by decide!) (by decide)
    (by norm_num) (by norm_num) (fun k => by simp [zeroState, replay])

/-! ## Properties of the shape-building loops -/

section BuildLemmas

variable {α : Type}

theorem placeLoop_slots (attempt : Nat → PackState α → PackState α × Bool)
    (R : PackState α → Prop) (Q : Nat → PackState α → Prop)
    (hR : ∀ i st, R st → R (attempt i st).1)
    (hQ1 : ∀ i st, R st → Q i (attempt i st).1)
    (hQ2 : ∀ i k st, k ≠ i → Q k st → Q k (attempt i st).1)
    (i fuel : Nat) (st st1 : PackState α) (h : placeLoop attempt i fuel st = some st1)
    (hst : R st) : R st1 ∧ Q i st1 ∧ ∀ k, k ≠ i → Q k st → Q k st1 := by
  induction fuel generalizing st with
  | zero => simp [placeLoop] at h
  | succ fuel ih =>
    simp only [placeLoop] at h
    by_cases hd : (attempt i st).2 = true
    · rw [if_pos hd] at h
      cases h
      exact ⟨hR i st hst, hQ1 i st hst, fun k hk hq => hQ2 i k st hk hq⟩
    · rw [if_neg hd] at h
      obtain ⟨h1, h2, h3⟩ := ih _ h (hR i st hst)
      exact ⟨h1, h2, fun k hk hq => h3 k hk (hQ2 i k st hk hq)⟩

theorem placeFrom_slots (attempt : Nat → PackState α → PackState α × Bool)
    (R : PackState α → Prop) (Q : Nat → PackState α → Prop)
    (hR : ∀ i st, R st → R (attempt i st).1)
    (hQ1 : ∀ i st, R st → Q i (attempt i st).1)
    (hQ2 : ∀ i k st, k ≠ i → Q k st → Q k (attempt i st).1)
    (fuel n i : Nat) (st st1 : PackState α) (h : placeFrom attempt fuel n i st = some st1)
    (hst : R st) (hq : ∀ k, 1 ≤ k → k < i → Q k st) :
    R st1 ∧ ∀ k, 1 ≤ k → k < i + n → Q k st1 := by
  induction n generalizing i st with
  | zero =>
    simp only [placeFrom, Option.some.injEq] at h
    subst h
    exact ⟨hst, by simpa using hq⟩
  | succ n ih =>
    simp only [placeFrom] at h
    cases hp : placeLoop attempt i fuel st with
    | none => simp [hp] at h
    | some st2 =>
      rw [hp] at h
      obtain ⟨h1, h2, h3⟩ := placeLoop_slots attempt R Q hR hQ1 hQ2 i fuel st st2 hp hst
      have h4 : ∀ k, 1 ≤ k → k < i + 1 → Q k st2 := by
        intro k hk1 hk2
        rcases Nat.eq_or_lt_of_le (Nat.lt_succ_iff.mp hk2) with rfl | hlt
        · exact h2
        · exact h3 k (by omega) (hq k hk1 hlt)
      have := ih (i + 1) st2 h h1 h4
      rwa [show i + (n + 1) = i + 1 + n by omega]

theorem index?_mem {β : Type} (xs : List β) (k : Int) (x : β) (h : index? xs k = some x) :
    x ∈ xs := by
  unfold index? at h
  split at h
  · exact List.getElem?_mem h
  · simp at h

variable [LinearOrderedField α]

theorem shapes_place_levels (m : Libm α) (fuel nshapes : Nat) (l : Int)
    (st0 st : PackState α) (hlo : 1 ≤ nshapes)
    (h : make_random_shapes_place m fuel nshapes l st0 = some st) :
    ∀ k, 1 ≤ k → k < nshapes → st.levels k = levelOf m l (st.radius k) := by
  have := (placeFrom_slots (shapesAttempt m l) (fun _ => True)
    (fun k st => st.levels k = levelOf m l (st.radius k))
    (fun _ _ _ => trivial)
    (fun i st _ => by simp [shapesAttempt])
    (fun i k st hk hq => by simpa [shapesAttempt, Function.update_noteq hk] using hq)
    fuel (nshapes - 1) 1 st0 st h trivial (fun k h1 h2 => absurd h2 (by omega))).2
  intro k h1 h2
  exact this k h1 (by omega)

theorem rigid_place_levels (m : Libm α) (fuel nshapes : Nat) (l : Int)
    (st0 st : PackState α) (hlo : 1 ≤ nshapes)
    (h : make_random_rigid_shapes_place m fuel nshapes l st0 = some st) :
    ∀ k, 1 ≤ k → k < nshapes → st.levels k = levelOf m l (st.radius k) := by
  have := (placeFrom_slots (rigidAttempt m l) (fun _ => True)
    (fun k st => st.levels k = levelOf m l (st.radius k))
    (fun _ _ _ => trivial)
    (fun i st _ => by simp [rigidAttempt])
    (fun i k st hk hq => by simpa [rigidAttempt, Function.update_noteq hk] using hq)
    fuel (nshapes - 1) 1 st0 st h trivial (fun k h1 h2 => absurd h2 (by omega))).2
  intro k h1 h2
  exact this k h1 (by omega)

theorem shapes_place_domain (m : Libm α) (fuel nshapes : Nat) (l : Int)
    (st0 st : PackState α) (hlo : 1 ≤ nshapes)
    (h : make_random_shapes_place m fuel nshapes l st0 = some st) :
    ∀ k, 1 ≤ k → k < nshapes → ∃ a b : Nat,
      st.pos k = ⟨-2 + 4 * st0.rn.stream a, st.radius k, 1 - 3 * st0.rn.stream b⟩ ∧
      st.radius k = 15 / 100 + ((1 - (1 - 3 * st0.rn.stream b)) / 3) *
        ((1 - (1 - 3 * st0.rn.stream b)) / 3) * (1 / 2) := by
  have := (placeFrom_slots (shapesAttempt m l) (fun st => st.rn.stream = st0.rn.stream)
    (fun k st => ∃ a b : Nat,
      st.pos k = ⟨-2 + 4 * st0.rn.stream a, st.radius k, 1 - 3 * st0.rn.stream b⟩ ∧
      st.radius k = 15 / 100 + ((1 - (1 - 3 * st0.rn.stream b)) / 3) *
        ((1 - (1 - 3 * st0.rn.stream b)) / 3) * (1 / 2))
    (fun i st hr => by simpa [shapesAttempt, next1f] using hr)
    (fun i st hr => ⟨st.rn.idx, st.rn.idx + 1, by simp [shapesAttempt, next1f, hr]⟩)
    (fun i k st hk hq => by simpa [shapesAttempt, Function.update_noteq hk] using hq)
    fuel (nshapes - 1) 1 st0 st h rfl (fun k h1 h2 => absurd h2 (by omega))).2
  intro k h1 h2
  exact this k h1 (by omega)

variable [FloorRing α]

theorem shapesBuild_spec (pos : Nat → Vec3 α) (radius : Nat → α) (n i : Nat)
    (b b1 : BuildState α) (h : shapesBuild pos radius n i b = some b1) :
    b1.shapes.length = b.shapes.length ∧
      (∀ k, k < i → b1.shapes[k]? = b.shapes[k]?) ∧
      (∀ k, i ≤ k → k < i + n → k < b.shapes.length →
        ∃ stype, stype ∈ [stdsurface_type.uvspherecube, stdsurface_type.uvspherizedcube,
            stdsurface_type.uvflipcapsphere] ∧
          b1.shapes[k]? = some (some (shape.surface 0
            (b.levels k + (if stype = stdsurface_type.uvflipcapsphere then 1 else 0)) stype
            (pos k) ⟨0, 0, 0⟩ ⟨radius k, radius k, radius k⟩))) := by
  induction n generalizing i b with
  | zero =>
    simp only [shapesBuild, Option.some.injEq] at h
    subst h
    exact ⟨rfl, fun _ _ => rfl, fun k h1 h2 _ => absurd h2 (by omega)⟩
  | succ n ih =>
    simp only [shapesBuild] at h
    split at h
    · simp at h
    · rename_i stype hidx
      obtain ⟨h1, h2, h3⟩ := ih _ _ h
      simp only [List.length_set] at h1 h3
      refine ⟨h1, fun k hk => ?_, fun k hk1 hk2 hk3 => ?_⟩
      · rw [h2 k (by omega), List.getElem?_set_ne (by omega)]
      · rcases Nat.eq_or_lt_of_le hk1 with rfl | hlt
        · refine ⟨stype, index?_mem _ _ _ hidx, ?_⟩
          rw [h2 i (by omega), List.getElem?_set_self hk3]
          by_cases hf : stype = stdsurface_type.uvflipcapsphere
          · simp [hf]
          · simp [hf]
        · obtain ⟨st2, hm, hs⟩ := h3 k (by omega) (by omega) hk3
          refine ⟨st2, hm, ?_⟩
          rw [hs]
          have hne : k ≠ i := by omega
          by_cases hf : stype = stdsurface_type.uvflipcapsphere
          · simp [hf, Function.update_noteq hne]
          · simp [hf]

theorem rigidBuild_spec (pos : Nat → Vec3 α) (radius : Nat → α) (n i : Nat)
    (b b1 : BuildState α) (h : rigidBuild pos radius n i b = some b1) :
    b1.shapes.length = b.shapes.length ∧
      (∀ k, k < i → b1.shapes[k]? = b.shapes[k]?) ∧
      (∀ k, i ≤ k → k < i + n → k < b.shapes.length →
        ∃ stype, stype ∈ [stdsurface_type.uvspherecube, stdsurface_type.uvcube] ∧
          b1.shapes[k]? = some (some (shape.surface k (b.levels k) stype
            (pos k) ⟨0, 0, 0⟩ ⟨radius k, radius k, radius k⟩))) := by
  induction n generalizing i b with
  | zero =>
    simp only [rigidBuild, Option.some.injEq] at h
    subst h
    exact ⟨rfl, fun _ _ => rfl, fun k h1 h2 _ => absurd h2 (by omega)⟩
  | succ n ih =>
    simp only [rigidBuild] at h
    split at h
    · simp at h
    · rename_i stype hidx
      obtain ⟨h1, h2, h3⟩ := ih _ _ h
      simp only [List.length_set] at h1 h3
      refine ⟨h1, fun k hk => ?_, fun k hk1 hk2 hk3 => ?_⟩
      · rw [h2 k (by omega), List.getElem?_set_ne (by omega)]
      · rcases Nat.eq_or_lt_of_le hk1 with rfl | hlt
        · refine ⟨stype, index?_mem _ _ _ hidx, ?_⟩
          rw [h2 i (by omega), List.getElem?_set_self hk3]
        · exact h3 k (by omega) (by omega) hk3

theorem replay_unit (draws : List ℚ) (h : ∀ x ∈ draws, 0 ≤ x ∧ x < 1) (k : Nat) :
    0 ≤ (replay draws).stream k ∧ (replay draws).stream k < 1 := by
  simp only [replay, List.getD_eq_getElem?_getD]
  cases hk : draws[k]? with
  | none => simp
  | some x => simpa using h x (List.getElem?_mem hk)

end BuildLemmas

/-! ## Claims on the shapes of the packers -/

theorem real_level_three :
    round (Real.logb 2 ((2 : ℝ) ^ (((5 : Int) : ℝ)) * (3 / 20) / (1 / 2))) = 3 := by
  have h1 : (2 : ℝ) ^ (((5 : Int) : ℝ)) * (3 / 20) / (1 / 2) = 48 / 5 := by
    have : (2 : ℝ) ^ (((5 : Int) : ℝ)) = 32 := by
      rw [show (((5 : Int) : ℝ)) = ((5 : Nat) : ℝ) by norm_num, Real.rpow_natCast]
      norm_num
    rw [this]
    norm_num
  rw [h1, round_eq, Int.floor_eq_iff]
  have hsq : ∀ x : ℝ, (2 : ℝ) ^ x * (2 : ℝ) ^ x = (2 : ℝ) ^ (2 * x) := by
    intro x
    rw [← Real.rpow_add (by norm_num : (0 : ℝ) < 2)]
    congr 1
    ring
  constructor
  · have h : (5 / 2 : ℝ) ≤ Real.logb 2 (48 / 5) := by
      rw [Real.le_logb_iff_rpow_le (by norm_num) (by norm_num)]
      have h5 : (2 : ℝ) ^ (2 * (5 / 2 : ℝ)) = 32 := by
        rw [show (2 * (5 / 2 : ℝ)) = ((5 : Nat) : ℝ) by norm_num, Real.rpow_natCast]
        norm_num
      have hpos : (0 : ℝ) < (2 : ℝ) ^ (5 / 2 : ℝ) := Real.rpow_pos_of_pos (by norm_num) _
      have := hsq (5 / 2)
      rw [h5] at this
      nlinarith
    push_cast
    linarith
  · have h : Real.logb 2 (48 / 5) < (7 / 2 : ℝ) := by
      rw [Real.logb_lt_iff_lt_rpow (by norm_num) (by norm_num)]
      have h7 : (2 : ℝ) ^ (2 * (7 / 2 : ℝ)) = 128 := by
        rw [show (2 * (7 / 2 : ℝ)) = ((7 : Nat) : ℝ) by norm_num, Real.rpow_natCast]
        norm_num
      have hpos : (0 : ℝ) < (2 : ℝ) ^ (7 / 2 : ℝ) := Real.rpow_pos_of_pos (by norm_num) _
      have := hsq (7 / 2)
      rw [h7] at this
      nlinarith
    push_cast
    linarith


theorem shapes_place_first (m : Libm ℝ) (st0 : PackState ℝ)
    (h0 : st0.rn.stream st0.rn.idx = 0) (h1 : st0.rn.stream (st0.rn.idx + 1) = 0) :
    ∃ st, make_random_shapes_place m 1 2 5 st0 = some st ∧ st.rn.stream = st0.rn.stream ∧
      st.rn.idx = st0.rn.idx + 2 ∧ st.pos 1 = ⟨-2, 3 / 20, 1⟩ ∧ st.radius 1 = 3 / 20 ∧
      st.levels 1 = levelOf m 5 (3 / 20) := by
  have hr : (15 / 100 + (1 - (1 - 3 * (0 : ℝ))) / 3 * ((1 - (1 - 3 * (0 : ℝ))) / 3) * (1 / 2))
      = 3 / 20 := by norm_num
  refine ⟨(shapesAttempt m 5 1 st0).1, ?_, ?_, ?_, ?_, ?_, ?_⟩
  · simp [make_random_shapes_place, placeFrom, placeLoop, shapesAttempt, accepted,
      collisionLoop]
  · simp [shapesAttempt, next1f]
  · simp [shapesAttempt, next1f]
  · simp only [shapesAttempt, next1f, h0, h1, Function.update_same, hr]
    norm_num
  · simp only [shapesAttempt, next1f, h0, h1, Function.update_same, hr]
  · simp only [shapesAttempt, next1f, h0, h1, Function.update_same, hr]

/-- Counterexample to C14 as stated, over the reals with the real `pow`,
`log2` and `round`: in `make_random_shapes(2, 5)` with the draws `0, 0` for the
placement and `3/4` for the kind, object `1` has the accepted radius `3/20`,
for which `round(log2(2^5 * radius / 0.5)) = round(log2(9.6))` is `3`, and its
kind is `uvflipcapsphere`; the level handed to `make_shape` is `4`. -/
theorem random_shapes_level_not_round :
    ∃ (m : Libm ℝ) (st0 : PackState ℝ),
      (∀ x y : ℝ, m.pow x y = x ^ y) ∧ (∀ x : ℝ, m.log2 x = Real.logb 2 x) ∧
      (∀ x : ℝ, m.round x = round x) ∧
      (∀ k, 0 ≤ st0.rn.stream k ∧ st0.rn.stream k < 1) ∧
      levelOf m 5 (3 / 20) = 3 ∧
      make_random_shapes m 1 2 5 st0 =
        some [some (shape.floor 0 6 4 6 ⟨0, 0, -4⟩ ⟨0, 0, 0⟩ ⟨6, 6, 6⟩),
          some (shape.surface 0 4 stdsurface_type.uvflipcapsphere ⟨-2, 3 / 20, 1⟩ ⟨0, 0, 0⟩
            ⟨3 / 20, 3 / 20, 3 / 20⟩)] := by
  have hlev : levelOf (⟨Real.sqrt, fun x y => x ^ y, Real.logb 2, round⟩ : Libm ℝ) 5 (3 / 20)
      = 3 := real_level_three
  obtain ⟨st, hst, hs1, hs2, hpos, hrad, hlv⟩ := shapes_place_first
    (⟨Real.sqrt, fun x y => x ^ y, Real.logb 2, round⟩ : Libm ℝ)
    ⟨fun _ => ⟨0, 0, 0⟩, fun _ => 0, fun _ => 0, ⟨fun k => if k = 2 then 3 / 4 else 0, 0⟩⟩
    (by simp) (by simp)
  refine ⟨⟨Real.sqrt, fun x y => x ^ y, Real.logb 2, round⟩,
    ⟨fun _ => ⟨0, 0, 0⟩, fun _ => 0, fun _ => 0, ⟨fun k => if k = 2 then 3 / 4 else 0, 0⟩⟩,
    fun _ _ => rfl, fun _ => rfl, fun _ => rfl, ?_, hlev, ?_⟩
  · intro k
    show 0 ≤ (if k = 2 then (3 / 4 : ℝ) else 0) ∧ (if k = 2 then (3 / 4 : ℝ) else 0) < 1
    split_ifs <;> norm_num
  · have hdraw : st.rn.stream st.rn.idx = 3 / 4 := by
      rw [hs1, hs2]
      simp
    have hidx : truncInt ((3 / 4 : ℝ) * 3) = 2 := by
      have h9 : (0 : ℝ) ≤ 3 / 4 * 3 := by norm_num
      rw [truncInt, if_pos h9, Int.floor_eq_iff]
      constructor <;> norm_num
    rw [hlev] at hlv
    simp only [make_random_shapes, hst, shapesBuild, next1f, hdraw, hidx, index?]
    simp [hpos, hrad, hlv]

/-- C14, amended. Discretization level: when `make_random_rigid_shapes`
returns, the level handed to `make_shape` for every object `i ≥ 1` is
`round(log2(2^l * radius[i] / 0.5))` of the finally accepted `radius[i]`; when
`make_random_shapes` returns, it is that value for the kinds `uvspherecube` and
`uvspherizedcube` and that value plus one for the kind `uvflipcapsphere`. -/
theorem packers_level {α : Type} [LinearOrderedField α] [FloorRing α] (m : Libm α)
    (fuel nshapes : Nat) (l : Int) (st0 : PackState α) (hlo : 1 ≤ nshapes)
    (hhi : nshapes ≤ 1024) :
    (∀ shapes, make_random_shapes m fuel nshapes l st0 = some shapes →
      ∃ st, make_random_shapes_place m fuel nshapes l st0 = some st ∧
        ∀ i, 1 ≤ i → i < nshapes →
          ∃ stype, stype ∈ [stdsurface_type.uvspherecube, stdsurface_type.uvspherizedcube,
              stdsurface_type.uvflipcapsphere] ∧
            shapes[i]? = some (some (shape.surface 0
              (levelOf m l (st.radius i) +
                (if stype = stdsurface_type.uvflipcapsphere then 1 else 0)) stype
              (st.pos i) ⟨0, 0, 0⟩ ⟨st.radius i, st.radius i, st.radius i⟩))) ∧
    (∀ shapes, make_random_rigid_shapes m fuel nshapes l st0 = some shapes →
      ∃ st, make_random_rigid_shapes_place m fuel nshapes l st0 = some st ∧
        ∀ i, 1 ≤ i → i < nshapes →
          ∃ stype, stype ∈ [stdsurface_type.uvspherecube, stdsurface_type.uvcube] ∧
            shapes[i]? = some (some (shape.surface i (levelOf m l (st.radius i)) stype
              (st.pos i) ⟨0, 0, 0⟩ ⟨st.radius i, st.radius i, st.radius i⟩))) := by
  constructor
  · intro shapes h
    simp only [make_random_shapes] at h
    cases hp : make_random_shapes_place m fuel nshapes l st0 with
    | none => simp [hp] at h
    | some st =>
      rw [hp] at h
      simp only at h
      split at h
      · simp at h
      · rename_i b hb
        simp only [Option.some.injEq] at h
        subst h
        refine ⟨st, rfl, fun i h1 h2 => ?_⟩
        have hlv := shapes_place_levels m fuel nshapes l st0 st hlo hp i h1 h2
        obtain ⟨stype, hm, hs⟩ := (shapesBuild_spec st.pos st.radius _ 1 _ b hb).2.2 i h1
          (by omega) (by simpa using h2)
        exact ⟨stype, hm, by rw [hs, ← hlv]⟩
  · intro shapes h
    simp only [make_random_rigid_shapes] at h
    cases hp : make_random_rigid_shapes_place m fuel nshapes l st0 with
    | none => simp [hp] at h
    | some st =>
      rw [hp] at h
      simp only at h
      split at h
      · simp at h
      · rename_i b hb
        simp only [Option.some.injEq] at h
        subst h
        refine ⟨st, rfl, fun i h1 h2 => ?_⟩
        have hlv := rigid_place_levels m fuel nshapes l st0 st hlo hp i h1 h2
        obtain ⟨stype, hm, hs⟩ := (rigidBuild_spec st.pos st.radius _ 1 _ b hb).2.2 i h1
          (by omega) (by simpa using h2)
        exact ⟨stype, hm, by rw [hs, ← hlv]⟩

/-- Witness of C14 (amended) on the rationals: two objects in each packer, with
the radii `3/20` and `3/10`, at which the test library rounds as the real
functions do. -/
theorem packers_level_witness :
    levelOf libmQ 5 (3 / 20) = 3 ∧ levelOf libmQ 5 (3 / 10) = 4 ∧
    ∃ (shapes rigid : List (Option (shape ℚ))) (st rt : PackState ℚ),
      make_random_shapes libmQ 1 2 5 (zeroState [0, 0, 3 / 4]) = some shapes ∧
      make_random_rigid_shapes libmQ 1 2 5 (zeroState [1 / 2, 1 / 2, 0, 1 / 2, 3 / 4]) =
        some rigid ∧
      make_random_shapes_place libmQ 1 2 5 (zeroState [0, 0, 3 / 4]) = some st ∧
      make_random_rigid_shapes_place libmQ 1 2 5 (zeroState [1 / 2, 1 / 2, 0, 1 / 2, 3 / 4]) =
        some rt ∧
      (∃ stype, stype ∈ [stdsurface_type.uvspherecube, stdsurface_type.uvspherizedcube,
          stdsurface_type.uvflipcapsphere] ∧
        shapes[1]? = some (some (shape.surface 0
          (levelOf libmQ 5 (st.radius 1) +
            (if stype = stdsurface_type.uvflipcapsphere then 1 else 0)) stype
          (st.pos 1) ⟨0, 0, 0⟩ ⟨st.radius 1, st.radius 1, st.radius 1⟩))) ∧
      (∃ stype, stype ∈ [stdsurface_type.uvspherecube, stdsurface_type.uvcube] ∧
        rigid[1]? = some (some (shape.surface 1 (levelOf libmQ 5 (rt.radius 1)) stype
          (rt.pos 1) ⟨0, 0, 0⟩ ⟨rt.radius 1, rt.radius 1, rt.radius 1⟩))) := by
  obtain ⟨shapes, hs⟩ := Option.isSome_iff_exists.mp
    (show (make_random_shapes libmQ 1 2 5 (zeroState [0, 0, 3 / 4])).isSome = true
      by decide!)
  obtain ⟨rigid, hr⟩ := Option.isSome_iff_exists.mp
    (show (make_random_rigid_shapes libmQ 1 2 5
      (zeroState [1 / 2, 1 / 2, 0, 1 / 2, 3 / 4])).isSome = true by decide!)
  have h1 := packers_level libmQ 1 2 5 (zeroState [0, 0, 3 / 4]) (by decide)
    (by decide)
  have h2 := packers_level libmQ 1 2 5 (zeroState [1 / 2, 1 / 2, 0, 1 / 2, 3 / 4]) (by decide)
    (by decide)
  obtain ⟨st, hst, hs1⟩ := h1.1 shapes hs
  obtain ⟨rt, hrt, hr1⟩ := h2.2 rigid hr
  exact ⟨by decide!, by decide!, shapes, rigid, st, rt, hs, hr, hst, hrt,
    hs1 1 (by decide) (by decide), hr1 1 (by decide) (by decide)⟩

/-- C15. Packer output shape and domain: when `make_random_shapes(nshapes, l)`
returns, for `1 ≤ nshapes ≤ 1024` and draws in `[0, 1)`, the vector has exactly
`nshapes` entries, entry `0` is the floor, and entry `i ≥ 1` is the object
placed at `(x, radius[i], z)` with scale `radius[i]`, where `-2 ≤ x < 2`,
`-2 < z ≤ 1`, `radius[i] = 0.15 + 0.5*((1 - z)/3)^2` and so
`0.15 ≤ radius[i] < 0.65`; the height of the centre is the radius. -/
theorem random_shapes_output {α : Type} [LinearOrderedField α] [FloorRing α] (m : Libm α)
    (fuel nshapes : Nat) (l : Int) (st0 : PackState α) (shapes : List (Option (shape α)))
    (hlo : 1 ≤ nshapes) (hhi : nshapes ≤ 1024)
    (hdraw : ∀ k, 0 ≤ st0.rn.stream k ∧ st0.rn.stream k < 1)
    (h : make_random_shapes m fuel nshapes l st0 = some shapes) :
    shapes.length = nshapes ∧
      shapes[0]? =
        some (some (shape.floor 0 6 4 6 ⟨0, 0, -4⟩ ⟨0, 0, 0⟩ ⟨6, 6, 6⟩ : shape α)) ∧
      ∀ i, 1 ≤ i → i < nshapes →
        ∃ (lv : Int) (stype : stdsurface_type) (x rad z : α),
          shapes[i]? = some (some (shape.surface 0 lv stype ⟨x, rad, z⟩ ⟨0, 0, 0⟩
            ⟨rad, rad, rad⟩)) ∧
          -2 ≤ x ∧ x < 2 ∧ -2 < z ∧ z ≤ 1 ∧
          rad = 15 / 100 + 1 / 2 * ((1 - z) / 3) ^ 2 ∧ 15 / 100 ≤ rad ∧ rad < 65 / 100 := by
  simp only [make_random_shapes] at h
  cases hp : make_random_shapes_place m fuel nshapes l st0 with
  | none => simp [hp] at h
  | some st =>
    rw [hp] at h
    simp only at h
    split at h
    · simp at h
    · rename_i b hb
      simp only [Option.some.injEq] at h
      subst h
      obtain ⟨hlen, hlow, hobj⟩ := shapesBuild_spec st.pos st.radius _ 1 _ b hb
      simp only [List.length_set, List.length_replicate] at hlen hobj
      refine ⟨hlen, ?_, fun i h1 h2 => ?_⟩
      · rw [hlow 0 (by decide), List.getElem?_set_self (by simpa using hlo)]
      · obtain ⟨stype, _, hs⟩ := hobj i h1 (by omega) h2
        obtain ⟨a, c, hpos, hrad⟩ := shapes_place_domain m fuel nshapes l st0 st hlo hp i h1 h2
        obtain ⟨ha0, ha1⟩ := hdraw a
        obtain ⟨hc0, hc1⟩ := hdraw c
        refine ⟨_, stype, -2 + 4 * st0.rn.stream a, st.radius i, 1 - 3 * st0.rn.stream c,
          by rw [hs, hpos], by linarith, by linarith, by linarith, by linarith, ?_, ?_, ?_⟩
        · rw [hrad]; ring
        · rw [hrad]
          nlinarith [mul_self_nonneg ((1 - (1 - 3 * st0.rn.stream c)) / 3)]
        · rw [hrad]
          have e : (1 - (1 - 3 * st0.rn.stream c)) / 3 = st0.rn.stream c := by ring
          rw [e]
          nlinarith

/-- Witness of C15 on the rationals: `nshapes = 5` yields five records. -/
theorem random_shapes_output_witness :
    ∃ shapes : List (Option (shape ℚ)),
      make_random_shapes libmQ 1 5 5
        (zeroState [0, 0, 1 / 4, 0, 1 / 2, 0, 3 / 4, 0, 0, 1 / 3, 2 / 3, 1 / 2]) = some shapes ∧
      shapes.length = 5 ∧
      shapes[0]? =
        some (some (shape.floor 0 6 4 6 ⟨0, 0, -4⟩ ⟨0, 0, 0⟩ ⟨6, 6, 6⟩ : shape ℚ)) ∧
      ∀ i, 1 ≤ i → i < 5 →
        ∃ (lv : Int) (stype : stdsurface_type) (x rad z : ℚ),
          shapes[i]? = some (some (shape.surface 0 lv stype ⟨x, rad, z⟩ ⟨0, 0, 0⟩
            ⟨rad, rad, rad⟩)) ∧
          -2 ≤ x ∧ x < 2 ∧ -2 < z ∧ z ≤ 1 ∧
          rad = 15 / 100 + 1 / 2 * ((1 - z) / 3) ^ 2 ∧ 15 / 100 ≤ rad ∧ rad < 65 / 100 := by
  obtain ⟨shapes, hs⟩ := Option.isSome_iff_exists.mp
    (show (make_random_shapes libmQ 1 5 5
      (zeroState [0, 0, 1 / 4, 0, 1 / 2, 0, 3 / 4, 0, 0, 1 / 3, 2 / 3, 1 / 2])).isSome = true
      by decide!)
  exact ⟨shapes, hs, random_shapes_output libmQ 1 5 5 _ shapes (by decide) (by decide)
    (replay_unit _ (by decide!)) hs⟩

/-! ## Properties of the colored textures -/

theorem ubyte_lt (n : Int) : ubyte n < 256 := by
  unfold ubyte
  omega

theorem shr8_eq (X : Int) (h : 0 ≤ X) : X >>> (8 : Int) = X / 256 := by
  lift X to ℕ using h
  rw [show (8 : ℤ) = ((8 : ℕ) : ℤ) by rfl, Int.shiftRight_coe_nat, Nat.shiftRight_eq_div_pow]
  norm_num

theorem shr_le (v : Nat) (a : Int) (ha0 : 0 ≤ a) (ha : a ≤ 255) :
    ubyte (((v : Int) * a) >>> 8) ≤ v := by
  have h0 : (0 : Int) ≤ (v : Int) * a := mul_nonneg (Int.natCast_nonneg v) ha0
  have h1 : (v : Int) * a ≤ (v : Int) * 255 :=
    mul_le_mul_of_nonneg_left ha (Int.natCast_nonneg v)
  rw [shr8_eq _ h0]
  generalize (v : Int) * a = X at h0 h1
  unfold ubyte
  omega

theorem shr_inner (s : Nat) (hs : s < 256) (b : Int) (hb0 : 0 ≤ b) (hb : b ≤ 255) :
    0 ≤ 255 - (((s : Int) * b) >>> 8) ∧ 255 - (((s : Int) * b) >>> 8) ≤ 255 := by
  have h0 : (0 : Int) ≤ (s : Int) * b := mul_nonneg (Int.natCast_nonneg s) hb0
  have h1 : (s : Int) * b ≤ 255 * 255 := by
    have : (s : Int) ≤ 255 := by omega
    exact mul_le_mul this hb hb0 (by norm_num)
  rw [shr8_eq _ h0]
  generalize (s : Int) * b = X at h0 h1
  omega

theorem hsv_to_rgb_max (h s v : Nat) (hs : s < 256) :
    max (hsv_to_rgb h s v).r (max (hsv_to_rgb h s v).g (hsv_to_rgb h s v).b) = v ∧
      (hsv_to_rgb h s v).a = 255 := by
  by_cases hs0 : s = 0
  · simp [hsv_to_rgb, hs0]
  · simp only [hsv_to_rgb, beq_iff_eq, hs0, if_false]
    have hrem := ubyte_lt (((h : Int) - ((ubyte (h / 43) * 43 : Nat) : Int)) * 6)
    generalize ubyte (((h : Int) - ((ubyte (h / 43) * 43 : Nat) : Int)) * 6) = rem at hrem ⊢
    have hp : ubyte (((v : Int) * (255 - s)) >>> 8) ≤ v :=
      shr_le v (255 - s) (by omega) (by omega)
    have hq : ubyte (((v : Int) * (255 - (((s * rem : Nat) : Int) >>> 8))) >>> 8) ≤ v := by
      have := shr_inner s hs rem (by omega) (by omega)
      apply shr_le
      · push_cast
        exact this.1
      · push_cast
        exact this.2
    have ht : ubyte (((v : Int) * (255 - ((((s : Int) * (255 - rem)) >>> 8)))) >>> 8) ≤ v := by
      have := shr_inner s hs (255 - rem) (by omega) (by omega)
      apply shr_le
      · push_cast
        exact this.1
      · push_cast
        exact this.2
    generalize ubyte (((v : Int) * (255 - s)) >>> 8) = p at hp ⊢
    generalize ubyte (((v : Int) * (255 - (((s * rem : Nat) : Int) >>> 8))) >>> 8) = q at hq ⊢
    generalize ubyte (((v : Int) * (255 - ((((s : Int) * (255 - rem)) >>> 8)))) >>> 8) = t
      at ht ⊢
    split <;> simp only <;> refine ⟨?_, trivial⟩ <;> omega

theorem foldlM_eq_some {β γ : Type} (F : β → γ → Option β) (H : β → γ → β) (l : List γ)
    (init : β) (h : ∀ x ∈ l, ∀ a, F a x = some (H a x)) :
    l.foldlM F init = some (l.foldl H init) := by
  induction l generalizing init with
  | nil => rfl
  | cons x xs ih =>
    rw [List.foldlM_cons, h x (List.mem_cons_self x xs)]
    exact ih _ (fun y hy a => h y (List.mem_cons_of_mem x hy) a)

theorem fillRectM_total {β : Type} (w h : Nat) (zero : β) (f : Nat → Nat → Option β)
    (hwh : w * h ≤ INT_MAX) (hf : ∀ i j, i < w → j < h → (f i j).isSome = true) :
    fillRectM w h zero f = some (rectLoops w h zero (fun i j => (f i j).getD zero)) := by
  simp only [fillRectM, mulInt?, if_pos hwh, rectLoops]
  apply foldlM_eq_some
  intro j hj px
  unfold fillRowM fillRow
  apply foldlM_eq_some
  intro i hi a
  obtain ⟨p, hp⟩ := Option.isSome_iff_exists.mp
    (hf i j (List.mem_range.mp hi) (List.mem_range.mp hj))
  simp [hp]

theorem fillRectM_none {β : Type} (w h : Nat) (zero : β) (f : Nat → Nat → Option β)
    (hw : 0 < w) (hh : 0 < h) (hf : f 0 0 = none) : fillRectM w h zero f = none := by
  obtain ⟨n, rfl⟩ : ∃ n, w = n + 1 := ⟨w - 1, by omega⟩
  obtain ⟨k, rfl⟩ : ∃ k, h = k + 1 := ⟨h - 1, by omega⟩
  have hrow : ∀ px, fillRowM (n + 1) f px 0 = none := by
    intro px
    rw [fillRowM, List.range_succ_eq_map, List.foldlM_cons, hf]
    rfl
  unfold fillRectM
  split
  · rfl
  · rw [List.range_succ_eq_map, List.foldlM_cons, hrow]
    rfl

theorem fillRectM_overflow {β : Type} (w h : Nat) (zero : β) (f : Nat → Nat → Option β)
    (hwh : ¬ w * h ≤ INT_MAX) : fillRectM w h zero f = none := by
  simp only [fillRectM, mulInt?, if_neg hwh]

theorem fillPixelsM_total {β : Type} (s : Nat) (zero : β) (f : Nat → Nat → Option β)
    (hs : s * s ≤ INT_MAX) (hf : ∀ i j, i < s → j < s → (f i j).isSome = true) :
    fillPixelsM s zero f = some (pixelLoops s zero (fun i j => (f i j).getD zero)) :=
  fillRectM_total s s zero f hs hf

theorem fillPixelsM_none {β : Type} (s : Nat) (zero : β) (f : Nat → Nat → Option β)
    (hs : 0 < s) (hf : f 0 0 = none) : fillPixelsM s zero f = none :=
  fillRectM_none s s zero f hs hs hf

theorem fillPixelsM_overflow {β : Type} (s : Nat) (zero : β) (f : Nat → Nat → Option β)
    (hs : ¬ s * s ≤ INT_MAX) : fillPixelsM s zero f = none :=
  fillRectM_overflow s s zero f hs

theorem fillPixelsM_inv {β : Type} (s : Nat) (zero : β) (f : Nat → Nat → Option β)
    (buf : List β) (hf : ∀ i j, i < s → j < s → (f i j).isSome = true)
    (h : fillPixelsM s zero f = some buf) :
    s * s ≤ INT_MAX ∧ buf = pixelLoops s zero (fun i j => (f i j).getD zero) := by
  by_cases hs : s * s ≤ INT_MAX
  · rw [fillPixelsM_total s zero f hs hf] at h
    exact ⟨hs, (Option.some.inj h).symm⟩
  · rw [fillPixelsM_overflow s zero f hs] at h
    cases h

theorem coloredPixel_isSome (s i j : Nat) (hs : s / 8 ≠ 0) :
    (coloredPixel s i j).isSome = true := by
  simp only [coloredPixel, divNat?, if_neg hs]
  split <;> rfl

theorem rcoloredPixel_isSome (s i j : Nat) (hs : s / 8 ≠ 0) :
    (rcoloredPixel s i j).isSome = true := by
  simp only [rcoloredPixel, divNat?, if_neg hs]
  split <;> rfl

theorem rcheckerValue_lt (i j : Nat) : rcheckerValue i j < 256 := by
  by_cases h : (i % 32 != 0 && j % 32 != 0) = true
  · simp only [rcheckerValue, h, if_true]
    rcases Nat.mod_two_eq_zero_or_one (i / 64 + j / 64) with ha | ha <;>
    rcases Nat.mod_two_eq_zero_or_one (i / 16 + j / 16) with hb | hb <;>
    rcases Nat.mod_two_eq_zero_or_one (i / 4 + j / 4) with hc | hc <;>
    simp [ha, hb, hc, ubyte]
  · simp [rcheckerValue, h]

theorem rcoloredPixel_value (s i j : Nat) (hs : s / 8 ≠ 0) :
    ∃ ph ps : Nat, ps < 256 ∧
      rcoloredPixel s i j = some (hsv_to_rgb ph ps (rcheckerValue i j)) := by
  by_cases h : (i % 32 != 0 && j % 32 != 0) = true
  · exact ⟨ubyte (32 * (i / (s / 8) : Nat)), ubyte (64 + 16 * (7 - ((j / (s / 8) : Nat) : Int))),
      ubyte_lt _, by simp only [rcoloredPixel, rcheckerValue, divNat?, if_neg hs, h, if_true]⟩
  · exact ⟨ubyte (32 * (i / (s / 8) : Nat)), 32, by decide,
      by simp only [rcoloredPixel, rcheckerValue, divNat?, if_neg hs, h]; rfl⟩

/-! ## Claims on the colored textures -/

/-- Counterexample to C17 as stated: for the side `s = 1` the block divisor
`s / 8` is `0`, and both `make_colored(1)` and `make_rcolored(1)` divide by it
at their first pixel; for the side `s = 46341` the product `s * s` is not an
`int` and neither function has a buffer. -/
theorem colored_not_total_at_one :
    (1 / 8 = 0 ∧ divNat? 0 (1 / 8) = none ∧ make_colored 1 = none ∧ make_rcolored 1 = none) ∧
      (¬ 46341 * 46341 ≤ INT_MAX ∧ make_colored 46341 = none ∧
        make_rcolored 46341 = none) :=
  ⟨by decide, by decide, fillPixelsM_overflow _ _ _ (by decide),
    fillPixelsM_overflow _ _ _ (by decide)⟩

/-- C17, amended. Totality of the colored texture synthesizers: for every
side `8 ≤ s ≤ 46340` the block divisor `s / 8` is not zero, the product `s * s`
is an `int`, and `make_colored(s)` and `make_rcolored(s)` return a buffer of
`s*s` pixels in which every index `j*s + i` with `i, j < s` is in range and
holds the pixel computed for `(i, j)`; for the sides `1 ≤ s ≤ 7` the divisor
`s / 8` is zero and the first pixel divides by it; from the side `46341` on the
product `s * s` overflows and no buffer is returned. -/
theorem colored_total (s : Nat) :
    (8 ≤ s → s ≤ 46340 →
      s / 8 ≠ 0 ∧ s * s ≤ INT_MAX ∧
      (∃ buf, make_colored s = some buf ∧ buf.length = s * s ∧
        ∀ i j, i < s → j < s → j * s + i < buf.length ∧
          ∃ p, coloredPixel s i j = some p ∧ buf[j * s + i]? = some p) ∧
      (∃ buf, make_rcolored s = some buf ∧ buf.length = s * s ∧
        ∀ i j, i < s → j < s → j * s + i < buf.length ∧
          ∃ p, rcoloredPixel s i j = some p ∧ buf[j * s + i]? = some p)) ∧
    (1 ≤ s → s ≤ 7 → s / 8 = 0 ∧ make_colored s = none ∧ make_rcolored s = none) ∧
    (46341 ≤ s → ¬ s * s ≤ INT_MAX ∧ make_colored s = none ∧ make_rcolored s = none) := by
  refine ⟨?_, ?_, ?_⟩
  · intro hs hs2
    have hdiv : s / 8 ≠ 0 := by omega
    have hfit := side_fits s hs2
    have hidx : ∀ i j, i < s → j < s → j * s + i < s * s := by
      intro i j hi hj
      calc j * s + i < j * s + s := by omega
        _ = (j + 1) * s := by ring
        _ ≤ s * s := Nat.mul_le_mul_right s hj
    refine ⟨hdiv, hfit,
      ⟨_, fillPixelsM_total s _ _ hfit (fun i j _ _ => coloredPixel_isSome s i j hdiv),
        pixelLoops_length s _ _, fun i j hi hj => ⟨?_, ?_⟩⟩,
      ⟨_, fillPixelsM_total s _ _ hfit (fun i j _ _ => rcoloredPixel_isSome s i j hdiv),
        pixelLoops_length s _ _, fun i j hi hj => ⟨?_, ?_⟩⟩⟩
    · rw [pixelLoops_length]
      exact hidx i j hi hj
    · obtain ⟨p, hp⟩ := Option.isSome_iff_exists.mp (coloredPixel_isSome s i j hdiv)
      exact ⟨p, hp, by rw [pixelLoops_getElem? s _ _ i j hi hj, hp]; rfl⟩
    · rw [pixelLoops_length]
      exact hidx i j hi hj
    · obtain ⟨p, hp⟩ := Option.isSome_iff_exists.mp (rcoloredPixel_isSome s i j hdiv)
      exact ⟨p, hp, by rw [pixelLoops_getElem? s _ _ i j hi hj, hp]; rfl⟩
  · intro h1 h7
    have hdiv : s / 8 = 0 := by omega
    refine ⟨hdiv, fillPixelsM_none s _ _ (by omega) ?_, fillPixelsM_none s _ _ (by omega) ?_⟩
    · simp [coloredPixel, divNat?, hdiv]
    · simp [rcoloredPixel, divNat?, hdiv]
  · intro hs
    have hov := side_overflows s hs
    exact ⟨hov, fillPixelsM_overflow s _ _ hov, fillPixelsM_overflow s _ _ hov⟩

/-- Witness of C17 (amended): the sides `8`, `7` and `46341`. -/
theorem colored_total_witness :
    (8 / 8 ≠ 0 ∧ 8 * 8 ≤ INT_MAX ∧
      (∃ buf, make_colored 8 = some buf ∧ buf.length = 8 * 8 ∧
        ∀ i j, i < 8 → j < 8 → j * 8 + i < buf.length ∧
          ∃ p, coloredPixel 8 i j = some p ∧ buf[j * 8 + i]? = some p) ∧
      (∃ buf, make_rcolored 8 = some buf ∧ buf.length = 8 * 8 ∧
        ∀ i j, i < 8 → j < 8 → j * 8 + i < buf.length ∧
          ∃ p, rcoloredPixel 8 i j = some p ∧ buf[j * 8 + i]? = some p)) ∧
    (7 / 8 = 0 ∧ make_colored 7 = none ∧ make_rcolored 7 = none) ∧
    (¬ 46341 * 46341 ≤ INT_MAX ∧ make_colored 46341 = none ∧ make_rcolored 46341 = none) :=
  ⟨(colored_total 8).1 (by decide) (by decide), (colored_total 7).2.1 (by decide) (by decide),
    (colored_total 46341).2.2 (by decide)⟩

/-- Counterexample to C20 as stated: for the side `s = 46341 ≥ 8` the product
`s * s` is not an `int`, so neither `make_rcolored(46341)` nor
`make_rchecker(46341)` has a buffer whose pixels could be compared. -/
theorem rcolored_overflow :
    (8 ≤ 46341 ∧ ¬ 46341 * 46341 ≤ INT_MAX) ∧ make_rcolored 46341 = none ∧
      make_rchecker 46341 = none :=
  ⟨by decide, fillPixelsM_overflow _ _ _ (by decide), fillPixels_none _ _ _ (by decide)⟩

/-- C20, amended. The randomised colored texture has the cell structure of
the multi-frequency checker: for every `8 ≤ s ≤ 46340`, the sides whose square
is an `int`, and `i, j < s`, `make_rcolored(s)` returns a buffer whose pixel at
`(i, j)` has as largest of its `r`, `g`, `b` channels the gray level `pv` of
the pixel `(pv, pv, pv, 255)` of `make_rchecker(s)` at `(i, j)`, and alpha
`255`. -/
theorem rcolored_cells (s i j : Nat) (hs : 8 ≤ s) (hs2 : s ≤ 46340) (hi : i < s)
    (hj : j < s) :
    ∃ (buf bufc : List rgba) (p : rgba) (pv : Nat),
      make_rcolored s = some buf ∧ make_rchecker s = some bufc ∧
      buf[j * s + i]? = some p ∧ bufc[j * s + i]? = some ⟨pv, pv, pv, 255⟩ ∧
      max p.r (max p.g p.b) = pv ∧ p.a = 255 := by
  have hdiv : s / 8 ≠ 0 := by omega
  have hfit := side_fits s hs2
  obtain ⟨ph, ps, hps, hpix⟩ := rcoloredPixel_value s i j hdiv
  refine ⟨_, _, hsv_to_rgb ph ps (rcheckerValue i j), rcheckerValue i j,
    fillPixelsM_total s _ _ hfit (fun i j _ _ => rcoloredPixel_isSome s i j hdiv),
    fillPixels_eq s _ _ hfit, ?_,
    pixelLoops_getElem? s _ _ i j hi hj, (hsv_to_rgb_max ph ps _ hps).1,
    (hsv_to_rgb_max ph ps _ hps).2⟩
  rw [pixelLoops_getElem? s _ _ i j hi hj, hpix]
  rfl

/-- Witness of C20 (amended) on the side `64` at the pixel `(5, 9)`. -/
theorem rcolored_cells_witness :
    ∃ (buf bufc : List rgba) (p : rgba) (pv : Nat),
      make_rcolored 64 = some buf ∧ make_rchecker 64 = some bufc ∧
      buf[9 * 64 + 5]? = some p ∧ bufc[9 * 64 + 5]? = some ⟨pv, pv, pv, 255⟩ ∧
      max p.r (max p.g p.b) = pv ∧ p.a = 255 :=
  rcolored_cells 64 5 9 (by decide) (by decide) (by decide) (by decide)

/-! ## Properties of the sky image -/

section SkyLemmas

variable {α σ : Type} [LinearOrderedField α]

end SkyLemmas

/-! ## Claims on the sky image -/

/-- C23. The sky image ignores two of the three ground-albedo components: for
all `w`, `h`, `sun_theta`, `turbidity`, `scale`, `include_ground` and any two
albedo vectors `ground`, `ground2` with the same first component,
`make_sunsky_hdr` returns identical buffers; the sky model is a function of
its arguments. -/
theorem sunsky_ignores_albedo {α σ : Type} [LinearOrderedField α] (t : Trig α)
    (sky : SkyModel α σ) (pif : α) (w h : Nat) (sun_theta turbidity : α)
    (ground ground2 : Vec3 α) (scale : α) (include_ground : Bool)
    (hg : ground.x = ground2.x) :
    make_sunsky_hdr t sky pif w h sun_theta turbidity ground scale include_ground =
      make_sunsky_hdr t sky pif w h sun_theta turbidity ground2 scale include_ground := by
  simp only [make_sunsky_hdr, hg]

/-- Witness of C23 on the rationals: the albedos `(1/5, 0, 0)` and
`(1/5, 1, 1)` on a sky model whose radiance depends on the albedo it was
constructed with; both buffers exist and are the same. -/
theorem sunsky_ignores_albedo_witness :
    (make_sunsky_hdr trigQ albedoSky (314 / 100) 4 2 (4 / 5) 8 ⟨1 / 5, 0, 0⟩ 1 true).isSome =
        true ∧
      make_sunsky_hdr trigQ albedoSky (314 / 100) 4 2 (4 / 5) 8 ⟨1 / 5, 0, 0⟩ 1 true =
        make_sunsky_hdr trigQ albedoSky (314 / 100) 4 2 (4 / 5) 8 ⟨1 / 5, 1, 1⟩ 1 true :=
  ⟨by decide!,
    sunsky_ignores_albedo trigQ albedoSky (314 / 100) 4 2 (4 / 5) 8 ⟨1 / 5, 0, 0⟩
      ⟨1 / 5, 1, 1⟩ 1 true rfl⟩

/-- C24. Strand roots stay on the emitter: in `make_lines` with noise radius
`r = 0`, for every `v`, bend angle `s`, clump parameter `c` and scale vector,
the position returned at `u = 0` is `scale * base[index(v)]` component-wise
(exact arithmetic, and whatever the rounding `fl` inside `index(v)` is), and
the generator is left as it was. -/
theorem lines_root_fixed {α : Type} [LinearOrderedField α] [FloorRing α] (m : Libm α)
    (t : Trig α) (fl : α → α) (num : Nat) (tb : StrandTables α) (c s : α) (scale : Vec3 α)
    (rn : rng_pcg32 α) (v : α) :
    (linesPos m t fl num tb 0 c s scale rn 0 v).1 =
        scale.mul (tb.base (strandIndex fl num v).toNat) ∧
      (linesPos m t fl num tb 0 c s scale rn 0 v).2 = rn := by
  have hbend : ¬ (s ≠ 0 ∧ (0 : α) ≠ 0) := fun h => h.2 rfl
  have hroot : (tb.base (strandIndex fl num v).toNat).scale (1 + 0 * tb.ln (strandIndex fl num v).toNat)
      = tb.base (strandIndex fl num v).toNat := by
    simp [Vec3.scale]
  have hbent : linesPosBent t fl num tb 0 s rn 0 v = (tb.base (strandIndex fl num v).toNat, rn) := by
    simp only [linesPosBent, linesNoise_zero, linesBend, if_neg hbend, hroot]
  refine ⟨?_, by simp only [linesPos, hbent]⟩
  simp only [linesPos, hbent, linesClump]
  congr 1
  split
  · simp [Vec3.scale, Vec3.add]
  · rfl

/-! ## Properties of the bytes of `hsv_to_rgb` -/

theorem ubyte_natCast (n : Nat) (h : n < 256) : ubyte (n : Int) = n := by
  unfold ubyte
  omega

theorem byte_shr (n : Nat) (X : Int) (hX : X = (n : Int)) (hn : n / 256 < 256) :
    ubyte (X >>> 8) = n / 256 := by
  subst hX
  rw [shr8_eq _ (Int.natCast_nonneg n)]
  unfold ubyte
  omega

theorem byte_mul_le (a b : Nat) (ha : a ≤ 255) (hb : b ≤ 255) : a * b / 256 ≤ 254 := by
  have : a * b ≤ 255 * 255 := Nat.mul_le_mul ha hb
  omega

theorem hsv_wide_bounds (h s v : Nat) (hh : h < 256) (hs : s < 256) (hv : v < 256) :
    hsvRegion h ≤ 5 ∧ hsvRemainder h ≤ 252 ∧ hsvP s v ≤ 254 ∧ hsvQ h s v ≤ 254 ∧
      hsvT h s v ≤ 254 ∧ hsvP s v ≤ hsvQ h s v ∧ hsvP s v ≤ hsvT h s v ∧
      hsvQ h s v ≤ v ∧ hsvT h s v ≤ v := by
  have hreg : hsvRegion h ≤ 5 := by unfold hsvRegion; omega
  have hrem : hsvRemainder h ≤ 252 := by unfold hsvRemainder hsvRegion; omega
  have hy1 : s * hsvRemainder h / 256 ≤ s := by
    have : s * hsvRemainder h ≤ s * 256 := Nat.mul_le_mul_left s (by omega)
    omega
  have hy2 : s * (255 - hsvRemainder h) / 256 ≤ s := by
    have : s * (255 - hsvRemainder h) ≤ s * 256 := Nat.mul_le_mul_left s (by omega)
    omega
  have hmono : ∀ a b : Nat, a ≤ b → v * a / 256 ≤ v * b / 256 := fun a b hab =>
    Nat.div_le_div_right (Nat.mul_le_mul_left v hab)
  have hle : ∀ a : Nat, a ≤ 255 → v * a / 256 ≤ v := by
    intro a ha
    have : v * a ≤ v * 256 := Nat.mul_le_mul_left v (by omega)
    omega
  refine ⟨hreg, hrem, byte_mul_le _ _ (by omega) (by omega),
    byte_mul_le _ _ (by omega) (by omega), byte_mul_le _ _ (by omega) (by omega),
    hmono _ _ (by omega), hmono _ _ (by omega), hle _ (by omega), hle _ (by omega)⟩

theorem hsv_to_rgb_wide (h s v : Nat) (hh : h < 256) (hs : s < 256) (hv : v < 256)
    (hs0 : s ≠ 0) :
    hsv_to_rgb h s v =
      match hsvRegion h with
      | 0 => ⟨v, hsvT h s v, hsvP s v, 255⟩
      | 1 => ⟨hsvQ h s v, v, hsvP s v, 255⟩
      | 2 => ⟨hsvP s v, v, hsvT h s v, 255⟩
      | 3 => ⟨hsvP s v, hsvQ h s v, v, 255⟩
      | 4 => ⟨hsvT h s v, hsvP s v, v, 255⟩
      | _ => ⟨v, hsvP s v, hsvQ h s v, 255⟩ := by
  obtain ⟨hreg, hrem, hp, hq, ht, _, _, _, _⟩ := hsv_wide_bounds h s v hh hs hv
  have e1 : ubyte ((h : Int) / 43) = hsvRegion h := by
    have : ((h : Int) / 43) = ((hsvRegion h : Nat) : Int) := by unfold hsvRegion; omega
    rw [this, ubyte_natCast _ (by omega)]
  have e2 : ubyte (((h : Int) - ((hsvRegion h * 43 : Nat) : Int)) * 6) = hsvRemainder h := by
    have : (((h : Int) - ((hsvRegion h * 43 : Nat) : Int)) * 6) =
        ((hsvRemainder h : Nat) : Int) := by unfold hsvRemainder hsvRegion; omega
    rw [this, ubyte_natCast _ (by omega)]
  have e3 : ubyte (((v : Int) * (255 - s)) >>> 8) = hsvP s v :=
    byte_shr _ _ (by push_cast [Nat.cast_sub (show s ≤ 255 by omega)]; ring) (by
      unfold hsvP at hp; omega)
  have hy1 : s * hsvRemainder h / 256 ≤ 255 := by
    have := byte_mul_le s (hsvRemainder h) (by omega) (by omega); omega
  have hy2 : s * (255 - hsvRemainder h) / 256 ≤ 255 := by
    have := byte_mul_le s (255 - hsvRemainder h) (by omega) (by omega); omega
  have e4 : ubyte (((v : Int) * (255 - (((s * hsvRemainder h : Nat) : Int) >>> 8))) >>> 8) =
      hsvQ h s v := by
    apply byte_shr _ _ _ (by unfold hsvQ at hq; omega)
    rw [shr8_eq _ (Int.natCast_nonneg _)]
    push_cast [Nat.cast_sub hy1]
    ring
  have e5 : ubyte (((v : Int) * (255 - ((((s : Int) * (255 - hsvRemainder h)) >>> 8)))) >>> 8) =
      hsvT h s v := by
    apply byte_shr _ _ _ (by unfold hsvT at ht; omega)
    have hnn : (0 : Int) ≤ (s : Int) * (255 - (hsvRemainder h : Int)) :=
      mul_nonneg (Int.natCast_nonneg s) (by omega)
    rw [shr8_eq _ hnn]
    push_cast [Nat.cast_sub hy2, Nat.cast_sub (show hsvRemainder h ≤ 255 by omega)]
    ring
  simp only [hsv_to_rgb, beq_iff_eq, hs0, if_false, e1, e2, e3, e4, e5]

/-! ## Claims on the bytes of `hsv_to_rgb` -/

/-- C21. Channel bounds of `hsv_to_rgb`: for all bytes `h`, `s`, `v` the result
has alpha `255` and its largest colour channel is `v`; its smallest colour
channel is `(v * (255 - s)) >> 8` when `s ≠ 0` and `v` when `s = 0`.  The region
`h / 43` is in `0..5`, the remainder `(h - 43 * region) * 6` is at most `252`
and `p`, `q`, `t` are at most `254`; the result is the one obtained from these
values without any store into a byte, so no intermediate is truncated. -/
theorem hsv_to_rgb_channels (h s v : Nat) (hh : h < 256) (hs : s < 256) (hv : v < 256) :
    (hsv_to_rgb h s v).a = 255 ∧
      max (hsv_to_rgb h s v).r (max (hsv_to_rgb h s v).g (hsv_to_rgb h s v).b) = v ∧
      (s ≠ 0 →
        min (hsv_to_rgb h s v).r (min (hsv_to_rgb h s v).g (hsv_to_rgb h s v).b) =
          (v * (255 - s)) / 256) ∧
      (s = 0 →
        min (hsv_to_rgb h s v).r (min (hsv_to_rgb h s v).g (hsv_to_rgb h s v).b) = v) ∧
      h / 43 ≤ 5 ∧ (h - 43 * (h / 43)) * 6 ≤ 252 ∧
      hsvP s v ≤ 254 ∧ hsvQ h s v ≤ 254 ∧ hsvT h s v ≤ 254 ∧
      (s ≠ 0 →
        hsv_to_rgb h s v =
          match hsvRegion h with
          | 0 => ⟨v, hsvT h s v, hsvP s v, 255⟩
          | 1 => ⟨hsvQ h s v, v, hsvP s v, 255⟩
          | 2 => ⟨hsvP s v, v, hsvT h s v, 255⟩
          | 3 => ⟨hsvP s v, hsvQ h s v, v, 255⟩
          | 4 => ⟨hsvT h s v, hsvP s v, v, 255⟩
          | _ => ⟨v, hsvP s v, hsvQ h s v, 255⟩) := by
  obtain ⟨hreg, hrem, hp, hq, ht, hpq, hpt, hqv, htv⟩ := hsv_wide_bounds h s v hh hs hv
  have hmax := hsv_to_rgb_max h s v hs
  refine ⟨hmax.2, hmax.1, fun hs0 => ?_, fun hs0 => ?_, by omega, by omega, hp, hq, ht,
    fun hs0 => hsv_to_rgb_wide h s v hh hs hv hs0⟩
  · rw [hsv_to_rgb_wide h s v hh hs hv hs0]
    have hP : hsvP s v = (v * (255 - s)) / 256 := rfl
    rw [← hP]
    split <;> simp only <;> omega
  · subst hs0
    simp [hsv_to_rgb]

/-- Witness of C21 at the bytes `h = 100`, `s = 100`, `v = 200`, where the
result is `(121, 200, 147, 255)`. -/
theorem hsv_to_rgb_channels_witness :
    hsv_to_rgb 100 100 200 = ⟨121, 200, 147, 255⟩ ∧
      min (hsv_to_rgb 100 100 200).r
        (min (hsv_to_rgb 100 100 200).g (hsv_to_rgb 100 100 200).b) = (200 * (255 - 100)) / 256 :=
  ⟨by decide, (hsv_to_rgb_channels 100 100 200 (by decide) (by decide) (by decide)).2.2.1
    (by decide)⟩

/-! ## Properties of the hue and saturation bytes -/

theorem block_index_le (s k i : Nat) (hk : 0 < k) (hs : s = 8 * k) (hi : i < s) :
    s / 8 = k ∧ i / (s / 8) ≤ 7 := by
  have h8 : s / 8 = k := by omega
  refine ⟨h8, ?_⟩
  rw [h8]
  have : i / k < 8 := (Nat.div_lt_iff_lt_mul hk).mpr (by omega)
  omega

theorem hue_byte (b : Nat) (hb : b ≤ 7) :
    ubyte (32 * (b : Int)) = 32 * b ∧ 32 * b ∈ [0, 32, 64, 96, 128, 160, 192, 224] := by
  have h1 : (32 * (b : Int)) = ((32 * b : Nat) : Int) := by omega
  refine ⟨by rw [h1, ubyte_natCast _ (by omega)], ?_⟩
  interval_cases b <;> decide

theorem saturation_byte (b : Nat) (hb : b ≤ 7) :
    ubyte (64 + 16 * (7 - (b : Int))) = 64 + 16 * (7 - b) ∧
      64 + 16 * (7 - b) ∈ [64, 80, 96, 112, 128, 144, 160, 176] := by
  have h1 : (64 + 16 * (7 - (b : Int))) = ((64 + 16 * (7 - b) : Nat) : Int) := by omega
  refine ⟨by rw [h1, ubyte_natCast _ (by omega)], ?_⟩
  interval_cases b <;> decide

theorem coloredPixel_bytes (s k i j : Nat) (hk : 0 < k) (hs : s = 8 * k) (hi : i < s)
    (hj : j < s) :
    coloredPixel s i j = some
      (if i % 32 ≠ 0 ∧ j % 32 ≠ 0 then
        hsv_to_rgb (32 * (i / (s / 8))) (64 + 16 * (7 - j / (s / 8)))
          (if (i / 64 + j / 64) % 2 = 1 then 144 else 112)
      else hsv_to_rgb (32 * (i / (s / 8))) 32 196) := by
  obtain ⟨h8, hbi⟩ := block_index_le s k i hk hs hi
  obtain ⟨_, hbj⟩ := block_index_le s k j hk hs hj
  have hdiv : s / 8 ≠ 0 := by omega
  have hh := (hue_byte _ hbi).1
  have hsat := (saturation_byte _ hbj).1
  by_cases hint : i % 32 ≠ 0 ∧ j % 32 ≠ 0
  · have hcond : (i % 32 != 0 && j % 32 != 0) = true := by simp [hint.1, hint.2]
    simp only [coloredPixel, divNat?, if_neg hdiv, hcond, if_true, if_pos hint, hh, hsat]
    rcases Nat.mod_two_eq_zero_or_one (i / 64 + j / 64) with ha | ha <;>
      simp [ha, ubyte]
  · have hcond : (i % 32 != 0 && j % 32 != 0) = false := by
      rcases Decidable.not_and_iff_or_not_not.mp hint with h | h <;> simp at h <;> simp [h]
    simp only [coloredPixel, divNat?, if_neg hdiv, hcond, if_neg hint, hh]
    rfl

theorem rcoloredPixel_bytes (s k i j : Nat) (hk : 0 < k) (hs : s = 8 * k) (hi : i < s)
    (hj : j < s) :
    rcoloredPixel s i j = some
      (if i % 32 ≠ 0 ∧ j % 32 ≠ 0 then
        hsv_to_rgb (32 * (i / (s / 8))) (64 + 16 * (7 - j / (s / 8))) (rcheckerValue i j)
      else hsv_to_rgb (32 * (i / (s / 8))) 32 196) := by
  obtain ⟨h8, hbi⟩ := block_index_le s k i hk hs hi
  obtain ⟨_, hbj⟩ := block_index_le s k j hk hs hj
  have hdiv : s / 8 ≠ 0 := by omega
  have hh := (hue_byte _ hbi).1
  have hsat := (saturation_byte _ hbj).1
  by_cases hint : i % 32 ≠ 0 ∧ j % 32 ≠ 0
  · have hcond : (i % 32 != 0 && j % 32 != 0) = true := by simp [hint.1, hint.2]
    simp only [rcoloredPixel, rcheckerValue, divNat?, if_neg hdiv, hcond, if_true, if_pos hint,
      hh, hsat]
  · have hcond : (i % 32 != 0 && j % 32 != 0) = false := by
      rcases Decidable.not_and_iff_or_not_not.mp hint with h | h <;> simp at h <;> simp [h]
    simp only [rcoloredPixel, divNat?, if_neg hdiv, hcond, if_neg hint, hh]
    rfl

/-! ## Claims on the hue and saturation bytes -/

/-- C22. Hue and saturation bytes of the colored textures do not wrap when `s`
is a positive multiple of `8`: for `i, j < s` the block indices `i/(s/8)` and
`j/(s/8)` are in `0..7`; the hue byte is `32*(i/(s/8))`, one of
`0, 32, ..., 224`, and the store into the byte leaves it unchanged; the
saturation byte of an interior pixel (`i mod 32 ≠ 0` and `j mod 32 ≠ 0`) is
`64 + 16*(7 - j/(s/8))`, one of `64, 80, ..., 176`, stored unchanged; the other
pixels use saturation `32` and value `196`.  The pixel that the loop body of
`make_colored(s)` and of `make_rcolored(s)` computes for `(i, j)` is the one
`hsv_to_rgb` makes of these bytes, and a buffer that either function returns
holds it at `(i, j)`; both return their buffer when `s * s` is an `int`, that
is for `s ≤ 46340`. -/
theorem colored_bytes (s k i j : Nat) (hk : 0 < k) (hs : s = 8 * k) (hi : i < s)
    (hj : j < s) :
    i / (s / 8) ≤ 7 ∧ j / (s / 8) ≤ 7 ∧
      ubyte (32 * ((i / (s / 8) : Nat) : Int)) = 32 * (i / (s / 8)) ∧
      32 * (i / (s / 8)) ∈ [0, 32, 64, 96, 128, 160, 192, 224] ∧
      ubyte (64 + 16 * (7 - ((j / (s / 8) : Nat) : Int))) = 64 + 16 * (7 - j / (s / 8)) ∧
      64 + 16 * (7 - j / (s / 8)) ∈ [64, 80, 96, 112, 128, 144, 160, 176] ∧
      (i % 32 ≠ 0 ∧ j % 32 ≠ 0 →
        (∃ pv, coloredPixel s i j =
          some (hsv_to_rgb (32 * (i / (s / 8))) (64 + 16 * (7 - j / (s / 8))) pv)) ∧
        rcoloredPixel s i j =
          some (hsv_to_rgb (32 * (i / (s / 8))) (64 + 16 * (7 - j / (s / 8)))
            (rcheckerValue i j))) ∧
      (¬ (i % 32 ≠ 0 ∧ j % 32 ≠ 0) →
        coloredPixel s i j = some (hsv_to_rgb (32 * (i / (s / 8))) 32 196) ∧
        rcoloredPixel s i j = some (hsv_to_rgb (32 * (i / (s / 8))) 32 196)) ∧
      (∀ bufc, make_colored s = some bufc → bufc[j * s + i]? = coloredPixel s i j) ∧
      (∀ bufr, make_rcolored s = some bufr → bufr[j * s + i]? = rcoloredPixel s i j) ∧
      (s ≤ 46340 →
        ∃ bufc bufr : List rgba, make_colored s = some bufc ∧ make_rcolored s = some bufr) := by
  obtain ⟨h8, hbi⟩ := block_index_le s k i hk hs hi
  obtain ⟨_, hbj⟩ := block_index_le s k j hk hs hj
  have hdiv : s / 8 ≠ 0 := by omega
  have hc := coloredPixel_bytes s k i j hk hs hi hj
  have hr := rcoloredPixel_bytes s k i j hk hs hi hj
  refine ⟨hbi, hbj, (hue_byte _ hbi).1, (hue_byte _ hbi).2, (saturation_byte _ hbj).1,
    (saturation_byte _ hbj).2,
    fun hint => ⟨⟨if (i / 64 + j / 64) % 2 = 1 then 144 else 112, ?_⟩, ?_⟩,
    fun hint => ⟨?_, ?_⟩, fun bufc hb => ?_, fun bufr hb => ?_, fun hs2 => ?_⟩
  · rw [hc, if_pos hint]
  · rw [hr, if_pos hint]
  · rw [hc, if_neg hint]
  · rw [hr, if_neg hint]
  · obtain ⟨_, rfl⟩ := fillPixelsM_inv s _ _ bufc
      (fun i j _ _ => coloredPixel_isSome s i j hdiv) hb
    obtain ⟨p, hp⟩ := Option.isSome_iff_exists.mp (coloredPixel_isSome s i j hdiv)
    rw [pixelLoops_getElem? s _ _ i j hi hj, hp]
    rfl
  · obtain ⟨_, rfl⟩ := fillPixelsM_inv s _ _ bufr
      (fun i j _ _ => rcoloredPixel_isSome s i j hdiv) hb
    obtain ⟨p, hp⟩ := Option.isSome_iff_exists.mp (rcoloredPixel_isSome s i j hdiv)
    rw [pixelLoops_getElem? s _ _ i j hi hj, hp]
    rfl
  · exact ⟨_, _,
      fillPixelsM_total s _ _ (side_fits s hs2) (fun i j _ _ => coloredPixel_isSome s i j hdiv),
      fillPixelsM_total s _ _ (side_fits s hs2)
        (fun i j _ _ => rcoloredPixel_isSome s i j hdiv)⟩

/-- Witness of C22 on the side `512 = 8 * 64` at the interior pixel
`(65, 17)`: block indices `1` and `0`, hue byte `32`, saturation byte `176`;
both buffers exist and hold the pixel made of these bytes. -/
theorem colored_bytes_witness :
    65 / (512 / 8) ≤ 7 ∧ 17 / (512 / 8) ≤ 7 ∧
      ubyte (32 * ((65 / (512 / 8) : Nat) : Int)) = 32 * (65 / (512 / 8)) ∧
      32 * (65 / (512 / 8)) ∈ [0, 32, 64, 96, 128, 160, 192, 224] ∧
      ubyte (64 + 16 * (7 - ((17 / (512 / 8) : Nat) : Int))) = 64 + 16 * (7 - 17 / (512 / 8)) ∧
      64 + 16 * (7 - 17 / (512 / 8)) ∈ [64, 80, 96, 112, 128, 144, 160, 176] ∧
      ∃ bufc bufr : List rgba, make_colored 512 = some bufc ∧ make_rcolored 512 = some bufr ∧
        (∃ pv, bufc[17 * 512 + 65]? =
          some (hsv_to_rgb (32 * (65 / (512 / 8))) (64 + 16 * (7 - 17 / (512 / 8))) pv)) ∧
        bufr[17 * 512 + 65]? =
          some (hsv_to_rgb (32 * (65 / (512 / 8))) (64 + 16 * (7 - 17 / (512 / 8)))
            (rcheckerValue 65 17)) := by
  obtain ⟨h1, h2, h3, h4, h5, h6, h7, _, h9, h10, h11⟩ :=
    colored_bytes 512 64 65 17 (by decide) (by decide) (by decide) (by decide)
  obtain ⟨bufc, bufr, hc, hr⟩ := h11 (by decide)
  obtain ⟨⟨pv, hpv⟩, hrv⟩ := h7 (by decide)
  exact ⟨h1, h2, h3, h4, h5, h6, bufc, bufr, hc, hr, ⟨pv, by rw [h9 bufc hc, hpv]⟩,
    by rw [h10 bufr hr, hrv]⟩

/-! ## Properties of the drawn indices -/

section IndexLemmas

variable {α : Type} [LinearOrderedField α] [FloorRing α]

theorem truncInt_mul_range (u : α) (n : Nat) (hn : 0 < n) (h0 : 0 ≤ u) (h1 : u < 1) :
    0 ≤ truncInt (u * (n : α)) ∧ truncInt (u * (n : α)) < n := by
  have hnpos : (0 : α) < (n : α) := by exact_mod_cast hn
  have hx : (0 : α) ≤ u * (n : α) := mul_nonneg h0 hnpos.le
  have hlt : u * (n : α) < (n : α) := by nlinarith
  simp only [truncInt, if_pos hx]
  refine ⟨Int.floor_nonneg.mpr hx, Int.floor_lt.mpr ?_⟩
  exact_mod_cast hlt

theorem truncInt_six (u : α) (h0 : 0 ≤ u) (h1 : u < 1) :
    0 ≤ truncInt (u * 6) ∧ truncInt (u * 6) ≤ 5 := by
  have h := truncInt_mul_range u 6 (by decide) h0 h1
  rw [show ((6 : Nat) : α) = 6 by norm_num] at h
  exact ⟨h.1, by have := h.2; omega⟩

theorem truncInt_three (u : α) (h0 : 0 ≤ u) (h1 : u < 1) :
    0 ≤ truncInt (u * 3) ∧ truncInt (u * 3) ≤ 2 := by
  have h := truncInt_mul_range u 3 (by decide) h0 h1
  rw [show ((3 : Nat) : α) = 3 by norm_num] at h
  exact ⟨h.1, by have := h.2; omega⟩

theorem truncInt_two (u : α) (h0 : 0 ≤ u) (h1 : u < 1) :
    0 ≤ truncInt (u * 2) ∧ truncInt (u * 2) ≤ 1 := by
  have h := truncInt_mul_range u 2 (by decide) h0 h1
  rw [show ((2 : Nat) : α) = 2 by norm_num] at h
  exact ⟨h.1, by have := h.2; omega⟩

theorem index?_some {β : Type} (xs : List β) (k : Int) (h0 : 0 ≤ k) (h1 : k < xs.length) :
    ∃ x, index? xs k = some x := by
  have hk : k.toNat < xs.length := by omega
  exact ⟨xs[k.toNat], by simp [index?, h0, List.getElem?_eq_getElem hk]⟩

theorem shapesBuild_some (pos : Nat → Vec3 α) (radius : Nat → α) (n i : Nat)
    (b : BuildState α) (hdraw : ∀ k, 0 ≤ b.rn.stream k ∧ b.rn.stream k < 1) :
    ∃ b1, shapesBuild pos radius n i b = some b1 := by
  induction n generalizing i b with
  | zero => exact ⟨b, rfl⟩
  | succ n ih =>
    obtain ⟨h0, h1⟩ := hdraw b.rn.idx
    obtain ⟨hr0, hr1⟩ := truncInt_three _ h0 h1
    obtain ⟨x, hx⟩ := index?_some [stdsurface_type.uvspherecube,
      stdsurface_type.uvspherizedcube, stdsurface_type.uvflipcapsphere]
      (truncInt (b.rn.stream b.rn.idx * 3)) hr0 (by simp; omega)
    simp only [shapesBuild, next1f, hx]
    exact ih _ _ hdraw

theorem rigidBuildOn_some {μ : Type} (materials : List μ) (pos : Nat → Vec3 α)
    (radius : Nat → α) (n i : Nat) (b : BuildState α)
    (hdraw : ∀ k, 0 ≤ b.rn.stream k ∧ b.rn.stream k < 1) (hmat : i + n ≤ materials.length) :
    ∃ b1, rigidBuildOn materials pos radius n i b = some b1 := by
  induction n generalizing i b with
  | zero => exact ⟨b, rfl⟩
  | succ n ih =>
    obtain ⟨h0, h1⟩ := hdraw b.rn.idx
    obtain ⟨hr0, hr1⟩ := truncInt_two _ h0 h1
    obtain ⟨x, hx⟩ := index?_some [stdsurface_type.uvspherecube, stdsurface_type.uvcube]
      (truncInt (b.rn.stream b.rn.idx * 2)) hr0 (by simp; omega)
    have hi : i < materials.length := by omega
    simp only [rigidBuildOn, next1f, hx, List.getElem?_eq_getElem hi]
    exact ih _ _ hdraw (by omega)

theorem rigidBuildOn_eq {μ : Type} (materials : List μ) (pos : Nat → Vec3 α)
    (radius : Nat → α) (n i : Nat) (b : BuildState α) (hmat : i + n ≤ materials.length) :
    rigidBuildOn materials pos radius n i b = rigidBuild pos radius n i b := by
  induction n generalizing i b with
  | zero => rfl
  | succ n ih =>
    have hi : i < materials.length := by omega
    cases hx : index? [stdsurface_type.uvspherecube, stdsurface_type.uvcube]
        (truncInt ((next1f b.rn).1 * 2)) with
    | none => simp only [rigidBuildOn, rigidBuild, hx]
    | some stype =>
      simp only [rigidBuildOn, rigidBuild, hx, List.getElem?_eq_getElem hi]
      exact ih _ _ (by omega)

end IndexLemmas

section MaterialLemmas

variable {α : Type} [LinearOrderedField α] [FloorRing α]

theorem store?_some {β : Type} (xs : List β) (i : Nat) (x : β) (h : i < xs.length) :
    store? xs i x = some (xs.set i x) := by
  simp [store?, h]

theorem materialDraw_spec (rn : rng_pcg32 α) (hdraw : ∀ k, 0 ≤ rn.stream k ∧ rn.stream k < 1) :
    (materialDraw rn).rn.stream = rn.stream ∧
      -1 ≤ (materialDraw rn).txt ∧ (materialDraw rn).txt ≤ 4 := by
  obtain ⟨h0, h1⟩ := hdraw (rn.idx + 1)
  obtain ⟨hr0, hr1⟩ := truncInt_six _ h0 h1
  refine ⟨?_, ?_, ?_⟩
  · simp only [materialDraw, next1f]
    split_ifs <;> rfl
  · simp only [materialDraw, next1f]
    split_ifs
    · show -1 ≤ truncInt (rn.stream (rn.idx + 1) * 6) - 1
      omega
    · exact le_rfl
  · simp only [materialDraw, next1f]
    split_ifs
    · show truncInt (rn.stream (rn.idx + 1) * 6) - 1 ≤ 4
      omega
    · show (-1 : Int) ≤ 4
      decide

theorem materialsLoop_some (n i : Nat) (st : MatState α)
    (hdraw : ∀ k, 0 ≤ st.rn.stream k ∧ st.rn.stream k < 1)
    (hlen : i + n ≤ st.materials.length) :
    ∃ st1, materialsLoop make_random_textures n i st = some st1 ∧
      st1.materials.length = st.materials.length := by
  induction n generalizing i st with
  | zero => exact ⟨st, rfl, rfl⟩
  | succ n ih =>
    have hi : i < st.materials.length := by omega
    obtain ⟨hs, ht0, ht1⟩ := materialDraw_spec st.rn hdraw
    have htx : ∃ tx, (if (materialDraw st.rn).txt < 0 then some none
        else (index? make_random_textures (materialDraw st.rn).txt).map some) = some tx := by
      by_cases hneg : (materialDraw st.rn).txt < 0
      · exact ⟨none, by rw [if_pos hneg]⟩
      · obtain ⟨x, hx⟩ := index?_some make_random_textures (materialDraw st.rn).txt
          (by omega) (by simp [make_random_textures]; omega)
        exact ⟨some x, by rw [if_neg hneg, hx]; rfl⟩
    obtain ⟨tx, htx⟩ := htx
    simp only [materialsLoop, htx, store?_some _ _ _ hi]
    refine Exists.elim (ih (i + 1) _ ?_ ?_) (fun st1 h => ⟨st1, h.1, ?_⟩)
    · simpa [hs] using hdraw
    · simp only [List.length_set]
      omega
    · simpa using h.2

theorem make_random_materials_some (nshapes : Nat) (rn : rng_pcg32 α) (hlo : 1 ≤ nshapes)
    (hdraw : ∀ k, 0 ≤ rn.stream k ∧ rn.stream k < 1) :
    ∃ ms, make_random_materials nshapes rn = some ms ∧ ms.length = nshapes := by
  have h0 : index? make_random_textures 0 = some ⟨"grid.png"⟩ := rfl
  have hst : store? (List.replicate nshapes (none : Option (material α))) 0
      (some (make_diffuse (⟨1, 1, 1⟩ : Vec3 α) (some ⟨"grid.png"⟩))) =
      some ((List.replicate nshapes none).set 0
        (some (make_diffuse (⟨1, 1, 1⟩ : Vec3 α) (some ⟨"grid.png"⟩)))) :=
    store?_some _ _ _ (by simpa using hlo)
  obtain ⟨st1, h1, h2⟩ := materialsLoop_some (nshapes - 1) 1
    (⟨rn, (List.replicate nshapes none).set 0
      (some (make_diffuse (⟨1, 1, 1⟩ : Vec3 α) (some ⟨"grid.png"⟩)))⟩ : MatState α) hdraw
    (by simp only [List.length_set, List.length_replicate]; omega)
  refine ⟨st1.materials, ?_, by simpa using h2⟩
  simp only [make_random_materials, h0, hst, h1]

end MaterialLemmas

/-! ## Properties of the slots of the local arrays -/

section SlotLemmas

variable {α : Type}

theorem placeLoop_frame (attempt : Nat → PackState α → PackState α × Bool)
    (hfr : ∀ i st k, k ≠ i →
      (attempt i st).1.pos k = st.pos k ∧ (attempt i st).1.radius k = st.radius k ∧
        (attempt i st).1.levels k = st.levels k)
    (i fuel : Nat) (st st1 : PackState α) (h : placeLoop attempt i fuel st = some st1)
    (k : Nat) (hk : k ≠ i) :
    st1.pos k = st.pos k ∧ st1.radius k = st.radius k ∧ st1.levels k = st.levels k := by
  induction fuel generalizing st with
  | zero => simp [placeLoop] at h
  | succ fuel ih =>
    simp only [placeLoop] at h
    by_cases hd : (attempt i st).2 = true
    · rw [if_pos hd] at h
      cases h
      exact hfr i st k hk
    · rw [if_neg hd] at h
      obtain ⟨h1, h2, h3⟩ := ih _ h
      obtain ⟨g1, g2, g3⟩ := hfr i st k hk
      exact ⟨h1.trans g1, h2.trans g2, h3.trans g3⟩

theorem placeFrom_frame (attempt : Nat → PackState α → PackState α × Bool)
    (hfr : ∀ i st k, k ≠ i →
      (attempt i st).1.pos k = st.pos k ∧ (attempt i st).1.radius k = st.radius k ∧
        (attempt i st).1.levels k = st.levels k)
    (fuel n i : Nat) (st st1 : PackState α) (h : placeFrom attempt fuel n i st = some st1)
    (k : Nat) (hk : k < i ∨ i + n ≤ k) :
    st1.pos k = st.pos k ∧ st1.radius k = st.radius k ∧ st1.levels k = st.levels k := by
  induction n generalizing i st with
  | zero =>
    simp only [placeFrom, Option.some.injEq] at h
    subst h
    exact ⟨rfl, rfl, rfl⟩
  | succ n ih =>
    simp only [placeFrom] at h
    cases hp : placeLoop attempt i fuel st with
    | none => simp [hp] at h
    | some st2 =>
      rw [hp] at h
      obtain ⟨h1, h2, h3⟩ := ih (i + 1) st2 h (by omega)
      obtain ⟨g1, g2, g3⟩ := placeLoop_frame attempt hfr i fuel st st2 hp k (by omega)
      exact ⟨h1.trans g1, h2.trans g2, h3.trans g3⟩

theorem SameBelow.symm {n : Nat} {a b : PackState α} (h : SameBelow n a b) :
    SameBelow n b a :=
  ⟨h.1.symm, fun k hk => ⟨(h.2 k hk).1.symm, (h.2 k hk).2.1.symm, (h.2 k hk).2.2.symm⟩⟩

theorem placeLoop_same (attempt : Nat → PackState α → PackState α × Bool) (n : Nat)
    (hsame : ∀ i a b, i < n → SameBelow n a b →
      SameBelow n (attempt i a).1 (attempt i b).1 ∧ (attempt i a).2 = (attempt i b).2)
    (i fuel : Nat) (hi : i < n) (a b a1 : PackState α) (hab : SameBelow n a b)
    (h : placeLoop attempt i fuel a = some a1) :
    ∃ b1, placeLoop attempt i fuel b = some b1 ∧ SameBelow n a1 b1 := by
  induction fuel generalizing a b with
  | zero => simp [placeLoop] at h
  | succ fuel ih =>
    obtain ⟨hS, hv⟩ := hsame i a b hi hab
    simp only [placeLoop] at h ⊢
    rw [← hv]
    by_cases hd : (attempt i a).2 = true
    · rw [if_pos hd] at h ⊢
      cases h
      exact ⟨_, rfl, hS⟩
    · rw [if_neg hd] at h ⊢
      exact ih _ _ hS h

theorem placeFrom_same (attempt : Nat → PackState α → PackState α × Bool) (n : Nat)
    (hsame : ∀ i a b, i < n → SameBelow n a b →
      SameBelow n (attempt i a).1 (attempt i b).1 ∧ (attempt i a).2 = (attempt i b).2)
    (fuel cnt i : Nat) (hi : i + cnt ≤ n) (a b a1 : PackState α) (hab : SameBelow n a b)
    (h : placeFrom attempt fuel cnt i a = some a1) :
    ∃ b1, placeFrom attempt fuel cnt i b = some b1 ∧ SameBelow n a1 b1 := by
  induction cnt generalizing i a b with
  | zero =>
    simp only [placeFrom, Option.some.injEq] at h ⊢
    subst h
    exact ⟨b, rfl, hab⟩
  | succ cnt ih =>
    simp only [placeFrom] at h ⊢
    cases hp : placeLoop attempt i fuel a with
    | none => simp [hp] at h
    | some a2 =>
      rw [hp] at h
      obtain ⟨b2, hb2, hS⟩ := placeLoop_same attempt n hsame i fuel (by omega) a b a2 hab hp
      rw [hb2]
      exact ih (i + 1) (by omega) a2 b2 hS h

variable [LinearOrderedField α]

theorem shapesAttempt_frame (m : Libm α) (l : Int) (i : Nat) (st : PackState α) (k : Nat)
    (hk : k ≠ i) :
    (shapesAttempt m l i st).1.pos k = st.pos k ∧
      (shapesAttempt m l i st).1.radius k = st.radius k ∧
      (shapesAttempt m l i st).1.levels k = st.levels k := by
  simp [shapesAttempt, Function.update_noteq hk]

theorem rigidAttempt_frame (m : Libm α) (l : Int) (i : Nat) (st : PackState α) (k : Nat)
    (hk : k ≠ i) :
    (rigidAttempt m l i st).1.pos k = st.pos k ∧
      (rigidAttempt m l i st).1.radius k = st.radius k ∧
      (rigidAttempt m l i st).1.levels k = st.levels k := by
  simp [rigidAttempt, Function.update_noteq hk]

theorem accepted_congr (m : Libm α) (pos pos2 : Nat → Vec3 α) (radius radius2 : Nat → α)
    (i : Nat) (h : ∀ j, j ≤ i → pos j = pos2 j ∧ radius j = radius2 j) :
    accepted m pos radius i = accepted m pos2 radius2 i := by
  rw [Bool.eq_iff_iff, accepted_iff, accepted_iff]
  constructor
  · intro g j h1 h2
    rw [← (h i le_rfl).1, ← (h i le_rfl).2, ← (h j (by omega)).1, ← (h j (by omega)).2]
    exact g j h1 h2
  · intro g j h1 h2
    rw [(h i le_rfl).1, (h i le_rfl).2, (h j (by omega)).1, (h j (by omega)).2]
    exact g j h1 h2

theorem shapesAttempt_same (m : Libm α) (l : Int) (n i : Nat) (a b : PackState α)
    (hi : i < n) (h : SameBelow n a b) :
    SameBelow n (shapesAttempt m l i a).1 (shapesAttempt m l i b).1 ∧
      (shapesAttempt m l i a).2 = (shapesAttempt m l i b).2 := by
  obtain ⟨hrn, hsl⟩ := h
  have hS : SameBelow n (shapesAttempt m l i a).1 (shapesAttempt m l i b).1 := by
    refine ⟨by simp [shapesAttempt, hrn], fun k hk => ?_⟩
    by_cases hki : k = i
    · subst hki
      simp [shapesAttempt, hrn]
    · rw [(shapesAttempt_frame m l i a k hki).1, (shapesAttempt_frame m l i a k hki).2.1,
        (shapesAttempt_frame m l i a k hki).2.2, (shapesAttempt_frame m l i b k hki).1,
        (shapesAttempt_frame m l i b k hki).2.1, (shapesAttempt_frame m l i b k hki).2.2]
      exact hsl k hk
  refine ⟨hS, ?_⟩
  rw [(shapesAttempt_spec m l i a).1, (shapesAttempt_spec m l i b).1]
  exact accepted_congr m _ _ _ _ i
    (fun j hj => ⟨(hS.2 j (by omega)).1, (hS.2 j (by omega)).2.1⟩)

theorem rigidAttempt_same (m : Libm α) (l : Int) (n i : Nat) (a b : PackState α)
    (hi : i < n) (h : SameBelow n a b) :
    SameBelow n (rigidAttempt m l i a).1 (rigidAttempt m l i b).1 ∧
      (rigidAttempt m l i a).2 = (rigidAttempt m l i b).2 := by
  obtain ⟨hrn, hsl⟩ := h
  have hS : SameBelow n (rigidAttempt m l i a).1 (rigidAttempt m l i b).1 := by
    refine ⟨by simp [rigidAttempt, hrn], fun k hk => ?_⟩
    by_cases hki : k = i
    · subst hki
      simp [rigidAttempt, hrn]
    · rw [(rigidAttempt_frame m l i a k hki).1, (rigidAttempt_frame m l i a k hki).2.1,
        (rigidAttempt_frame m l i a k hki).2.2, (rigidAttempt_frame m l i b k hki).1,
        (rigidAttempt_frame m l i b k hki).2.1, (rigidAttempt_frame m l i b k hki).2.2]
      exact hsl k hk
  refine ⟨hS, ?_⟩
  rw [(rigidAttempt_spec m l i a).1, (rigidAttempt_spec m l i b).1]
  exact accepted_congr m _ _ _ _ i
    (fun j hj => ⟨(hS.2 j (by omega)).1, (hS.2 j (by omega)).2.1⟩)

end SlotLemmas

/-! ## Properties of the reads of the second loops -/

section BuildReadLemmas

variable {α : Type} [LinearOrderedField α] [FloorRing α]

theorem shapesBuild_levels (pos : Nat → Vec3 α) (radius : Nat → α) (n i : Nat)
    (b b1 : BuildState α) (h : shapesBuild pos radius n i b = some b1) (k : Nat)
    (hk : k < i ∨ i + n ≤ k) : b1.levels k = b.levels k := by
  induction n generalizing i b with
  | zero =>
    simp only [shapesBuild, Option.some.injEq] at h
    subst h
    rfl
  | succ n ih =>
    simp only [shapesBuild] at h
    split at h
    · simp at h
    · rename_i stype hidx
      rw [ih _ _ h (by omega)]
      have hne : k ≠ i := by omega
      by_cases hf : stype = stdsurface_type.uvflipcapsphere
      · simp [hf, Function.update_noteq hne]
      · simp [hf]

theorem rigidBuildOn_levels {μ : Type} (materials : List μ) (pos : Nat → Vec3 α)
    (radius : Nat → α) (n i : Nat) (b b1 : BuildState α)
    (h : rigidBuildOn materials pos radius n i b = some b1) : b1.levels = b.levels := by
  induction n generalizing i b with
  | zero =>
    simp only [rigidBuildOn, Option.some.injEq] at h
    subst h
    rfl
  | succ n ih =>
    simp only [rigidBuildOn] at h
    split at h
    · rw [ih _ _ h]
    · simp at h

theorem shapesBuild_congr (pos pos2 : Nat → Vec3 α) (radius radius2 : Nat → α) (n i : Nat)
    (b b2 : BuildState α) (hrn : b.rn = b2.rn) (hsh : b.shapes = b2.shapes)
    (h : ∀ k, i ≤ k → k < i + n →
      pos k = pos2 k ∧ radius k = radius2 k ∧ b.levels k = b2.levels k) :
    (shapesBuild pos radius n i b).map (fun x => x.shapes) =
      (shapesBuild pos2 radius2 n i b2).map (fun x => x.shapes) := by
  induction n generalizing i b b2 with
  | zero => simp [shapesBuild, hsh]
  | succ n ih =>
    obtain ⟨hp, hr, hl⟩ := h i le_rfl (by omega)
    cases hx : index? [stdsurface_type.uvspherecube, stdsurface_type.uvspherizedcube,
        stdsurface_type.uvflipcapsphere] (truncInt ((next1f b.rn).1 * 3)) with
    | none =>
      have hx2 := hx
      rw [hrn] at hx2
      simp only [shapesBuild, hx, hx2]
    | some stype =>
      have hx2 := hx
      rw [hrn] at hx2
      simp only [shapesBuild, hx, hx2]
      apply ih
      · simp only [hrn]
      · by_cases hf : stype = stdsurface_type.uvflipcapsphere
        · simp [hf, hp, hr, hl, hsh]
        · simp [hf, hp, hr, hl, hsh]
      · intro k h1 h2
        obtain ⟨gp, gr, gl⟩ := h k (by omega) (by omega)
        have hne : k ≠ i := by omega
        refine ⟨gp, gr, ?_⟩
        by_cases hf : stype = stdsurface_type.uvflipcapsphere
        · simp [hf, Function.update_noteq hne, gl]
        · simp [hf, gl]

theorem rigidBuildOn_congr {μ : Type} (materials : List μ) (pos pos2 : Nat → Vec3 α)
    (radius radius2 : Nat → α) (n i : Nat)
    (b b2 : BuildState α) (hrn : b.rn = b2.rn) (hsh : b.shapes = b2.shapes)
    (h : ∀ k, i ≤ k → k < i + n →
      pos k = pos2 k ∧ radius k = radius2 k ∧ b.levels k = b2.levels k) :
    (rigidBuildOn materials pos radius n i b).map (fun x => x.shapes) =
      (rigidBuildOn materials pos2 radius2 n i b2).map (fun x => x.shapes) := by
  induction n generalizing i b b2 with
  | zero => simp [rigidBuildOn, hsh]
  | succ n ih =>
    obtain ⟨hp, hr, hl⟩ := h i le_rfl (by omega)
    cases hx : index? [stdsurface_type.uvspherecube, stdsurface_type.uvcube]
        (truncInt ((next1f b.rn).1 * 2)) with
    | none =>
      have hx2 := hx
      rw [hrn] at hx2
      simp only [rigidBuildOn, hx, hx2]
    | some stype =>
      have hx2 := hx
      rw [hrn] at hx2
      cases hm : materials[i]? with
      | none => simp only [rigidBuildOn, hx, hx2, hm]
      | some mat =>
        simp only [rigidBuildOn, hx, hx2, hm]
        apply ih
        · simp only [hrn]
        · simp [hp, hr, hl, hsh]
        · intro k h1 h2
          exact h k (by omega) (by omega)

end BuildReadLemmas

/-! ## Properties of the accesses of the packers -/

section AccessLemmas

variable {α : Type}

theorem shapes_of_map (x : Option (BuildState α)) :
    (match x with
      | none => none
      | some b => some b.shapes) = x.map (fun b => b.shapes) := by
  cases x <;> rfl

theorem SameBelow.mono {n k : Nat} {a b : PackState α} (hnk : n ≤ k) (h : SameBelow k a b) :
    SameBelow n a b :=
  ⟨h.1, fun j hj => h.2 j (by omega)⟩

variable [LinearOrderedField α]

theorem shapes_place_stream (m : Libm α) (fuel nshapes : Nat) (l : Int)
    (st0 st : PackState α) (h : make_random_shapes_place m fuel nshapes l st0 = some st) :
    st.rn.stream = st0.rn.stream :=
  (placeFrom_slots (shapesAttempt m l) (fun st => st.rn.stream = st0.rn.stream)
    (fun _ _ => True)
    (fun i st hr => by simpa [shapesAttempt, next1f] using hr)
    (fun _ _ _ => trivial) (fun _ _ _ _ _ => trivial)
    fuel (nshapes - 1) 1 st0 st h rfl (fun _ _ _ => trivial)).1

theorem rigid_place_stream (m : Libm α) (fuel nshapes : Nat) (l : Int)
    (st0 st : PackState α) (h : make_random_rigid_shapes_place m fuel nshapes l st0 = some st) :
    st.rn.stream = st0.rn.stream :=
  (placeFrom_slots (rigidAttempt m l) (fun st => st.rn.stream = st0.rn.stream)
    (fun _ _ => True)
    (fun i st hr => by simpa [rigidAttempt, next1f] using hr)
    (fun _ _ _ => trivial) (fun _ _ _ _ _ => trivial)
    fuel (nshapes - 1) 1 st0 st h rfl (fun _ _ _ => trivial)).1

theorem shapes_place_frame (m : Libm α) (fuel nshapes : Nat) (l : Int)
    (st0 st : PackState α) (hlo : 1 ≤ nshapes)
    (h : make_random_shapes_place m fuel nshapes l st0 = some st) (k : Nat)
    (hk : k = 0 ∨ nshapes ≤ k) :
    st.pos k = st0.pos k ∧ st.radius k = st0.radius k ∧ st.levels k = st0.levels k :=
  placeFrom_frame (shapesAttempt m l) (shapesAttempt_frame m l) fuel (nshapes - 1) 1 st0 st h k
    (by omega)

theorem rigid_place_frame (m : Libm α) (fuel nshapes : Nat) (l : Int)
    (st0 st : PackState α) (hlo : 1 ≤ nshapes)
    (h : make_random_rigid_shapes_place m fuel nshapes l st0 = some st) (k : Nat)
    (hk : k = 0 ∨ nshapes ≤ k) :
    st.pos k = st0.pos k ∧ st.radius k = st0.radius k ∧ st.levels k = st0.levels k :=
  placeFrom_frame (rigidAttempt m l) (rigidAttempt_frame m l) fuel (nshapes - 1) 1 st0 st h k
    (by omega)

variable [FloorRing α]

theorem make_random_shapes_some (m : Libm α) (fuel nshapes : Nat) (l : Int)
    (st0 st : PackState α) (hdraw : ∀ k, 0 ≤ st0.rn.stream k ∧ st0.rn.stream k < 1)
    (h : make_random_shapes_place m fuel nshapes l st0 = some st) :
    ∃ shapes, make_random_shapes m fuel nshapes l st0 = some shapes ∧
      shapes.length = nshapes := by
  have hs := shapes_place_stream m fuel nshapes l st0 st h
  obtain ⟨b1, hb1⟩ := shapesBuild_some st.pos st.radius (nshapes - 1) 1
    ⟨st.levels, st.rn, (List.replicate nshapes none).set 0
      (some (shape.floor 0 6 4 6 ⟨0, 0, -4⟩ ⟨0, 0, 0⟩ ⟨6, 6, 6⟩))⟩
    (by simpa [hs] using hdraw)
  refine ⟨b1.shapes, by simp only [make_random_shapes, h, hb1], ?_⟩
  simpa using (shapesBuild_spec _ _ _ _ _ _ hb1).1

theorem make_random_rigid_shapes_on_some {μ : Type} (materials : List μ) (m : Libm α)
    (fuel nshapes : Nat) (l : Int) (st0 st : PackState α)
    (hdraw : ∀ k, 0 ≤ st0.rn.stream k ∧ st0.rn.stream k < 1)
    (hlo : 1 ≤ nshapes) (hmat : nshapes ≤ materials.length)
    (h : make_random_rigid_shapes_place m fuel nshapes l st0 = some st) :
    ∃ shapes, make_random_rigid_shapes_on materials m fuel nshapes l st0 = some shapes ∧
      make_random_rigid_shapes m fuel nshapes l st0 = some shapes ∧
      shapes.length = nshapes := by
  have hs := rigid_place_stream m fuel nshapes l st0 st h
  have h0 : 0 < materials.length := by omega
  have hle : 1 + (nshapes - 1) ≤ materials.length := by omega
  obtain ⟨b1, hb1⟩ := rigidBuildOn_some materials st.pos st.radius (nshapes - 1) 1
    ⟨st.levels, st.rn, (List.replicate nshapes none).set 0
      (some (shape.surface 0 2 stdsurface_type.uvcube ⟨0, -(1 / 2), 0⟩ ⟨0, 0, 0⟩
        ⟨6, 1 / 2, 6⟩))⟩
    (by simpa [hs] using hdraw) hle
  have hb2 := hb1
  rw [rigidBuildOn_eq materials _ _ _ _ _ hle] at hb2
  refine ⟨b1.shapes, ?_, ?_, ?_⟩
  · simp only [make_random_rigid_shapes_on, List.getElem?_eq_getElem h0, h, hb1]
  · simp only [make_random_rigid_shapes, h, hb2]
  · simpa using (rigidBuild_spec _ _ _ _ _ _ hb2).1

theorem make_random_shapes_same (m : Libm α) (fuel nshapes : Nat) (l : Int)
    (a b : PackState α) (hlo : 1 ≤ nshapes) (hab : SameBelow nshapes a b) :
    make_random_shapes m fuel nshapes l a = make_random_shapes m fuel nshapes l b := by
  have hsame := fun i x y (hi : i < nshapes) (hxy : SameBelow nshapes x y) =>
    shapesAttempt_same m l nshapes i x y hi hxy
  cases ha : make_random_shapes_place m fuel nshapes l a with
  | none =>
    cases hb : make_random_shapes_place m fuel nshapes l b with
    | none => simp only [make_random_shapes, ha, hb]
    | some b1 =>
      obtain ⟨a1, ha1, _⟩ := placeFrom_same (shapesAttempt m l) nshapes hsame fuel
        (nshapes - 1) 1 (by omega) b a b1 hab.symm hb
      rw [make_random_shapes_place] at ha
      rw [ha] at ha1
      cases ha1
  | some a1 =>
    obtain ⟨b1, hb, hS⟩ := placeFrom_same (shapesAttempt m l) nshapes hsame fuel
      (nshapes - 1) 1 (by omega) a b a1 hab ha
    have hc := shapesBuild_congr a1.pos b1.pos a1.radius b1.radius (nshapes - 1) 1
      ⟨a1.levels, a1.rn, (List.replicate nshapes none).set 0
        (some (shape.floor 0 6 4 6 ⟨0, 0, -4⟩ ⟨0, 0, 0⟩ ⟨6, 6, 6⟩))⟩
      ⟨b1.levels, b1.rn, (List.replicate nshapes none).set 0
        (some (shape.floor 0 6 4 6 ⟨0, 0, -4⟩ ⟨0, 0, 0⟩ ⟨6, 6, 6⟩))⟩ hS.1 rfl
      (fun k _ h2 => hS.2 k (by omega))
    rw [← make_random_shapes_place] at hb
    simp only [make_random_shapes, ha, hb]
    exact (shapes_of_map _).trans (hc.trans (shapes_of_map _).symm)

theorem make_random_rigid_shapes_on_same {μ : Type} (materials : List μ) (m : Libm α)
    (fuel nshapes : Nat) (l : Int) (a b : PackState α) (hlo : 1 ≤ nshapes)
    (hab : SameBelow nshapes a b) :
    make_random_rigid_shapes_on materials m fuel nshapes l a =
      make_random_rigid_shapes_on materials m fuel nshapes l b := by
  have hsame := fun i x y (hi : i < nshapes) (hxy : SameBelow nshapes x y) =>
    rigidAttempt_same m l nshapes i x y hi hxy
  cases hm : materials[0]? with
  | none => simp only [make_random_rigid_shapes_on, hm]
  | some mat =>
    cases ha : make_random_rigid_shapes_place m fuel nshapes l a with
    | none =>
      cases hb : make_random_rigid_shapes_place m fuel nshapes l b with
      | none => simp only [make_random_rigid_shapes_on, hm, ha, hb]
      | some b1 =>
        obtain ⟨a1, ha1, _⟩ := placeFrom_same (rigidAttempt m l) nshapes hsame fuel
          (nshapes - 1) 1 (by omega) b a b1 hab.symm hb
        rw [make_random_rigid_shapes_place] at ha
        rw [ha] at ha1
        cases ha1
    | some a1 =>
      obtain ⟨b1, hb, hS⟩ := placeFrom_same (rigidAttempt m l) nshapes hsame fuel
        (nshapes - 1) 1 (by omega) a b a1 hab ha
      have hc := rigidBuildOn_congr materials a1.pos b1.pos a1.radius b1.radius
        (nshapes - 1) 1
        ⟨a1.levels, a1.rn, (List.replicate nshapes none).set 0
          (some (shape.surface 0 2 stdsurface_type.uvcube ⟨0, -(1 / 2), 0⟩ ⟨0, 0, 0⟩
            ⟨6, 1 / 2, 6⟩))⟩
        ⟨b1.levels, b1.rn, (List.replicate nshapes none).set 0
          (some (shape.surface 0 2 stdsurface_type.uvcube ⟨0, -(1 / 2), 0⟩ ⟨0, 0, 0⟩
            ⟨6, 1 / 2, 6⟩))⟩ hS.1 rfl
        (fun k _ h2 => hS.2 k (by omega))
      rw [← make_random_rigid_shapes_place] at hb
      simp only [make_random_rigid_shapes_on, hm, ha, hb]
      exact (shapes_of_map _).trans (hc.trans (shapes_of_map _).symm)

end AccessLemmas

/-! ## Claims on the drawn indices -/

/-- C25, counterexample. With `nshapes = 2`, inside `1..1024`, every draw in
`[0, 1)` and an argument `materials` of one entry, `make_random_rigid_shapes`
places object `1` at its first candidate and then reads `materials[1]`, which
is outside the vector. -/
theorem rigid_materials_out_of_bounds :
    (1 ≤ 2 ∧ 2 ≤ 1024) ∧
      (∀ k, 0 ≤ (zeroState [1 / 4, 1 / 2, 0, 1 / 2, 3 / 4]).rn.stream k ∧
        (zeroState [1 / 4, 1 / 2, 0, 1 / 2, 3 / 4]).rn.stream k < 1) ∧
      (make_random_rigid_shapes_place libmQ 1 2 1
        (zeroState [1 / 4, 1 / 2, 0, 1 / 2, 3 / 4])).isSome = true ∧
      ([()] : List Unit)[1]? = none ∧
      make_random_rigid_shapes_on [()] libmQ 1 2 1
        (zeroState [1 / 4, 1 / 2, 0, 1 / 2, 3 / 4]) = none :=
  ⟨by decide, replay_unit _ (by decide!), by decide!, rfl, by decide!⟩

/-- C25, amended. For every draw `u` in `[0, 1)` the texture index
`(int)(6u) - 1` of `make_random_materials` lies in `-1..4` and each of its
non-negative values is inside the five textures of `make_random_textures`,
the kind index `(int)(3u)` of `make_random_shapes` lies in `0..2` and
`(int)(2u)` of `make_random_rigid_shapes` lies in `0..1`, both inside `stypes`.
With all draws in `[0, 1)`, `1 ≤ nshapes ≤ 1024` and an argument `materials` of
`make_random_rigid_shapes` that has at least `nshapes` entries, every access is
within bounds: `make_random_materials` returns its `nshapes` materials, each
packer returns its `nshapes` shapes once its placement loop has ended, no slot
of `pos`, `radius` or `levels` from `1024` on is written by either loop, and
the results do not depend on those slots. -/
theorem random_indices_in_bounds {α μ : Type} [LinearOrderedField α] [FloorRing α]
    (m : Libm α) (materials : List μ) (fuel nshapes : Nat) (l : Int) (rn : rng_pcg32 α)
    (st0 : PackState α)
    (hrn : ∀ k, 0 ≤ rn.stream k ∧ rn.stream k < 1)
    (hst : ∀ k, 0 ≤ st0.rn.stream k ∧ st0.rn.stream k < 1)
    (hlo : 1 ≤ nshapes) (hhi : nshapes ≤ 1024) (hmat : nshapes ≤ materials.length) :
    (∀ u : α, 0 ≤ u → u < 1 →
      (-1 ≤ truncInt (u * 6) - 1 ∧ truncInt (u * 6) - 1 ≤ 4 ∧
        (0 ≤ truncInt (u * 6) - 1 →
          (index? make_random_textures (truncInt (u * 6) - 1)).isSome = true)) ∧
      (0 ≤ truncInt (u * 3) ∧ truncInt (u * 3) ≤ 2 ∧
        (index? [stdsurface_type.uvspherecube, stdsurface_type.uvspherizedcube,
          stdsurface_type.uvflipcapsphere] (truncInt (u * 3))).isSome = true) ∧
      (0 ≤ truncInt (u * 2) ∧ truncInt (u * 2) ≤ 1 ∧
        (index? [stdsurface_type.uvspherecube, stdsurface_type.uvcube]
          (truncInt (u * 2))).isSome = true)) ∧
    (∃ ms, make_random_materials nshapes rn = some ms ∧ ms.length = nshapes) ∧
    (∀ st, make_random_shapes_place m fuel nshapes l st0 = some st →
      (∃ shapes, make_random_shapes m fuel nshapes l st0 = some shapes ∧
        shapes.length = nshapes) ∧
      (∀ k, 1024 ≤ k →
        st.pos k = st0.pos k ∧ st.radius k = st0.radius k ∧ st.levels k = st0.levels k) ∧
      ∀ b0 b, b0.levels = st.levels →
        shapesBuild st.pos st.radius (nshapes - 1) 1 b0 = some b →
        ∀ k, 1024 ≤ k → b.levels k = st0.levels k) ∧
    (∀ st, make_random_rigid_shapes_place m fuel nshapes l st0 = some st →
      (∃ shapes, make_random_rigid_shapes_on materials m fuel nshapes l st0 = some shapes ∧
        make_random_rigid_shapes m fuel nshapes l st0 = some shapes ∧
        shapes.length = nshapes) ∧
      (∀ k, 1024 ≤ k →
        st.pos k = st0.pos k ∧ st.radius k = st0.radius k ∧ st.levels k = st0.levels k) ∧
      ∀ b0 b, b0.levels = st.levels →
        rigidBuildOn materials st.pos st.radius (nshapes - 1) 1 b0 = some b →
        ∀ k, 1024 ≤ k → b.levels k = st0.levels k) ∧
    (∀ st1, SameBelow 1024 st0 st1 →
      make_random_shapes m fuel nshapes l st1 = make_random_shapes m fuel nshapes l st0 ∧
      make_random_rigid_shapes_on materials m fuel nshapes l st1 =
        make_random_rigid_shapes_on materials m fuel nshapes l st0) := by
  refine ⟨fun u h0 h1 => ⟨?_, ?_, ?_⟩, make_random_materials_some nshapes rn hlo hrn,
    fun st h => ⟨make_random_shapes_some m fuel nshapes l st0 st hst h,
      fun k hk => shapes_place_frame m fuel nshapes l st0 st hlo h k (by omega), ?_⟩,
    fun st h => ⟨make_random_rigid_shapes_on_some materials m fuel nshapes l st0 st hst hlo
        hmat h,
      fun k hk => rigid_place_frame m fuel nshapes l st0 st hlo h k (by omega), ?_⟩,
    fun st1 h => ⟨?_, ?_⟩⟩
  · obtain ⟨g0, g1⟩ := truncInt_six u h0 h1
    refine ⟨by omega, by omega, fun hnn => ?_⟩
    obtain ⟨x, hx⟩ := index?_some make_random_textures (truncInt (u * 6) - 1) hnn
      (by simp [make_random_textures]; omega)
    rw [hx]
    rfl
  · obtain ⟨g0, g1⟩ := truncInt_three u h0 h1
    refine ⟨g0, g1, ?_⟩
    obtain ⟨x, hx⟩ := index?_some [stdsurface_type.uvspherecube,
      stdsurface_type.uvspherizedcube, stdsurface_type.uvflipcapsphere]
      (truncInt (u * 3)) g0 (by simp; omega)
    rw [hx]
    rfl
  · obtain ⟨g0, g1⟩ := truncInt_two u h0 h1
    refine ⟨g0, g1, ?_⟩
    obtain ⟨x, hx⟩ := index?_some [stdsurface_type.uvspherecube, stdsurface_type.uvcube]
      (truncInt (u * 2)) g0 (by simp; omega)
    rw [hx]
    rfl
  · intro b0 b hb0 hb k hk
    rw [shapesBuild_levels _ _ _ _ _ _ hb k (by omega), hb0]
    exact (shapes_place_frame m fuel nshapes l st0 st hlo h k (by omega)).2.2
  · intro b0 b hb0 hb k hk
    rw [rigidBuildOn_levels materials _ _ _ _ _ _ hb, hb0]
    exact (rigid_place_frame m fuel nshapes l st0 st hlo h k (by omega)).2.2
  · exact (make_random_shapes_same m fuel nshapes l st0 st1 hlo (h.mono hhi)).symm
  · exact (make_random_rigid_shapes_on_same materials m fuel nshapes l st0 st1 hlo
      (h.mono hhi)).symm

/-- Witness of C25 on the rationals: three materials, and both packers with
`nshapes = 3` on a `materials` vector of three entries. -/
theorem random_indices_in_bounds_witness :
    (∃ ms, make_random_materials 3
        (replay [1 / 4, 1 / 2, 3 / 4, 1 / 2, 3 / 4, 1 / 8, 0, 0, 0, 0, 1 / 4]) = some ms ∧
      ms.length = 3) ∧
    (∃ shapes, make_random_shapes libmQ 1 3 1
        (zeroState [0, 0, 3 / 4, 0, 1 / 4, 3 / 4, 0, 1 / 2, 1 / 2, 0]) = some shapes ∧
      shapes.length = 3) ∧
    (∃ shapes, make_random_rigid_shapes_on [(), (), ()] libmQ 1 3 1
        (zeroState [0, 0, 3 / 4, 0, 1 / 4, 3 / 4, 0, 1 / 2, 1 / 2, 0]) = some shapes ∧
      make_random_rigid_shapes libmQ 1 3 1
        (zeroState [0, 0, 3 / 4, 0, 1 / 4, 3 / 4, 0, 1 / 2, 1 / 2, 0]) = some shapes ∧
      shapes.length = 3) := by
  have h := random_indices_in_bounds libmQ [(), (), ()] 1 3 1
    (replay [1 / 4, 1 / 2, 3 / 4, 1 / 2, 3 / 4, 1 / 8, 0, 0, 0, 0, 1 / 4])
    (zeroState [0, 0, 3 / 4, 0, 1 / 4, 3 / 4, 0, 1 / 2, 1 / 2, 0])
    (replay_unit _ (by decide!)) (replay_unit _ (by decide!)) (by decide) (by decide)
    (by decide)
  obtain ⟨st, hst⟩ := Option.isSome_iff_exists.mp
    (show (make_random_shapes_place libmQ 1 3 1
      (zeroState [0, 0, 3 / 4, 0, 1 / 4, 3 / 4, 0, 1 / 2, 1 / 2, 0])).isSome = true
      by decide!)
  obtain ⟨rt, hrt⟩ := Option.isSome_iff_exists.mp
    (show (make_random_rigid_shapes_place libmQ 1 3 1
      (zeroState [0, 0, 3 / 4, 0, 1 / 4, 3 / 4, 0, 1 / 2, 1 / 2, 0])).isSome = true
      by decide!)
  exact ⟨h.2.1, (h.2.2.1 st hst).1, (h.2.2.2.1 rt hrt).1⟩

end Ytestgen
